import Mathlib

/-!
# Verification of `verilog/analysis/flow_tree.cc`

A shallow embedding of the preprocessor control-flow-tree builder and
variant enumerator of `FlowTree`, with theorems checking the
natural-language specification against the code.

Token positions are natural-number indices into the token sequence; the
`end()` iterator of a sequence of length `n` is represented by the index
`n` itself.  Fallible C++ operations (dereferencing `end()`, calling
`back()` on an empty `std::vector`, indexing a `std::vector` or
`std::bitset` out of range) are modelled as explicit error outcomes, so
that undefined behaviour in the source is visible as a distinguished
result rather than silently given a meaning.
-/

set_option maxHeartbeats 1000000

namespace FlowTreeSpec

/-- Token kinds relevant to `FlowTree` (`verilog_token_enum.h`): the five
conditional directives, `PP_define`/`PP_define_body`, `PP_Identifier`, and
one kind standing for every other (ordinary) token enum. -/
inductive TokKind where
  | ordinary
  | ppIdentifier
  | ppIfdef
  | ppIfndef
  | ppElsif
  | ppElse
  | ppEndif
  | ppDefine
  | ppDefineBody
deriving DecidableEq, Repr

/-- A token: its kind (`token_enum()`) and its text (`text()`). -/
structure Token where
  kind : TokKind
  text : String
deriving DecidableEq, Repr

/-- `FlowTree::IsConditional`: one of the five conditional directives. -/
def isConditional (k : TokKind) : Bool :=
  k == .ppIfndef || k == .ppIfdef || k == .ppElsif || k == .ppElse ||
    k == .ppEndif

/-- `ConditionalBlock`: iterators are indices; the `end()` sentinel is the
sequence length `n` (this is how `empty_block` initialises all fields). -/
structure ConditionalBlock where
  ifdefIt : Nat
  ifndefIt : Nat
  elseIt : Nat
  endifIt : Nat
  elsifs : List Nat
deriving DecidableEq, Repr

/-- `empty_block` of `GenerateControlFlowTree`: every iterator is `end()`. -/
def emptyBlock (n : Nat) : ConditionalBlock :=
  ⟨n, n, n, n, []⟩

/-- The edge map `edges_`: a `std::map` from position to vector of successor
positions, with `operator[]` default-constructing an empty vector. -/
def EdgeFun : Type := Nat → List Nat

/-- `edges_[p].push_back(q)`. -/
def addEdge (e : EdgeFun) (p q : Nat) : EdgeFun :=
  fun i => if i = p then e i ++ [q] else e i

/-- Outcomes of graph construction that are not success.
`invalidMacroName` is the `absl::InvalidArgumentError` path ("Error couldn't
give a macro an ID"); the `UB` constructors mark undefined behaviour in the
source (dereferencing `end()`, `back()`/`pop_back()` on an empty vector). -/
inductive BuildErr where
  | invalidMacroName
  | derefEndUB
  | emptyStackUB
deriving DecidableEq, Repr

/-- The mutable state of `FlowTree` during `GenerateControlFlowTree`:
the open-block stack `if_blocks_` (top of stack at the head, matching
`back()`/`push_back`/`pop_back`), the edge map `edges_`, the macro table
`conditional_macro_id_` (insertion-ordered association list) and
`conditional_macros_counter`. -/
structure BState where
  blocks : List ConditionalBlock
  edges : EdgeFun
  macroMap : List (String × Int)
  counter : Int

/-- Modelled from the spec: the declaration and initial value of
`conditional_macros_counter` live in `flow_tree.h`, which is not part of the
available source.  The spec's Macro Registry "assigns a small dense integer
identifier (0..N-1 ...) to each distinct macro name ... on first sight, in
linear scan order"; since `AddMacroOfConditionalToMap` increments the counter
before assigning it, the first-sight id is 0 exactly when the counter starts
at -1. -/
def initialMacroCounter : Int := -1

/-- `FlowTree::AddMacroOfConditionalToMap`, including the inlined
`MacroFollows` check.  `t` is the token under `conditional_iterator`, `next`
the token after it (`none` when the directive is the last token, in which
case `MacroFollows` dereferences `end()`).  On success returns the updated
`(conditional_macro_id_, conditional_macros_counter)`. -/
def addMacroOfConditionalToMap (t : Token) (next : Option Token)
    (mp : List (String × Int)) (ctr : Int) :
    Except BuildErr (List (String × Int) × Int) :=
  if t.kind == .ppIfdef || t.kind == .ppIfndef || t.kind == .ppElsif then
    match next with
    | none => .error .derefEndUB
    | some m =>
      if m.kind == .ppIdentifier then
        if (mp.lookup m.text).isSome then .ok (mp, ctr)
        else .ok (mp ++ [(m.text, ctr + 1)], ctr + 1)
      else .error .invalidMacroName
  else .error .invalidMacroName

/-- The `elsif` loop of `FlowTree::AddBlockEdges`: for each `elsif`, a
true-edge to the following position and a false-edge to the next `elsif`,
else to the `else` if present, else to the `endif`. -/
def elsifChainEdges (n : Nat) (blk : ConditionalBlock) :
    List Nat → EdgeFun → EdgeFun
  | [], e => e
  | [x], e =>
    let e1 := addEdge e x (x + 1)
    if blk.elseIt ≠ n then addEdge e1 x blk.elseIt
    else addEdge e1 x blk.endifIt
  | x :: y :: rest, e =>
    let e1 := addEdge e x (x + 1)
    let e2 := addEdge e1 x y
    elsifChainEdges n blk (y :: rest) e2

/-- `FlowTree::AddBlockEdges`.  `n` is the sequence length (the `end()`
sentinel), `nextTok` the token following the `endif` (`none` at EOF). -/
def addBlockEdges (n : Nat) (nextTok : Option Token)
    (blk : ConditionalBlock) (e0 : EdgeFun) : EdgeFun :=
  let containsElsif := !blk.elsifs.isEmpty
  let containsElse := blk.elseIt ≠ n
  let o := if blk.ifdefIt = n then blk.ifndefIt else blk.ifdefIt
  let e1 := addEdge e0 o (o + 1)
  let e2 :=
    if containsElsif then addEdge e1 o (blk.elsifs.headD 0)
    else if containsElse then addEdge e1 o blk.elseIt
    else addEdge e1 o blk.endifIt
  let e3 := elsifChainEdges n blk blk.elsifs e2
  let e4 :=
    if containsElse then addEdge e3 blk.elseIt (blk.elseIt + 1) else e3
  let e5 := addEdge e4 (blk.endifIt - 1) blk.endifIt
  let e6 :=
    if containsElsif then
      blk.elsifs.foldl (fun acc x => addEdge acc (x - 1) blk.endifIt) e5
    else if containsElse then addEdge e5 (blk.elseIt - 1) blk.endifIt
    else e5
  match nextTok with
  | some nt =>
    if nt.kind != .ppElse && nt.kind != .ppElsif && nt.kind != .ppEndif then
      addEdge e6 blk.endifIt (blk.endifIt + 1)
    else e6
  | none => e6

/-- The non-conditional branch of the `GenerateControlFlowTree` loop: add a
normal edge to the next position unless the next token is
`else`/`elsif`/`endif` (or there is no next token). -/
def buildStepNormal (pos : Nat) (next : Option Token) (st : BState) :
    BState :=
  match next with
  | some nt =>
    if nt.kind != .ppElse && nt.kind != .ppElsif && nt.kind != .ppEndif then
      { st with edges := addEdge st.edges pos (pos + 1) }
    else st
  | none => st

/-- The loop of `FlowTree::GenerateControlFlowTree`, processing the remaining
tokens `rest` starting at absolute position `pos` (so `rest` is the suffix
of the full sequence from `pos`, and `rest.head?` is the lookahead). -/
def buildAux (n : Nat) : List Token → Nat → BState → Except BuildErr BState
  | [], _, st => .ok st
  | t :: rest, pos, st =>
    if isConditional t.kind then
      match t.kind with
      | .ppIfdef =>
        let blk := { emptyBlock n with ifdefIt := pos }
        match addMacroOfConditionalToMap t rest.head? st.macroMap st.counter
          with
        | .error e => .error e
        | .ok (mp, ctr) =>
          buildAux n rest (pos + 1)
            { st with blocks := blk :: st.blocks, macroMap := mp,
                      counter := ctr }
      | .ppIfndef =>
        let blk := { emptyBlock n with ifndefIt := pos }
        match addMacroOfConditionalToMap t rest.head? st.macroMap st.counter
          with
        | .error e => .error e
        | .ok (mp, ctr) =>
          buildAux n rest (pos + 1)
            { st with blocks := blk :: st.blocks, macroMap := mp,
                      counter := ctr }
      | .ppElsif =>
        match st.blocks with
        | [] => .error .emptyStackUB
        | b :: bs =>
          match addMacroOfConditionalToMap t rest.head? st.macroMap
            st.counter with
          | .error e => .error e
          | .ok (mp, ctr) =>
            buildAux n rest (pos + 1)
              { st with blocks := { b with elsifs := b.elsifs ++ [pos] } :: bs,
                        macroMap := mp, counter := ctr }
      | .ppElse =>
        match st.blocks with
        | [] => .error .emptyStackUB
        | b :: bs =>
          buildAux n rest (pos + 1)
            { st with blocks := { b with elseIt := pos } :: bs }
      | .ppEndif =>
        match st.blocks with
        | [] => .error .emptyStackUB
        | b :: bs =>
          let blk := { b with endifIt := pos }
          buildAux n rest (pos + 1)
            { st with blocks := bs,
                      edges := addBlockEdges n rest.head? blk st.edges }
      | _ => buildAux n rest (pos + 1) st
    else
      buildAux n rest (pos + 1) (buildStepNormal pos rest.head? st)

/-- `FlowTree::GenerateControlFlowTree` on a token sequence. -/
def generateControlFlowTree (src : List Token) : Except BuildErr BState :=
  buildAux src.length src 0
    ⟨[], fun _ => [], [], initialMacroCounter⟩

/-- The read-only data the DFS consults: the token sequence, the finished
edge map and the finished macro table. -/
structure FlowTree where
  src : List Token
  edges : EdgeFun
  macroMap : List (String × Int)

/-- Errors during traversal.  `derefEndUB` models dereferencing `end()`;
`bitsetRangeUB` models `std::bitset<128>` element access with an index that
is negative or at least 128 (which throws `std::out_of_range`);
`edgeIndexUB` models `vector::operator[]` out of range; `outOfFuel` marks
exhaustion of the recursion bound of the model (the C++ recursion has no
such bound and this outcome never occurs on graphs whose edges point
forward). -/
inductive DfsErr where
  | derefEndUB
  | bitsetRangeUB
  | edgeIndexUB
  | outOfFuel
deriving DecidableEq, Repr

/-- One invocation of the `VariantReceiver`: the token sequence passed, the
variant counter passed, and the `is_complete` flag. -/
structure RCall where
  seq : List Token
  idx : Nat
  complete : Bool
deriving DecidableEq, Repr

/-- The receiver callback: arguments as in `RCall`, returning
"continue?". -/
def Receiver : Type := List Token → Nat → Bool → Bool

/-- The mutable `FlowTree` members touched by `DepthFirstSearch`
(`current_sequence_`, `variants_counter_`, `current_macros_`), plus the
trace of receiver invocations made so far (an observation of the run, not a
C++ member). -/
structure DfsState where
  seq : List Token
  cnt : Nat
  macros : Nat → Bool
  calls : List RCall

/-- `std::bitset<128>::test`: throws `out_of_range` unless `0 ≤ i < 128`. -/
def bitsetTest (b : Nat → Bool) (i : Int) : Except DfsErr Bool :=
  if 0 ≤ i ∧ i < 128 then .ok (b i.toNat) else .error .bitsetRangeUB

/-- `std::bitset<128>::flip(i)`. -/
def bitsetFlip (b : Nat → Bool) (i : Int) :
    Except DfsErr (Nat → Bool) :=
  if 0 ≤ i ∧ i < 128 then
    .ok (fun j => if j = i.toNat then !b j else b j)
  else .error .bitsetRangeUB

/-- `std::bitset<128>::set(i)`. -/
def bitsetSet (b : Nat → Bool) (i : Int) :
    Except DfsErr (Nat → Bool) :=
  if 0 ≤ i ∧ i < 128 then
    .ok (fun j => if j = i.toNat then true else b j)
  else .error .bitsetRangeUB

/-- `std::bitset<128>::reset(i)`. -/
def bitsetReset (b : Nat → Bool) (i : Int) :
    Except DfsErr (Nat → Bool) :=
  if 0 ≤ i ∧ i < 128 then
    .ok (fun j => if j = i.toNat then false else b j)
  else .error .bitsetRangeUB

/-- `FlowTree::GetMacroIDOfConditional` (with its inlined `MacroFollows`):
returns -1 when `MacroFollows` fails with a status, and looks the macro text
up in `conditional_macro_id_` otherwise (`std::map::operator[]` yields 0 for
an absent key).  Dereferencing `end()` is undefined behaviour. -/
def getMacroIDOfConditional (src : List Token)
    (mp : List (String × Int)) (pos : Nat) : Except DfsErr Int :=
  match src.get? pos with
  | none => .error .derefEndUB
  | some t =>
    if t.kind == .ppIfdef || t.kind == .ppIfndef || t.kind == .ppElsif then
      match src.get? (pos + 1) with
      | none => .error .derefEndUB
      | some m =>
        if m.kind == .ppIdentifier then .ok ((mp.lookup m.text).getD 0)
        else .ok (-1)
    else .ok (-1)

/-- The emission filter of `DepthFirstSearch`: a token is appended to
`current_sequence_` exactly when its kind is none of the eight listed
preprocessor kinds. -/
def emitted (k : TokKind) : Bool :=
  k != .ppIdentifier && k != .ppIfndef && k != .ppIfdef &&
    k != .ppDefine && k != .ppDefineBody && k != .ppElsif &&
    k != .ppElse && k != .ppEndif

/-- The tail of a `DepthFirstSearch` call: the completed-variant check
(`current_node == source_sequence_.end() - 1`, i.e. `pos + 1 = n`, with the
receiver's return value discarded and the counter incremented) followed by
the balancing `pop_back` of the emission buffer. -/
def dfsFinish (n : Nat) (tok : Token) (pos : Nat) (st : DfsState) :
    DfsState × Option DfsErr :=
  let st1 :=
    if pos + 1 = n then
      { st with calls := st.calls ++ [⟨st.seq, st.cnt, true⟩],
                cnt := st.cnt + 1 }
    else st
  if emitted tok.kind then ({ st1 with seq := st1.seq.dropLast }, none)
  else (st1, none)

/-- One iteration of the `for (auto next_node : edges_[current_node])` loop
of `DepthFirstSearch`: recurse into the successor unless an earlier
iteration already failed. -/
def dfsLoopStep
    (next : Nat → (Nat → Bool) → DfsState → DfsState × Option DfsErr)
    (assumed : Nat → Bool) (acc : DfsState × Option DfsErr) (p : Nat) :
    DfsState × Option DfsErr :=
  match acc with
  | (st, some e) => (st, some e)
  | (st, none) => next p assumed st

/-- The part of one `FlowTree::DepthFirstSearch` call after the partial
receiver invocation and the push of step 2 (`st2` is the state with the
token already appended when it is emitted): the branch handling, the
successor recursion, and the completion-and-pop tail.  The recursive call
is abstracted as `next`. -/
def dfsCore (ft : FlowTree)
    (next : Nat → (Nat → Bool) → DfsState → DfsState × Option DfsErr)
    (pos : Nat) (tok : Token) (assumed : Nat → Bool) (st2 : DfsState) :
    DfsState × Option DfsErr :=
        if tok.kind == .ppIfdef || tok.kind == .ppIfndef ||
            tok.kind == .ppElsif then
          match getMacroIDOfConditional ft.src ft.macroMap pos with
          | .error e => (st2, some e)
          | .ok macroId =>
            let negated := tok.kind == .ppIfndef
            match bitsetTest assumed macroId with
            | .error e => (st2, some e)
            | .ok true =>
              match bitsetTest st2.macros macroId with
              | .error e => (st2, some e)
              | .ok mval =>
                let cond := xor negated mval
                match (ft.edges pos).get? (if cond then 0 else 1) with
                | none => (st2, some .edgeIndexUB)
                | some nxt =>
                  match next nxt assumed st2 with
                  | (st3, some e) => (st3, some e)
                  | (st3, none) => dfsFinish ft.src.length tok pos st3
            | .ok false =>
              match bitsetFlip assumed macroId with
              | .error e => (st2, some e)
              | .ok assumed2 =>
                match
                  (if negated then bitsetReset st2.macros macroId
                   else bitsetSet st2.macros macroId) with
                | .error e => (st2, some e)
                | .ok mac1 =>
                  match (ft.edges pos).get? 0 with
                  | none => ({ st2 with macros := mac1 }, some .edgeIndexUB)
                  | some t0 =>
                    match next t0 assumed2 { st2 with macros := mac1 } with
                    | (st3, some e) => (st3, some e)
                    | (st3, none) =>
                      match
                        (if negated then bitsetSet st3.macros macroId
                         else bitsetReset st3.macros macroId) with
                      | .error e => (st3, some e)
                      | .ok mac2 =>
                        match (ft.edges pos).get? 1 with
                        | none =>
                          ({ st3 with macros := mac2 }, some .edgeIndexUB)
                        | some t1 =>
                          match next t1 assumed2 { st3 with macros := mac2 }
                            with
                          | (st4, some e) => (st4, some e)
                          | (st4, none) =>
                            dfsFinish ft.src.length tok pos st4
        else
          match
            (ft.edges pos).foldl (dfsLoopStep next assumed) (st2, none) with
          | (st3, some e) => (st3, some e)
          | (st3, none) => dfsFinish ft.src.length tok pos st3

/-- The body of one `FlowTree::DepthFirstSearch` call, with the recursive
call abstracted as `next`: the partial receiver invocation, the
token-dereference, the push of step 2, then `dfsCore`.  `assumed` is the
by-value `std::bitset<128>` parameter; `st` carries the mutable members. -/
def dfsBody (R : Receiver) (ft : FlowTree)
    (next : Nat → (Nat → Bool) → DfsState → DfsState × Option DfsErr)
    (pos : Nat) (assumed : Nat → Bool) (st : DfsState) :
    DfsState × Option DfsErr :=
    let st1 : DfsState :=
      { st with calls := st.calls ++ [⟨st.seq, st.cnt, false⟩] }
    if R st.seq st.cnt false = false then (st1, none)
    else
      match ft.src.get? pos with
      | none => (st1, some .derefEndUB)
      | some tok =>
        let st2 :=
          if emitted tok.kind then { st1 with seq := st1.seq ++ [tok] }
          else st1
        dfsCore ft next pos tok assumed st2

/-- `FlowTree::DepthFirstSearch`: the body above, iterated along a `Nat`
recursion-depth bound; every recursive call of the source decreases the
bound by one (on graphs whose edges strictly increase positions, a bound
larger than the sequence length never runs out). -/
def dfs (R : Receiver) (ft : FlowTree) :
    Nat → Nat → (Nat → Bool) → DfsState → DfsState × Option DfsErr
  | 0, _, _, st => (st, some .outOfFuel)
  | fuel + 1, pos, assumed, st => dfsBody R ft (dfs R ft fuel) pos assumed st

/-- `FlowTree::GenerateVariants`: a fresh all-zero `assumed` bitset, the DFS
started at `begin()` (position 0).  `seq0`, `cnt0`, `macros0` are the values
of the member variables at the time of the call (`current_sequence_`,
`variants_counter_`, `current_macros_`); the receiver-call trace of this run
starts empty.  The fuel `ft.src.length + 1` is enough for any graph whose
edges strictly increase positions, which holds for every graph built by
`generateControlFlowTree`. -/
def generateVariants (R : Receiver) (ft : FlowTree) (seq0 : List Token)
    (cnt0 : Nat) (macros0 : Nat → Bool) : DfsState × Option DfsErr :=
  dfs R ft (ft.src.length + 1) 0 (fun _ => false) ⟨seq0, cnt0, macros0, []⟩

/-- A receiver that always continues. -/
def alwaysTrue : Receiver := fun _ _ _ => true

/-- A receiver that always stops. -/
def recvNever : Receiver := fun _ _ _ => false

/-- The full pipeline on a fresh `FlowTree` object:
`GenerateControlFlowTree` followed by `GenerateVariants`, with the member
variables at their initial values (`current_sequence_` empty,
`variants_counter_` zero, `current_macros_` all-zero). -/
def enumerate (src : List Token) (R : Receiver) :
    Except BuildErr (DfsState × Option DfsErr) :=
  match generateControlFlowTree src with
  | .error e => .error e
  | .ok bst =>
    .ok (generateVariants R ⟨src, bst.edges, bst.macroMap⟩ [] 0
      (fun _ => false))

/-- Observable projection of the pipeline: the receiver-call trace and the
traversal outcome (dropping the function-valued components, which keeps the
result decidably comparable). -/
def enumCalls (src : List Token) (R : Receiver) :
    Except BuildErr (List RCall × Option DfsErr) :=
  match enumerate src R with
  | .error e => .error e
  | .ok (st, e) => .ok (st.calls, e)

/-- The complete variants of a receiver-call trace, in order: the delivered
token sequence and the variant index of each `is_complete = true` call. -/
def variantsOf (calls : List RCall) : List (List Token × Nat) :=
  calls.filterMap (fun c => if c.complete then some (c.seq, c.idx) else none)

/-- Some concrete tokens for concrete scenarios. -/
def tokOrd (s : String) : Token := ⟨.ordinary, s⟩

def tokId (s : String) : Token := ⟨.ppIdentifier, s⟩

def tokIfdef : Token := ⟨.ppIfdef, "ifdef"⟩

def tokIfndef : Token := ⟨.ppIfndef, "ifndef"⟩

def tokElsif : Token := ⟨.ppElsif, "elsif"⟩

def tokElse : Token := ⟨.ppElse, "else"⟩

def tokEndif : Token := ⟨.ppEndif, "endif"⟩

def tokDefine : Token := ⟨.ppDefine, "define"⟩

deriving instance DecidableEq for Except

/-- The outcome of graph construction alone: `none` on success, the error
otherwise. -/
def buildOutcome (src : List Token) : Option BuildErr :=
  match generateControlFlowTree src with
  | .error e => some e
  | .ok _ => none

/-- The number of entries of `conditional_macro_id_` after a successful
build (the number of distinct macros referenced by conditionals). -/
def buildMapLen (src : List Token) : Option Nat :=
  match generateControlFlowTree src with
  | .error _ => none
  | .ok st => some st.macroMap.length

/-- The id assigned to a macro name after a successful build. -/
def macroIdOf (src : List Token) (nm : String) : Option Int :=
  match generateControlFlowTree src with
  | .error _ => none
  | .ok st => st.macroMap.lookup nm

/-- The successor-edge list of one position after a successful build. -/
def edgeListAt (src : List Token) (pos : Nat) : Option (List Nat) :=
  match generateControlFlowTree src with
  | .error _ => none
  | .ok st => some (st.edges pos)

/-- The traversal outcome of the full pipeline (`none` if the build itself
failed; otherwise `some` of the DFS outcome). -/
def traverseOutcome (src : List Token) (R : Receiver) :
    Option (Option DfsErr) :=
  match enumCalls src R with
  | .ok (_, e) => some e
  | .error _ => none

/-- The complete variants of the full pipeline, provided both the build and
the traversal succeed. -/
def enumVariants (src : List Token) (R : Receiver) :
    Option (List (List Token × Nat)) :=
  match enumCalls src R with
  | .ok (cs, none) => some (variantsOf cs)
  | _ => none

/-- The `FlowTree` (read-only graph data) built from an input, with empty
defaults if construction fails. -/
def ftOf (src : List Token) : FlowTree :=
  match generateControlFlowTree src with
  | .ok bst => ⟨src, bst.edges, bst.macroMap⟩
  | .error _ => ⟨src, fun _ => [], []⟩

/-- Two consecutive `GenerateVariants` calls on the same `FlowTree` object:
the second call starts from the member values (`current_sequence_`,
`variants_counter_`, `current_macros_`) left behind by the first.  Returns
the receiver-call trace and outcome of each run. -/
def twoRunCalls (src : List Token) (R : Receiver) :
    Option ((List RCall × Option DfsErr) × (List RCall × Option DfsErr)) :=
  match generateControlFlowTree src with
  | .error _ => none
  | .ok bst =>
    let ft : FlowTree := ⟨src, bst.edges, bst.macroMap⟩
    let r1 := generateVariants R ft [] 0 (fun _ => false)
    let r2 := generateVariants R ft r1.1.seq r1.1.cnt r1.1.macros
    some ((r1.1.calls, r1.2), (r2.1.calls, r2.2))

/-- An input referencing 129 distinct macros, one more than the 128-bit
capacity of the assumption bitsets: 129 consecutive
`ifdef <i> endif` blocks. -/
def bigInput : List Token :=
  (List.range 129).flatMap (fun i => [tokIfdef, tokId (toString i), tokEndif])

/-- A receiver that answers `false` to the partial-mode invocation whose
current sequence is `[A]`, and `true` to every other invocation. -/
def recvPruneOnA : Receiver :=
  fun s _ c => if s = [tokOrd "A"] ∧ c = false then false else true

/-- The registration loop of the registry viewed on its own: the
`AddMacroOfConditionalToMap` core applied to a list of macro-name
occurrences (each attached to an `ifdef` directive, as during the scan),
starting from a given table and counter. -/
def registerLoop :
    List String → List (String × Int) → Int → List (String × Int) × Int
  | [], mp, ctr => (mp, ctr)
  | nm :: rest, mp, ctr =>
    match addMacroOfConditionalToMap tokIfdef (some (tokId nm)) mp ctr with
    | .ok (mp2, c2) => registerLoop rest mp2 c2
    | .error _ => registerLoop rest mp ctr

/-- The distinct names of a list in first-occurrence order, relative to a
set of names already seen. -/
def firstSeenAux (seen : List String) : List String → List String
  | [] => []
  | x :: xs =>
    if x ∈ seen then firstSeenAux seen xs
    else x :: firstSeenAux (x :: seen) xs

/-- Consecutive integer ids starting at `k`, attached to a list of names in
order. -/
def denseIds : List String → Int → List (String × Int)
  | [], _ => []
  | x :: xs, k => (x, k) :: denseIds xs (k + 1)

/-- A receiver call with its variant index shifted by `d`. -/
def shiftCall (d : Nat) (c : RCall) : RCall :=
  ⟨c.seq, c.idx + d, c.complete⟩

/-- The simulation relation between the mutable DFS states of two runs of
the search over the same graph: equal emission buffers, variant counters
differing by the fixed shift `d`, receiver-call traces equal up to shifting
every variant index by `d`, and `current_macros_` agreeing on every macro
id recorded in the `assumed` set `B`. -/
def SimRel (B : Nat → Bool) (d : Nat) (s₁ s₂ : DfsState) : Prop :=
  s₂.seq = s₁.seq ∧ s₂.cnt = s₁.cnt + d ∧
    s₂.calls = s₁.calls.map (shiftCall d) ∧
    ∀ i, B i = true → s₂.macros i = s₁.macros i

/-- The edges the build loop adds on a run of non-conditional tokens
starting at position `p`: one normal edge per position except the last. -/
def chainEdges (e : EdgeFun) (p : Nat) : List Token → EdgeFun
  | [] => e
  | [_] => e
  | _ :: t :: rest => chainEdges (addEdge e p (p + 1)) (p + 1) (t :: rest)

/-- The partial-mode receiver calls the search makes while walking a chain
of non-branching tokens: one call per position, with the emission buffer
growing by each emitted token. -/
def freePartials (seq0 : List Token) (c : Nat) : List Token → List RCall
  | [] => []
  | t :: rest =>
    ⟨seq0, c, false⟩ ::
      freePartials (if emitted t.kind then seq0 ++ [t] else seq0) c rest

/-- The input schema of two sibling `ifdef` blocks on the same macro `m`,
with arbitrary surrounding segments: `P ifdef m B1 endif Q ifdef m B2 endif
RR`. -/
def siblingInput (m : String) (P B1 Q B2 RR : List Token) : List Token :=
  P ++ [tokIfdef, tokId m] ++ B1 ++ [tokEndif] ++ Q ++
    [tokIfdef, tokId m] ++ B2 ++ [tokEndif] ++ RR

/-- The input schema `ifdef m B1 elsif nm B2 else B3 endif`. -/
def elsifElseInput (m nm : String) (B1 B2 B3 : List Token) : List Token :=
  [tokIfdef, tokId m] ++ B1 ++ [tokElsif, tokId nm] ++ B2 ++ [tokElse] ++
    B3 ++ [tokEndif]

/-- Whether the build loop's lookahead allows a normal next-position edge:
yes unless the lookahead token is `else`/`elsif`/`endif` or absent. -/
def openTok : Option Token → Bool
  | some nt =>
    nt.kind != .ppElse && nt.kind != .ppElsif && nt.kind != .ppEndif
  | none => false

/-- The edges the build loop adds on a run of non-conditional tokens
starting at position `p`, given whether the lookahead after the run is
open: one normal edge per position, except that the last position gets its
edge exactly when the lookahead is open. -/
def segEdges (e : EdgeFun) (p : Nat) (fOpen : Bool) : List Token → EdgeFun
  | [] => e
  | [_] => if fOpen then addEdge e p (p + 1) else e
  | _ :: t :: rest =>
    segEdges (addEdge e p (p + 1)) (p + 1) fOpen (t :: rest)

/-- The successor lists of the graph built from `siblingInput`, pointwise:
each of the two `ifdef` positions gets the pair (macro-name position,
matching `endif`), every other position short of the last gets the single
next-position edge, and the last position gets none. -/
def sibEdgeSpec (a b q c r j : Nat) : List Nat :=
  if j = a then [a + 1, a + 2 + b]
  else if j = a + 3 + b + q then [a + 4 + b + q, a + 5 + b + q + c]
  else if j + 1 < a + b + q + c + r + 6 then [j + 1]
  else []

/-- The edge map built on `siblingInput`, as the composition of the
segment and block layers laid down by the build loop. -/
def sibGraphEdges (m : String) (P B1 Q B2 RR : List Token) (n : Nat) :
    EdgeFun :=
  segEdges
    (addBlockEdges n RR.head?
      ⟨P.length + (B1.length + 3) + Q.length, n, n,
       P.length + (B1.length + 3) + Q.length + (B2.length + 2), []⟩
      (segEdges
        (segEdges
          (addBlockEdges n
            (Q ++ tokIfdef :: tokId m :: (B2 ++ tokEndif :: RR)).head?
            ⟨P.length, n, n, P.length + (B1.length + 2), []⟩
            (segEdges (segEdges (fun _ => []) 0 true P)
              (P.length + 1) false (tokId m :: B1)))
          (P.length + (B1.length + 3)) true Q)
        (P.length + (B1.length + 3) + Q.length + 1) false (tokId m :: B2)))
    (P.length + (B1.length + 3) + Q.length + (B2.length + 3)) false RR

/-- The successor lists of the graph built from `elsifElseInput`,
pointwise: the `ifdef` and `elsif` positions branch; the last position of
body 1 jumps to the `endif`; the last position of body 2 has no successors
(the missing pre-`else` merge edge); every other position short of the
last steps forward. -/
def elsifEdgeSpec (b1 b2 b3 j : Nat) : List Nat :=
  if j = 0 then [1, b1 + 2]
  else if j = b1 + 1 then [b1 + b2 + b3 + 5]
  else if j = b1 + 2 then [b1 + 3, b1 + b2 + 4]
  else if j = b1 + b2 + 3 then []
  else if j + 1 < b1 + b2 + b3 + 6 then [j + 1]
  else []

/-- The edge map built on `elsifElseInput`, as the layers laid down by the
build loop. -/
def elsifGraphEdges (m nm : String) (B1 B2 B3 : List Token) (n : Nat) :
    EdgeFun :=
  addBlockEdges n none
    ⟨0, n, B1.length + B2.length + 4, B1.length + B2.length + B3.length + 5,
     [B1.length + 2]⟩
    (segEdges
      (segEdges (segEdges (fun _ => []) 1 false (tokId m :: B1))
        (B1.length + 3) false (tokId nm :: B2))
      (B1.length + B2.length + 5) false B3)

/-- A key is found by `List.lookup` exactly when it occurs among the keys
of the association list. -/
theorem lookup_isSome_iff_mem (nm : String) (mp : List (String × Int)) :
    (List.lookup nm mp).isSome = true ↔ nm ∈ mp.map Prod.fst := by
  induction mp with
  | nil => simp [List.lookup]
  | cons p rest ih =>
    obtain ⟨k, v⟩ := p
    by_cases h : nm = k
    · subst h; simp [List.lookup]
    · have hb : (nm == k) = false := beq_eq_false_iff_ne.2 h
      simp [List.lookup, hb, ih, h]

/-- `firstSeenAux` only depends on the membership of the seen-set. -/
theorem firstSeenAux_congr (names : List String) :
    ∀ s₁ s₂, (∀ a, a ∈ s₁ ↔ a ∈ s₂) →
      firstSeenAux s₁ names = firstSeenAux s₂ names := by
  induction names with
  | nil => intro _ _ _; rfl
  | cons x xs ih =>
    intro s₁ s₂ hs
    by_cases hx : x ∈ s₁
    · have hx2 : x ∈ s₂ := (hs x).1 hx
      simp only [firstSeenAux, if_pos hx, if_pos hx2]
      exact ih s₁ s₂ hs
    · have hx2 : x ∉ s₂ := fun h => hx ((hs x).2 h)
      simp only [firstSeenAux, if_neg hx, if_neg hx2]
      refine congrArg (x :: ·) (ih _ _ ?_)
      intro a
      simp only [List.mem_cons]
      exact or_congr Iff.rfl (hs a)

/-- The registration loop, from an arbitrary table and counter: every name
not yet in the table is appended with the next counter value, in
first-occurrence order; names already present leave the table and counter
unchanged. -/
theorem registerLoop_spec (names : List String) :
    ∀ mp ctr, registerLoop names mp ctr =
      (mp ++ denseIds (firstSeenAux (mp.map Prod.fst) names) (ctr + 1),
       ctr + (firstSeenAux (mp.map Prod.fst) names).length) := by
  induction names with
  | nil => intro mp ctr; simp [registerLoop, firstSeenAux, denseIds]
  | cons nm rest ih =>
    intro mp ctr
    have haddm0 : addMacroOfConditionalToMap tokIfdef (some (tokId nm)) mp
        ctr =
        (if (List.lookup nm mp).isSome then Except.ok (mp, ctr)
         else Except.ok (mp ++ [(nm, ctr + 1)], ctr + 1)) := rfl
    rw [registerLoop, haddm0]
    by_cases h : (List.lookup nm mp).isSome = true
    · have hmem : nm ∈ mp.map Prod.fst := (lookup_isSome_iff_mem nm mp).1 h
      rw [if_pos h]
      have hfs : firstSeenAux (mp.map Prod.fst) (nm :: rest) =
          firstSeenAux (mp.map Prod.fst) rest := by
        simp [firstSeenAux, hmem]
      rw [hfs]
      exact ih mp ctr
    · have hmem : nm ∉ mp.map Prod.fst :=
        fun hm => h ((lookup_isSome_iff_mem nm mp).2 hm)
      rw [if_neg h]
      have hfs : firstSeenAux (mp.map Prod.fst) (nm :: rest) =
          nm :: firstSeenAux (nm :: mp.map Prod.fst) rest := by
        simp [firstSeenAux, hmem]
      rw [hfs]
      refine Eq.trans (ih (mp ++ [(nm, ctr + 1)]) (ctr + 1)) ?_
      have hkeys : (mp ++ [(nm, ctr + 1)]).map Prod.fst =
          mp.map Prod.fst ++ [nm] := by simp
      rw [hkeys, firstSeenAux_congr rest (mp.map Prod.fst ++ [nm])
        (nm :: mp.map Prod.fst) (fun a => by simp [or_comm])]
      simp only [denseIds, Prod.mk.injEq]
      refine ⟨by simp, ?_⟩
      simp only [List.length_cons]
      push_cast
      ring

/-- Folding the successor loop from an error accumulator changes nothing
(the C++ loop has already returned). -/
theorem dfsLoop_frozen
    (next : Nat → (Nat → Bool) → DfsState → DfsState × Option DfsErr)
    (A : Nat → Bool) (l : List Nat) (u : DfsState) (e : DfsErr) :
    l.foldl (dfsLoopStep next A) (u, some e) = (u, some e) := by
  induction l with
  | nil => rfl
  | cons p ps ih => simpa [List.foldl_cons, dfsLoopStep] using ih

/-- If every recursive call restores the emission buffer on success, so
does the successor loop. -/
theorem dfsLoop_seq_restore
    (next : Nat → (Nat → Bool) → DfsState → DfsState × Option DfsErr)
    (A : Nat → Bool)
    (hnext : ∀ p B s u, next p B s = (u, none) → u.seq = s.seq) :
    ∀ (l : List Nat) (s u : DfsState),
      l.foldl (dfsLoopStep next A) (s, none) = (u, none) → u.seq = s.seq := by
  intro l
  induction l with
  | nil => intro s u h; cases h; rfl
  | cons p ps ih =>
    intro s u h
    rw [List.foldl_cons] at h
    cases hn : next p A s with
    | mk t e =>
      rw [show dfsLoopStep next A (s, none) p = next p A s from rfl, hn] at h
      cases e with
      | some e0 =>
        rw [dfsLoop_frozen] at h
        simp at h
      | none =>
        rw [ih t u h, hnext p A s t hn]

/-- The completion-and-pop tail of a call restores the emission buffer to
its value before the push of step 2. -/
theorem dfsFinish_seq (n : Nat) (tok : Token) (pos : Nat) (s u : DfsState)
    (e : Option DfsErr) (h : dfsFinish n tok pos s = (u, e)) :
    u.seq = (if emitted tok.kind then s.seq.dropLast else s.seq) := by
  simp only [dfsFinish] at h
  have hseq : (if pos + 1 = n then
      { s with calls := s.calls ++ [⟨s.seq, s.cnt, true⟩],
               cnt := s.cnt + 1 } else s).seq = s.seq := by
    split <;> rfl
  by_cases hem : emitted tok.kind = true
  · rw [if_pos hem] at h
    cases h
    rw [if_pos hem, hseq]
  · rw [if_neg hem] at h
    cases h
    rw [if_neg hem, hseq]

/-- One call of the search body restores the emission buffer on success,
provided every recursive call does. -/
theorem dfsBody_seq_restore (R : Receiver) (ft : FlowTree)
    (next : Nat → (Nat → Bool) → DfsState → DfsState × Option DfsErr)
    (hnext : ∀ p B s u, next p B s = (u, none) → u.seq = s.seq)
    (pos : Nat) (A : Nat → Bool) (st st' : DfsState)
    (h : dfsBody R ft next pos A st = (st', none)) : st'.seq = st.seq := by
  simp only [dfsBody, dfsCore] at h
  split at h
  · cases h; rfl
  · split at h
    · simp at h
    · rename_i tok htok
      split at h
      · -- branching directive
        split at h
        · simp at h
        · rename_i mid hmid
          split at h
          · simp at h
          · -- assumed: single successor
            split at h
            · simp at h
            · rename_i mval hmval
              split at h
              · simp at h
              · rename_i nxt hnxt
                split at h
                · simp at h
                · rename_i st3 heq
                  have h3 := hnext _ _ _ _ heq
                  have h4 := dfsFinish_seq _ _ _ _ _ _ h
                  cases hem : emitted tok.kind
                  · simp [hem] at h3 h4
                    simp [h4, h3]
                  · simp [hem] at h3 h4
                    simp [h4, h3, List.dropLast_concat]
          · -- not assumed: both successors
            split at h
            · simp at h
            · rename_i assumed2 hflip
              split at h
              · simp at h
              · rename_i mac1 hmac1
                split at h
                · simp at h
                · rename_i t0 ht0
                  split at h
                  · simp at h
                  · rename_i st3 heq3
                    split at h
                    · simp at h
                    · rename_i mac2 hmac2
                      split at h
                      · simp at h
                      · rename_i t1 ht1
                        split at h
                        · simp at h
                        · rename_i st4 heq4
                          have h3 := hnext _ _ _ _ heq3
                          have h4 := hnext _ _ _ _ heq4
                          have h5 := dfsFinish_seq _ _ _ _ _ _ h
                          cases hem : emitted tok.kind
                          · simp [hem] at h3 h4 h5
                            simp [h5, h4, h3]
                          · simp [hem] at h3 h4 h5
                            simp [h5, h4, h3, List.dropLast_concat]
      · -- non-branching: successor loop
        split at h
        · simp at h
        · rename_i st3 heq
          have h3 := dfsLoop_seq_restore next A hnext _ _ _ heq
          have h4 := dfsFinish_seq _ _ _ _ _ _ h
          cases hem : emitted tok.kind
          · simp [hem] at h3 h4
            simp [h4, h3]
          · simp [hem] at h3 h4
            simp [h4, h3, List.dropLast_concat]

/-- `DepthFirstSearch` restores `current_sequence_` on every successful
return: pushes and pops of the emission buffer balance. -/
theorem dfs_seq_restore (R : Receiver) (ft : FlowTree) :
    ∀ (fuel pos : Nat) (A : Nat → Bool) (st st' : DfsState),
      dfs R ft fuel pos A st = (st', none) → st'.seq = st.seq := by
  intro fuel
  induction fuel with
  | zero =>
    intro pos A st st' h
    rw [dfs] at h
    simp at h
  | succ fuel ih =>
    intro pos A st st' h
    rw [dfs] at h
    exact dfsBody_seq_restore R ft (dfs R ft fuel)
      (fun p B s u hu => ih p B s u hu) pos A st st' h

/-- Inversion of a successful bitset test: the index is in range and the
value is the bit. -/
theorem bitsetTest_ok_inv (b : Nat → Bool) (i : Int) (v : Bool)
    (h : bitsetTest b i = .ok v) :
    (0 ≤ i ∧ i < 128) ∧ b i.toNat = v := by
  unfold bitsetTest at h
  split at h
  · exact ⟨by assumption, by cases h; rfl⟩
  · cases h

/-- `bitsetTest` on an in-range index. -/
theorem bitsetTest_ok (b : Nat → Bool) (i : Int) (h0 : 0 ≤ i)
    (h1 : i < 128) : bitsetTest b i = .ok (b i.toNat) := by
  simp [bitsetTest, h0, h1]

/-- `bitsetFlip` on an in-range index. -/
theorem bitsetFlip_ok (b : Nat → Bool) (i : Int) (h0 : 0 ≤ i)
    (h1 : i < 128) :
    bitsetFlip b i = .ok (fun j => if j = i.toNat then !b j else b j) := by
  simp [bitsetFlip, h0, h1]

/-- `bitsetSet` on an in-range index. -/
theorem bitsetSet_ok (b : Nat → Bool) (i : Int) (h0 : 0 ≤ i)
    (h1 : i < 128) :
    bitsetSet b i = .ok (fun j => if j = i.toNat then true else b j) := by
  simp [bitsetSet, h0, h1]

/-- `bitsetReset` on an in-range index. -/
theorem bitsetReset_ok (b : Nat → Bool) (i : Int) (h0 : 0 ≤ i)
    (h1 : i < 128) :
    bitsetReset b i = .ok (fun j => if j = i.toNat then false else b j) := by
  simp [bitsetReset, h0, h1]

/-- The simulation relation restricted to a smaller assumed-set. -/
theorem simRel_mono (B B' : Nat → Bool) (d : Nat) (s₁ s₂ : DfsState)
    (hBB : ∀ i, B i = true → B' i = true) (h : SimRel B' d s₁ s₂) :
    SimRel B d s₁ s₂ :=
  ⟨h.1, h.2.1, h.2.2.1, fun i hi => h.2.2.2 i (hBB i hi)⟩

/-- The simulation relation survives the synchronized partial receiver
call, the synchronized push of the same token, and a synchronized write of
the same value to the same macro bit. -/
theorem simRel_partial_push_write (B : Nat → Bool) (d : Nat)
    (s₁ s₂ : DfsState) (h : SimRel B d s₁ s₂) :
    SimRel B d { s₁ with calls := s₁.calls ++ [⟨s₁.seq, s₁.cnt, false⟩] }
      { s₂ with calls := s₂.calls ++ [⟨s₂.seq, s₂.cnt, false⟩] } := by
  obtain ⟨hs, hc, hl, hm⟩ := h
  exact ⟨hs, hc, by simp [hl, hs, hc, shiftCall], hm⟩

/-- Synchronized push of the same token. -/
theorem simRel_push (B : Nat → Bool) (d : Nat) (tok : Token)
    (s₁ s₂ : DfsState) (h : SimRel B d s₁ s₂) :
    SimRel B d { s₁ with seq := s₁.seq ++ [tok] }
      { s₂ with seq := s₂.seq ++ [tok] } := by
  obtain ⟨hs, hc, hl, hm⟩ := h
  exact ⟨by simp [hs], hc, hl, hm⟩

/-- Synchronized write of the same value to the same bit. -/
theorem simRel_write (B : Nat → Bool) (d : Nat) (j : Nat) (v : Bool)
    (s₁ s₂ : DfsState) (h : SimRel B d s₁ s₂) :
    SimRel B d { s₁ with macros := fun i => if i = j then v else s₁.macros i }
      { s₂ with macros := fun i => if i = j then v else s₂.macros i } := by
  obtain ⟨hs, hc, hl, hm⟩ := h
  refine ⟨hs, hc, hl, fun i hi => ?_⟩
  by_cases hij : i = j
  · simp [hij]
  · simp [hij, hm i hi]

/-- The completion-and-pop tail preserves the simulation relation, and its
outcome component is `none` on both sides. -/
theorem dfsFinish_sim (n : Nat) (tok : Token) (pos : Nat) (B : Nat → Bool)
    (d : Nat) (s₁ s₂ : DfsState) (h : SimRel B d s₁ s₂) :
    (dfsFinish n tok pos s₂).2 = (dfsFinish n tok pos s₁).2 ∧
      SimRel B d (dfsFinish n tok pos s₁).1 (dfsFinish n tok pos s₂).1 := by
  obtain ⟨hs, hc, hl, hm⟩ := h
  simp only [dfsFinish]
  by_cases hn : pos + 1 = n
  · simp only [if_pos hn]
    by_cases hem : emitted tok.kind = true
    · simp only [if_pos hem]
      refine ⟨trivial, by simp [hs], ?_, ?_, hm⟩
      · show s₂.cnt + 1 = s₁.cnt + 1 + d
        omega
      · show s₂.calls ++ [(⟨s₂.seq, s₂.cnt, true⟩ : RCall)] =
          (s₁.calls ++ [(⟨s₁.seq, s₁.cnt, true⟩ : RCall)]).map (shiftCall d)
        simp [hl, hs, hc, shiftCall]
    · simp only [if_neg hem]
      refine ⟨trivial, hs, ?_, ?_, hm⟩
      · show s₂.cnt + 1 = s₁.cnt + 1 + d
        omega
      · show s₂.calls ++ [(⟨s₂.seq, s₂.cnt, true⟩ : RCall)] =
          (s₁.calls ++ [(⟨s₁.seq, s₁.cnt, true⟩ : RCall)]).map (shiftCall d)
        simp [hl, hs, hc, shiftCall]
  · simp only [if_neg hn]
    by_cases hem : emitted tok.kind = true
    · simp only [if_pos hem]
      exact ⟨trivial, by simp [hs], hc, hl, hm⟩
    · simp only [if_neg hem]
      exact ⟨trivial, hs, hc, hl, hm⟩

/-- The successor loop preserves the simulation relation. -/
theorem dfsLoop_sim
    (next : Nat → (Nat → Bool) → DfsState → DfsState × Option DfsErr)
    (B : Nat → Bool) (d : Nat)
    (hnext : ∀ p C s₁ s₂, SimRel C d s₁ s₂ →
      (next p C s₂).2 = (next p C s₁).2 ∧
        SimRel C d (next p C s₁).1 (next p C s₂).1) :
    ∀ (l : List Nat) (s₁ s₂ : DfsState), SimRel B d s₁ s₂ →
      (l.foldl (dfsLoopStep next B) (s₂, none)).2 =
          (l.foldl (dfsLoopStep next B) (s₁, none)).2 ∧
        SimRel B d (l.foldl (dfsLoopStep next B) (s₁, none)).1
          (l.foldl (dfsLoopStep next B) (s₂, none)).1 := by
  intro l
  induction l with
  | nil => intro s₁ s₂ h; exact ⟨rfl, h⟩
  | cons p ps ih =>
    intro s₁ s₂ h
    rw [List.foldl_cons, List.foldl_cons]
    rw [show dfsLoopStep next B (s₁, none) p = next p B s₁ from rfl]
    rw [show dfsLoopStep next B (s₂, none) p = next p B s₂ from rfl]
    have hrec := hnext p B s₁ s₂ h
    cases h1 : next p B s₁ with
    | mk t₁ e₁ =>
      cases h2 : next p B s₂ with
      | mk t₂ e₂ =>
        rw [h1, h2] at hrec
        obtain ⟨he, hrel⟩ := hrec
        simp only at he hrel
        subst he
        cases e₂ with
        | some e0 =>
          rw [dfsLoop_frozen, dfsLoop_frozen]
          exact ⟨rfl, hrel⟩
        | none => exact ih t₁ t₂ hrel

/-- The first `current_macros_` write of the not-yet-assumed branch
(assume the condition true): `reset` when negated, `set` otherwise. -/
theorem bitsetWriteTrue (neg : Bool) (b : Nat → Bool) (i : Int)
    (h0 : 0 ≤ i) (h1 : i < 128) :
    (if neg then bitsetReset b i else bitsetSet b i) =
      .ok (fun j => if j = i.toNat then !neg else b j) := by
  cases neg
  · simp [bitsetSet_ok b i h0 h1]
  · simp [bitsetReset_ok b i h0 h1]

/-- The second `current_macros_` write of the not-yet-assumed branch
(assume the condition false): `set` when negated, `reset` otherwise. -/
theorem bitsetWriteFalse (neg : Bool) (b : Nat → Bool) (i : Int)
    (h0 : 0 ≤ i) (h1 : i < 128) :
    (if neg then bitsetSet b i else bitsetReset b i) =
      .ok (fun j => if j = i.toNat then neg else b j) := by
  cases neg
  · simp [bitsetReset_ok b i h0 h1]
  · simp [bitsetSet_ok b i h0 h1]

/-- Synchronized write of the same bit, with the assumed-set extended by
that bit (the `assumed.flip` of the not-yet-assumed branch). -/
theorem simRel_write_flip (B : Nat → Bool) (d : Nat) (j : Nat) (v : Bool)
    (s₁ s₂ : DfsState) (h : SimRel B d s₁ s₂) :
    SimRel (fun i => if i = j then !B i else B i) d
      { s₁ with macros := fun i => if i = j then v else s₁.macros i }
      { s₂ with macros := fun i => if i = j then v else s₂.macros i } := by
  obtain ⟨hs, hc, hl, hm⟩ := h
  refine ⟨hs, hc, hl, fun i hi => ?_⟩
  by_cases hij : i = j
  · simp [hij]
  · have hB : B i = true := by simpa [hij] using hi
    simp [hij, hm i hB]

/-- One call of the search core preserves the simulation relation, provided
every recursive call does. -/
theorem dfsCore_sim (ft : FlowTree)
    (next : Nat → (Nat → Bool) → DfsState → DfsState × Option DfsErr)
    (d : Nat)
    (hnext : ∀ p C s₁ s₂, SimRel C d s₁ s₂ →
      (next p C s₂).2 = (next p C s₁).2 ∧
        SimRel C d (next p C s₁).1 (next p C s₂).1)
    (pos : Nat) (tok : Token) (B : Nat → Bool) (u₁ u₂ : DfsState)
    (h : SimRel B d u₁ u₂) :
    (dfsCore ft next pos tok B u₂).2 = (dfsCore ft next pos tok B u₁).2 ∧
      SimRel B d (dfsCore ft next pos tok B u₁).1
        (dfsCore ft next pos tok B u₂).1 := by
  simp only [dfsCore]
  by_cases hbr : (tok.kind == TokKind.ppIfdef ||
      tok.kind == TokKind.ppIfndef || tok.kind == TokKind.ppElsif) = true
  · simp only [if_pos hbr]
    cases hmid : getMacroIDOfConditional ft.src ft.macroMap pos with
    | error e => exact ⟨rfl, h⟩
    | ok mid =>
      simp only []
      cases hbt : bitsetTest B mid with
      | error e => exact ⟨rfl, h⟩
      | ok bval =>
        obtain ⟨⟨h0, h1⟩, hbit⟩ := bitsetTest_ok_inv B mid bval hbt
        cases bval with
        | true =>
          simp only [bitsetTest_ok u₁.macros mid h0 h1,
            bitsetTest_ok u₂.macros mid h0 h1]
          have hmv : u₂.macros mid.toNat = u₁.macros mid.toNat :=
            h.2.2.2 _ hbit
          rw [hmv]
          cases hedge : (ft.edges pos).get?
              (if (xor (tok.kind == TokKind.ppIfndef)
                (u₁.macros mid.toNat)) = true then 0 else 1) with
          | none => exact ⟨rfl, h⟩
          | some nxt =>
            simp only []
            have hrec := hnext nxt B u₁ u₂ h
            cases hn1 : next nxt B u₁ with
            | mk t₁ e₁ =>
              cases hn2 : next nxt B u₂ with
              | mk t₂ e₂ =>
                rw [hn1, hn2] at hrec
                obtain ⟨he, hrel⟩ := hrec
                simp only at he hrel
                subst he
                cases e₂ with
                | some e0 => exact ⟨rfl, hrel⟩
                | none =>
                  exact dfsFinish_sim ft.src.length tok pos B d t₁ t₂ hrel
        | false =>
          have hBsub : ∀ i, B i = true →
              (fun j => if j = mid.toNat then !B j else B j) i = true := by
            intro i hB
            by_cases hij : i = mid.toNat
            · rw [hij] at hB
              rw [hbit] at hB
              cases hB
            · simp [hij, hB]
          simp only [bitsetFlip_ok B mid h0 h1,
            bitsetWriteTrue (tok.kind == TokKind.ppIfndef) u₁.macros mid
              h0 h1,
            bitsetWriteTrue (tok.kind == TokKind.ppIfndef) u₂.macros mid
              h0 h1]
          cases hedge0 : (ft.edges pos).get? 0 with
          | none =>
            exact ⟨rfl, simRel_write B d mid.toNat
              (!(tok.kind == TokKind.ppIfndef)) u₁ u₂ h⟩
          | some t0 =>
            simp only []
            have hflip := simRel_write_flip B d mid.toNat
              (!(tok.kind == TokKind.ppIfndef)) u₁ u₂ h
            have hrec := hnext t0
              (fun j => if j = mid.toNat then !B j else B j) _ _ hflip
            cases hn1 : next t0 (fun j => if j = mid.toNat then !B j else B j)
                { u₁ with macros :=
                    fun j => if j = mid.toNat
                      then !(tok.kind == TokKind.ppIfndef)
                      else u₁.macros j } with
            | mk t₁ e₁ =>
              cases hn2 : next t0
                  (fun j => if j = mid.toNat then !B j else B j)
                  { u₂ with macros :=
                      fun j => if j = mid.toNat
                        then !(tok.kind == TokKind.ppIfndef)
                        else u₂.macros j } with
              | mk t₂ e₂ =>
                rw [hn1, hn2] at hrec
                obtain ⟨he, hrel⟩ := hrec
                simp only at he hrel
                subst he
                cases e₂ with
                | some e0 => exact ⟨rfl, simRel_mono B _ d _ _ hBsub hrel⟩
                | none =>
                  simp only [bitsetWriteFalse (tok.kind == TokKind.ppIfndef)
                      t₁.macros mid h0 h1,
                    bitsetWriteFalse (tok.kind == TokKind.ppIfndef)
                      t₂.macros mid h0 h1]
                  cases hedge1 : (ft.edges pos).get? 1 with
                  | none =>
                    exact ⟨rfl, simRel_mono B _ d _ _ hBsub
                      (simRel_write _ d mid.toNat
                        (tok.kind == TokKind.ppIfndef) t₁ t₂ hrel)⟩
                  | some t1 =>
                    simp only []
                    have hrel2 := simRel_write _ d mid.toNat
                      (tok.kind == TokKind.ppIfndef) t₁ t₂ hrel
                    have hrec2 := hnext t1
                      (fun j => if j = mid.toNat then !B j else B j) _ _ hrel2
                    cases hn3 : next t1
                        (fun j => if j = mid.toNat then !B j else B j)
                        { t₁ with macros :=
                            fun j => if j = mid.toNat
                              then (tok.kind == TokKind.ppIfndef)
                              else t₁.macros j } with
                    | mk t₃ e₃ =>
                      cases hn4 : next t1
                          (fun j => if j = mid.toNat then !B j else B j)
                          { t₂ with macros :=
                              fun j => if j = mid.toNat
                                then (tok.kind == TokKind.ppIfndef)
                                else t₂.macros j } with
                      | mk t₄ e₄ =>
                        rw [hn3, hn4] at hrec2
                        obtain ⟨he2, hrel3⟩ := hrec2
                        simp only at he2 hrel3
                        subst he2
                        cases e₄ with
                        | some e0 =>
                          exact ⟨rfl, simRel_mono B _ d _ _ hBsub hrel3⟩
                        | none =>
                          have hfin := dfsFinish_sim ft.src.length tok pos _
                            d t₃ t₄ hrel3
                          exact ⟨hfin.1,
                            simRel_mono B _ d _ _ hBsub hfin.2⟩
  · simp only [if_neg hbr]
    have hloop := dfsLoop_sim next B d hnext (ft.edges pos) u₁ u₂ h
    cases hl1 : (ft.edges pos).foldl (dfsLoopStep next B) (u₁, none) with
    | mk v₁ f₁ =>
      cases hl2 : (ft.edges pos).foldl (dfsLoopStep next B) (u₂, none) with
      | mk v₂ f₂ =>
        rw [hl1, hl2] at hloop
        obtain ⟨hf, hrel⟩ := hloop
        simp only at hf hrel
        subst hf
        cases f₂ with
        | some e0 => exact ⟨rfl, hrel⟩
        | none => exact dfsFinish_sim ft.src.length tok pos B d v₁ v₂ hrel

/-- One call of the search body preserves the simulation relation, provided
the receiver always continues and every recursive call preserves it. -/
theorem dfsBody_sim (R : Receiver) (ft : FlowTree)
    (next : Nat → (Nat → Bool) → DfsState → DfsState × Option DfsErr)
    (d : Nat) (hR : ∀ a b c, R a b c = true)
    (hnext : ∀ p C s₁ s₂, SimRel C d s₁ s₂ →
      (next p C s₂).2 = (next p C s₁).2 ∧
        SimRel C d (next p C s₁).1 (next p C s₂).1)
    (pos : Nat) (B : Nat → Bool) (s₁ s₂ : DfsState) (h : SimRel B d s₁ s₂) :
    (dfsBody R ft next pos B s₂).2 = (dfsBody R ft next pos B s₁).2 ∧
      SimRel B d (dfsBody R ft next pos B s₁).1
        (dfsBody R ft next pos B s₂).1 := by
  simp only [dfsBody]
  rw [if_neg (by simp [hR]), if_neg (by simp [hR])]
  have hp := simRel_partial_push_write B d s₁ s₂ h
  cases htok : ft.src.get? pos with
  | none => exact ⟨rfl, hp⟩
  | some tok =>
    by_cases hem : emitted tok.kind = true
    · simp only [if_pos hem]
      exact dfsCore_sim ft next d hnext pos tok B _ _
        (simRel_push B d tok _ _ hp)
    · simp only [if_neg hem]
      exact dfsCore_sim ft next d hnext pos tok B _ _ hp

/-- `DepthFirstSearch` preserves the simulation relation at every fuel,
when the receiver always continues. -/
theorem dfs_sim (R : Receiver) (ft : FlowTree) (d : Nat)
    (hR : ∀ a b c, R a b c = true) :
    ∀ (fuel pos : Nat) (B : Nat → Bool) (s₁ s₂ : DfsState),
      SimRel B d s₁ s₂ →
      (dfs R ft fuel pos B s₂).2 = (dfs R ft fuel pos B s₁).2 ∧
        SimRel B d (dfs R ft fuel pos B s₁).1 (dfs R ft fuel pos B s₂).1 := by
  intro fuel
  induction fuel with
  | zero =>
    intro pos B s₁ s₂ h
    rw [dfs, dfs]
    exact ⟨rfl, h⟩
  | succ fuel ih =>
    intro pos B s₁ s₂ h
    rw [dfs, dfs]
    exact dfsBody_sim R ft (dfs R ft fuel) d hR
      (fun p C t₁ t₂ ht => ih p C t₁ t₂ ht) pos B s₁ s₂ h

/-- C10, amended: calling `GenerateVariants` a second time on the same
already-built graph (same `FlowTree` object, receiver always returning
`true`) replays the search identically — same receiver invocations with the
same token sequences in the same order — except that every variant index is
shifted by the number of variants the first call produced, because
`variants_counter_` is a member variable that is never reset.  (The leftover
`current_macros_` bits from the first run are harmless: a fresh all-zero
`assumed` bitset makes every branching directive re-decide its macro before
reading it.) -/
theorem c10_amended_second_run_shifts (ft : FlowTree) (m0 : Nat → Bool)
    (h1 : (generateVariants alwaysTrue ft [] 0 m0).2 = none) :
    (generateVariants alwaysTrue ft
        (generateVariants alwaysTrue ft [] 0 m0).1.seq
        (generateVariants alwaysTrue ft [] 0 m0).1.cnt
        (generateVariants alwaysTrue ft [] 0 m0).1.macros).2 = none ∧
      (generateVariants alwaysTrue ft
          (generateVariants alwaysTrue ft [] 0 m0).1.seq
          (generateVariants alwaysTrue ft [] 0 m0).1.cnt
          (generateVariants alwaysTrue ft [] 0 m0).1.macros).1.calls =
        (generateVariants alwaysTrue ft [] 0 m0).1.calls.map
          (shiftCall (generateVariants alwaysTrue ft [] 0 m0).1.cnt) := by
  have hseq : (generateVariants alwaysTrue ft [] 0 m0).1.seq = [] := by
    cases hr : dfs alwaysTrue ft (ft.src.length + 1) 0 (fun _ => false)
        ⟨[], 0, m0, []⟩ with
    | mk t e =>
      have h1' : ((t, e) : DfsState × Option DfsErr).2 = none := by
        rw [← hr]
        exact h1
      simp only at h1'
      subst h1'
      have ht := dfs_seq_restore alwaysTrue ft _ _ _ _ _ hr
      show (dfs alwaysTrue ft (ft.src.length + 1) 0 (fun _ => false)
        ⟨[], 0, m0, []⟩).1.seq = []
      rw [hr]
      exact ht
  have hsim := dfs_sim alwaysTrue ft
      (generateVariants alwaysTrue ft [] 0 m0).1.cnt (fun _ _ _ => rfl)
      (ft.src.length + 1) 0 (fun _ => false) ⟨[], 0, m0, []⟩
      ⟨[], (generateVariants alwaysTrue ft [] 0 m0).1.cnt,
        (generateVariants alwaysTrue ft [] 0 m0).1.macros, []⟩
      ⟨rfl, (Nat.zero_add _).symm, rfl, fun i hi => absurd hi (by simp)⟩
  constructor
  · show (dfs alwaysTrue ft (ft.src.length + 1) 0 (fun _ => false)
        ⟨(generateVariants alwaysTrue ft [] 0 m0).1.seq,
         (generateVariants alwaysTrue ft [] 0 m0).1.cnt,
         (generateVariants alwaysTrue ft [] 0 m0).1.macros, []⟩).2 = none
    rw [hseq, hsim.1]
    exact h1
  · show (dfs alwaysTrue ft (ft.src.length + 1) 0 (fun _ => false)
        ⟨(generateVariants alwaysTrue ft [] 0 m0).1.seq,
         (generateVariants alwaysTrue ft [] 0 m0).1.cnt,
         (generateVariants alwaysTrue ft [] 0 m0).1.macros, []⟩).1.calls =
      (generateVariants alwaysTrue ft [] 0 m0).1.calls.map
        (shiftCall (generateVariants alwaysTrue ft [] 0 m0).1.cnt)
    rw [hseq]
    exact hsim.2.2.2.1

/-- Witness for the amended C10 theorem at a concrete instance: the
already-built graph of the input `[A]`. -/
theorem c10_amended_witness :
    (generateVariants alwaysTrue (ftOf [tokOrd "A"]) [] 0
        (fun _ => false)).2 = none ∧
      ((generateVariants alwaysTrue (ftOf [tokOrd "A"])
          (generateVariants alwaysTrue (ftOf [tokOrd "A"]) [] 0
            (fun _ => false)).1.seq
          (generateVariants alwaysTrue (ftOf [tokOrd "A"]) [] 0
            (fun _ => false)).1.cnt
          (generateVariants alwaysTrue (ftOf [tokOrd "A"]) [] 0
            (fun _ => false)).1.macros).2 = none ∧
        (generateVariants alwaysTrue (ftOf [tokOrd "A"])
            (generateVariants alwaysTrue (ftOf [tokOrd "A"]) [] 0
              (fun _ => false)).1.seq
            (generateVariants alwaysTrue (ftOf [tokOrd "A"]) [] 0
              (fun _ => false)).1.cnt
            (generateVariants alwaysTrue (ftOf [tokOrd "A"]) [] 0
              (fun _ => false)).1.macros).1.calls =
          (generateVariants alwaysTrue (ftOf [tokOrd "A"]) [] 0
              (fun _ => false)).1.calls.map
            (shiftCall (generateVariants alwaysTrue (ftOf [tokOrd "A"]) [] 0
              (fun _ => false)).1.cnt)) :=
  ⟨by decide, c10_amended_second_run_shifts (ftOf [tokOrd "A"])
    (fun _ => false) (by decide)⟩

/-- C6: the macro registry assigns dense ids in first-sight order — folding
the registration core of `AddMacroOfConditionalToMap` over any list of
macro-name occurrences (starting from the empty table) produces exactly the
table that maps the k-th distinct name (in scan order) to id k, ids `0..N-1`
with N the number of distinct names; a repeated name leaves the table (and
hence its id) unchanged. -/
theorem c6_registry_dense_first_seen_ids (names : List String) :
    registerLoop names [] initialMacroCounter =
      (denseIds (firstSeenAux [] names) 0,
       initialMacroCounter + (firstSeenAux [] names).length) := by
  have h := registerLoop_spec names [] initialMacroCounter
  simpa [initialMacroCounter] using h

/-- C9, amended: a `false` returned by a partial-mode receiver invocation
aborts only the `DepthFirstSearch` call for that node: the call returns
`OkStatus` at once — after the one partial invocation, with the node's
subtree entirely unexplored and the state otherwise untouched — so
enumeration resumes with the siblings of that node; it does not stop the
whole search. -/
theorem c9_amended_partial_false_prunes_node (R : Receiver) (ft : FlowTree)
    (fuel pos : Nat) (assumed : Nat → Bool) (st : DfsState)
    (h : R st.seq st.cnt false = false) :
    dfs R ft (fuel + 1) pos assumed st =
      ({ st with calls := st.calls ++ [⟨st.seq, st.cnt, false⟩] }, none) := by
  rw [dfs]
  simp [dfsBody, h]

/-- Witness for the amended C9 theorem at a concrete instance: the
always-`false` receiver on the flow tree of the empty input. -/
theorem c9_amended_witness :
    recvNever [] 0 false = false ∧
      dfs recvNever (ftOf []) 1 0 (fun _ => false)
          ⟨[], 0, fun _ => false, []⟩ =
        (⟨[], 0, fun _ => false, [⟨[], 0, false⟩]⟩, none) :=
  ⟨rfl, c9_amended_partial_false_prunes_node recvNever (ftOf []) 0 0
    (fun _ => false) ⟨[], 0, fun _ => false, []⟩ rfl⟩

/-- A non-conditional token is not one of the `else`/`elsif`/`endif`
lookahead kinds. -/
theorem notCond_notCloser (k : TokKind) (h : isConditional k = false) :
    (k != TokKind.ppElse && k != TokKind.ppElsif &&
      k != TokKind.ppEndif) = true := by
  cases k <;> simp_all [isConditional]

/-- A non-conditional token is not a branching directive. -/
theorem notCond_notBranch (k : TokKind) (h : isConditional k = false) :
    (k == TokKind.ppIfdef || k == TokKind.ppIfndef ||
      k == TokKind.ppElsif) = false := by
  cases k <;> simp_all [isConditional]

/-- The build loop on a run of non-conditional tokens: the stack, table and
counter are untouched and the edges extend by the chain edges. -/
theorem buildAux_no_cond :
    ∀ (ts : List Token), (∀ t ∈ ts, isConditional t.kind = false) →
      ∀ (n pos : Nat) (st : BState),
        buildAux n ts pos st =
          .ok { st with edges := chainEdges st.edges pos ts } := by
  intro ts
  induction ts with
  | nil => intro _ n pos st; rfl
  | cons t rest ih =>
    intro hfree n pos st
    have ht : isConditional t.kind = false := hfree t (by simp)
    rw [buildAux, if_neg (by simp [ht])]
    cases rest with
    | nil => simp [buildAux, buildStepNormal, chainEdges]
    | cons t2 rest2 =>
      have ht2 : isConditional t2.kind = false := hfree t2 (by simp)
      have hcl := notCond_notCloser t2.kind ht2
      rw [show buildStepNormal pos ((t2 :: rest2).head?) st =
        { st with edges := addEdge st.edges pos (pos + 1) } from by
          simp [buildStepNormal, hcl]]
      rw [ih (fun x hx => hfree x (by simp [hx])) n (pos + 1)]
      rfl

/-- Pointwise description of the chain edges: position `i` gets the single
edge `i → i+1` exactly when it lies in the run and is not its last
position. -/
theorem chainEdges_spec :
    ∀ (ts : List Token) (p : Nat) (e : EdgeFun) (i : Nat),
      chainEdges e p ts i =
        if p ≤ i ∧ i + 1 < p + ts.length then e i ++ [i + 1] else e i := by
  intro ts
  induction ts with
  | nil =>
    intro p e i
    rw [chainEdges, if_neg (by simp only [List.length_nil]; omega)]
  | cons t rest ih =>
    intro p e i
    cases rest with
    | nil =>
      rw [chainEdges,
        if_neg (by simp only [List.length_cons, List.length_nil]; omega)]
    | cons t2 r2 =>
      rw [chainEdges, ih (p + 1) (addEdge e p (p + 1)) i]
      simp only [addEdge, List.length_cons]
      by_cases hip : i = p
      · subst hip
        have c1 : ¬(i + 1 ≤ i ∧ i + 1 < i + 1 + (r2.length + 1)) := by omega
        have c2 : i ≤ i ∧ i + 1 < i + (r2.length + 1 + 1) := by omega
        simp [c1, c2]
      · have c3 : (p + 1 ≤ i ∧ i + 1 < p + 1 + (r2.length + 1)) ↔
            (p ≤ i ∧ i + 1 < p + (r2.length + 1 + 1)) := by omega
        simp [hip, c3]

/-- The chain-walk partial calls contain no complete call. -/
theorem freePartials_no_variants (ts : List Token) :
    ∀ (seq0 : List Token) (c : Nat), variantsOf (freePartials seq0 c ts) = [] := by
  induction ts with
  | nil => intro seq0 c; rfl
  | cons t rest ih =>
    intro seq0 c
    simp [freePartials, variantsOf] at ih ⊢
    exact ih _ c

/-- Walking a chain of non-branching tokens that ends at the last position
of the sequence: every token is visited once, emitted tokens accumulate,
and exactly one complete receiver call is made, at the last position, with
the filtered suffix appended; afterwards the emission buffer is restored
and the variant counter has advanced by one. -/
theorem dfs_free_walk (ft : FlowTree) :
    ∀ (ts : List Token) (fuel pos : Nat) (A : Nat → Bool) (s : DfsState),
      ts ≠ [] →
      pos + ts.length = ft.src.length →
      (∀ j, ft.src.get? (pos + j) = ts.get? j) →
      (∀ t ∈ ts, (t.kind == TokKind.ppIfdef || t.kind == TokKind.ppIfndef ||
        t.kind == TokKind.ppElsif) = false) →
      (∀ j, j + 1 < ts.length → ft.edges (pos + j) = [pos + j + 1]) →
      ft.edges (ft.src.length - 1) = [] →
      dfs alwaysTrue ft (fuel + ts.length) pos A s =
        (⟨s.seq, s.cnt + 1, s.macros,
          s.calls ++ freePartials s.seq s.cnt ts ++
            [⟨s.seq ++ ts.filter (fun t => emitted t.kind), s.cnt, true⟩]⟩,
         none) := by
  intro ts
  induction ts with
  | nil => intro fuel pos A s hne; exact absurd rfl hne
  | cons t rest ih =>
    intro fuel pos A s _ hlen hts hkind hedges hlast
    have htok : ft.src.get? pos = some t := by
      have h0 := hts 0
      simpa using h0
    have hbr := hkind t (by simp)
    rw [show fuel + (t :: rest).length = (fuel + rest.length) + 1 from rfl]
    rw [dfs]
    simp only [dfsBody]
    rw [if_neg (by simp [alwaysTrue])]
    rw [htok]
    simp only [dfsCore]
    rw [if_neg (by simp [hbr])]
    cases rest with
    | nil =>
      have hplast : ft.edges pos = [] := by
        rw [show pos = ft.src.length - 1 from by
          simp only [List.length_cons, List.length_nil] at hlen; omega]
        exact hlast
      rw [hplast]
      simp only [List.foldl_nil]
      have hn : pos + 1 = ft.src.length := by
        simpa using hlen
      cases hem : emitted t.kind
      · simp [hem, dfsFinish, hn, freePartials]
      · simp [hem, dfsFinish, hn, freePartials, List.dropLast_concat]
    | cons t2 r2 =>
      have he0 : ft.edges pos = [pos + 1] := by
        have h0 := hedges 0 (by simp)
        simpa using h0
      rw [he0]
      simp only [List.foldl_cons, List.foldl_nil, dfsLoopStep]
      have hts' : ∀ j, ft.src.get? (pos + 1 + j) = (t2 :: r2).get? j := by
        intro j
        have hj := hts (j + 1)
        rw [show pos + 1 + j = pos + (j + 1) from by omega]
        simpa using hj
      have hkind' : ∀ x ∈ (t2 :: r2),
          (x.kind == TokKind.ppIfdef || x.kind == TokKind.ppIfndef ||
            x.kind == TokKind.ppElsif) = false :=
        fun x hx => hkind x (by simp [hx])
      have hedges' : ∀ j, j + 1 < (t2 :: r2).length →
          ft.edges (pos + 1 + j) = [pos + 1 + j + 1] := by
        intro j hj
        have hj2 := hedges (j + 1) (by
          simp only [List.length_cons] at hj ⊢
          omega)
        rw [show pos + 1 + j = pos + (j + 1) from by omega, hj2]
      have hlen' : (pos + 1) + (t2 :: r2).length = ft.src.length := by
        simp only [List.length_cons] at hlen ⊢
        omega
      have hnotlast : ¬(pos + 1 = ft.src.length) := by
        simp only [List.length_cons] at hlen
        omega
      rw [ih fuel (pos + 1) A _ (by simp) hlen' hts' hkind' hedges' hlast]
      cases hem : emitted t.kind
      · simp [hem, dfsFinish, hnotlast, freePartials, List.filter_cons]
      · simp [hem, dfsFinish, hnotlast, freePartials, List.filter_cons,
          List.dropLast_concat]

/-- C8, amended: for every NON-EMPTY input containing no conditional
directives, enumeration (with an always-continuing receiver) invokes the
complete-mode receiver exactly once, and the delivered token sequence is
the input with the preprocessor-kind tokens (`PP_Identifier`, `PP_define`,
`PP_define_body`) filtered out — identical to the input exactly when the
input consists of emitted (ordinary) kinds only.  (On the empty input the
traversal instead dereferences `end()` and no complete call occurs.) -/
theorem c8_amended_no_conditionals (ts : List Token) (hne : ts ≠ [])
    (hfree : ∀ t ∈ ts, isConditional t.kind = false) :
    enumVariants ts alwaysTrue =
      some [(ts.filter (fun t => emitted t.kind), 0)] := by
  have hbuild := buildAux_no_cond ts hfree ts.length 0
    ⟨[], fun _ => [], [], initialMacroCounter⟩
  have hgen : generateControlFlowTree ts =
      .ok ⟨[], chainEdges (fun _ => []) 0 ts, [], initialMacroCounter⟩ := by
    rw [generateControlFlowTree]
    exact hbuild
  have hedge : ∀ i, chainEdges (fun _ => []) 0 ts i =
      if i + 1 < ts.length then [i + 1] else [] := by
    intro i
    rw [chainEdges_spec ts 0 (fun _ => []) i]
    by_cases hc : i + 1 < ts.length
    · rw [if_pos (show 0 ≤ i ∧ i + 1 < 0 + ts.length from by omega),
        if_pos hc]
      rfl
    · rw [if_neg (show ¬(0 ≤ i ∧ i + 1 < 0 + ts.length) from by omega),
        if_neg hc]
  have hlen0 : 0 < ts.length := List.length_pos.2 hne
  have hwalk := dfs_free_walk ⟨ts, chainEdges (fun _ => []) 0 ts, []⟩ ts 1 0
    (fun _ => false) ⟨[], 0, fun _ => false, []⟩ hne
    (by simp)
    (by intro j; simp)
    (fun t ht => notCond_notBranch t.kind (hfree t ht))
    (by
      intro j hj
      show chainEdges (fun _ => []) 0 ts (0 + j) = [0 + j + 1]
      simp only [Nat.zero_add]
      rw [hedge j, if_pos hj])
    (by
      show chainEdges (fun _ => []) 0 ts (ts.length - 1) = []
      rw [hedge, if_neg (by omega)])
  have hgv : generateVariants alwaysTrue
      ⟨ts, chainEdges (fun _ => []) 0 ts, []⟩ [] 0 (fun _ => false) =
      (⟨[], 0 + 1, fun _ => false,
        [] ++ freePartials [] 0 ts ++
          [⟨[] ++ ts.filter (fun t => emitted t.kind), 0, true⟩]⟩, none) := by
    rw [generateVariants]
    rw [show (⟨ts, chainEdges (fun _ => []) 0 ts, []⟩ : FlowTree).src.length
      + 1 = 1 + ts.length from by simp [Nat.add_comm]]
    exact hwalk
  have hcalls : enumCalls ts alwaysTrue =
      .ok ([] ++ freePartials [] 0 ts ++
        [⟨[] ++ ts.filter (fun t => emitted t.kind), 0, true⟩], none) := by
    rw [enumCalls, enumerate, hgen]
    simp only []
    rw [hgv]
  rw [enumVariants, hcalls]
  simp only [List.nil_append]
  rw [show variantsOf (freePartials [] 0 ts ++
      [(⟨ts.filter (fun t => emitted t.kind), 0, true⟩ : RCall)]) =
    variantsOf (freePartials [] 0 ts) ++
      variantsOf [(⟨ts.filter (fun t => emitted t.kind), 0, true⟩ : RCall)]
    from by simp [variantsOf]]
  rw [freePartials_no_variants ts [] 0]
  simp [variantsOf]

/-- Witness for the amended C8 theorem at a concrete instance: the
single-ordinary-token input `[A]`. -/
theorem c8_amended_witness :
    ([tokOrd "A"] : List Token) ≠ [] ∧
      (∀ t ∈ [tokOrd "A"], isConditional t.kind = false) ∧
      enumVariants [tokOrd "A"] alwaysTrue =
        some [([tokOrd "A"].filter (fun t => emitted t.kind), 0)] :=
  ⟨by decide, by decide,
    c8_amended_no_conditionals [tokOrd "A"] (by decide) (by decide)⟩

/-- C7: on the input `[A, ifdef, M, B, endif, C]` the pipeline (graph
construction then enumeration with an always-continuing receiver) delivers
exactly two complete variants, in this order: index 0 is `[A, B, C]` (the
true edge is explored first) and index 1 is `[A, C]`. -/
theorem c7_concrete_scenario :
    enumVariants
        [tokOrd "A", tokIfdef, tokId "M", tokOrd "B", tokEndif, tokOrd "C"]
        alwaysTrue =
      some [([tokOrd "A", tokOrd "B", tokOrd "C"], 0),
            ([tokOrd "A", tokOrd "C"], 1)] := by
  decide

/-- C4, counterexample: on the input consisting of the single token
`endif`, graph construction does not return the unmatched-`endif` error
status; it performs `back()` on the empty block stack, which is undefined
behaviour (modelled as the distinguished outcome `emptyStackUB`, distinct
from the `InvalidArgumentError` status outcome `invalidMacroName`). -/
theorem c4_counterexample :
    buildOutcome [tokEndif] = some BuildErr.emptyStackUB ∧
      BuildErr.emptyStackUB ≠ BuildErr.invalidMacroName := by
  decide

/-- C4, amended: on the input `[endif]` graph construction hits undefined
behaviour (`back()`/`pop_back()` on an empty `std::vector`) instead of
reporting an unmatched-`endif` error, and the pipeline consequently invokes
the receiver on no variant at all. -/
theorem c4_amended_empty_stack_ub :
    buildOutcome [tokEndif] = some BuildErr.emptyStackUB ∧
      enumCalls [tokEndif] alwaysTrue =
        Except.error BuildErr.emptyStackUB := by
  decide

set_option maxRecDepth 200000 in
set_option maxHeartbeats 4000000 in
/-- C5, counterexample: an input referencing 129 distinct macros (one more
than the bit-vector capacity of 128) does not make graph construction fail:
`AddMacroOfConditionalToMap` contains no capacity check, all 129 names are
registered, and construction succeeds. -/
theorem c5_counterexample :
    buildMapLen bigInput = some 129 ∧ buildOutcome bigInput = none := by
  decide

set_option maxRecDepth 200000 in
set_option maxHeartbeats 4000000 in
/-- C5, amended: registry resolution performs no capacity check, so graph
construction succeeds even when 129 distinct macros are referenced — and
the 129th name is assigned id 128, which lies outside the valid index range
`0..127` of the `std::bitset<128>` assumption sets used by the traversal
(so the capacity ceiling surfaces only later, as an out-of-range bitset
index, never as a reported build error). -/
theorem c5_amended_no_capacity_check :
    buildOutcome bigInput = none ∧
      macroIdOf bigInput "128" = some 128 ∧ ¬(128 : Int) < 128 := by
  decide

/-- C3, counterexample: on the well-formed input
`[ifdef, M, x, else, endif]` (an `else` branch with an empty body), the
`else` position 3 — which holds no branching directive and is not the last
position of the 5-token sequence — ends up with two successor entries,
`[4, 4]`: its own continue edge `else → else+1` and the merge edge added at
`endif−1`, which is the `else` position itself. -/
theorem c3_counterexample :
    edgeListAt [tokIfdef, tokId "M", tokOrd "x", tokElse, tokEndif] 3 =
      some [4, 4] := by
  decide

/-- C2, counterexample: for `ifdef M b1 elsif N b2 else b3 endif` (all
bodies non-empty, M ≠ N) the pipeline delivers only two complete variants —
`[b1]` (M true) and `[b3]` (M false, N false) — not four: the merge-edge
rules give the last token of the `elsif` body no outgoing edge (the
position before an `else` only gets a merge edge when the block has no
`elsif`), so the (M false, N true) path dead-ends without completing, and
the M-true path never decides N at all. -/
theorem c2_counterexample :
    enumVariants
        (elsifElseInput "M" "N" [tokOrd "b1"] [tokOrd "b2"] [tokOrd "b3"])
        alwaysTrue =
      some [([tokOrd "b1"], 0), ([tokOrd "b3"], 1)] := by
  decide

/-- C8, counterexample: the input consisting of the single `PP_Identifier`
token `X` contains no conditional directive, yet the delivered variant is
`[]`, not the input sequence — identifier tokens are filtered from the
emission buffer; and on the empty input the traversal dereferences the
`end()` iterator (undefined behaviour) after the initial partial call, so
no complete-mode invocation happens at all. -/
theorem c8_counterexample :
    enumCalls [tokId "X"] alwaysTrue =
        .ok ([⟨[], 0, false⟩, ⟨[], 0, true⟩], none) ∧
      enumCalls [] alwaysTrue =
        .ok ([⟨[], 0, false⟩], some DfsErr.derefEndUB) := by
  decide

/-- C9, counterexample: on `[ifdef, M, A, endif]` with a receiver that
returns `false` exactly on the partial call carrying `[A]`, the search does
not stop: after that invocation (the fourth call) the receiver is invoked
twice more — a partial call and a complete call delivering variant `[]`.
Returning `false` only pruned the subtree below the position of `A`. -/
theorem c9_counterexample :
    recvPruneOnA [tokOrd "A"] 0 false = false ∧
      enumCalls [tokIfdef, tokId "M", tokOrd "A", tokEndif] recvPruneOnA =
        .ok ([⟨[], 0, false⟩, ⟨[], 0, false⟩, ⟨[], 0, false⟩,
              ⟨[tokOrd "A"], 0, false⟩, ⟨[], 0, false⟩, ⟨[], 0, true⟩],
          none) := by
  decide

/-- C10, counterexample: calling `GenerateVariants` twice on the
already-built graph of the input `[A]` (receiver always `true`): the first
run delivers the complete variant `[A]` with index 0, the second run
delivers it with index 1 — `variants_counter_` is a member that is never
reset, so the indices differ between the runs. -/
theorem c10_counterexample :
    twoRunCalls [tokOrd "A"] alwaysTrue =
      some (([⟨[], 0, false⟩, ⟨[tokOrd "A"], 0, true⟩], none),
            ([⟨[], 1, false⟩, ⟨[tokOrd "A"], 1, true⟩], none)) := by
  decide

theorem addEdge_ne (e : EdgeFun) (p q i : Nat) (h : i ≠ p) :
    addEdge e p q i = e i := by simp [addEdge, h]

theorem addEdge_at (e : EdgeFun) (p q : Nat) :
    addEdge e p q p = e p ++ [q] := by simp [addEdge]

/-- Pointwise description of the segment edges. -/
theorem segEdges_spec :
    ∀ (ts : List Token) (p : Nat) (f : Bool) (e : EdgeFun) (i : Nat),
      segEdges e p f ts i =
        if p ≤ i ∧ i < p + ts.length ∧
            (i + 1 < p + ts.length ∨ f = true) then e i ++ [i + 1]
        else e i := by
  intro ts
  induction ts with
  | nil =>
    intro p f e i
    rw [segEdges, if_neg (by simp only [List.length_nil]; omega)]
  | cons t rest ih =>
    intro p f e i
    cases rest with
    | nil =>
      simp only [List.length_cons, List.length_nil]
      cases f with
      | false =>
        rw [segEdges, if_neg (by simp), if_neg (by
          simp only [Bool.false_eq_true, or_false]
          omega)]
      | true =>
        rw [segEdges, if_pos (by simp)]
        simp only [addEdge]
        by_cases hip : i = p
        · subst hip
          rw [if_pos rfl, if_pos ⟨le_refl i, by omega, by simp⟩]
        · rw [if_neg hip, if_neg (by rintro ⟨h1, h2, -⟩; exact hip (by omega))]
    | cons t2 r2 =>
      rw [segEdges, ih (p + 1) f (addEdge e p (p + 1)) i]
      simp only [addEdge, List.length_cons]
      by_cases hip : i = p
      · subst hip
        rw [if_neg (by rintro ⟨h1, -, -⟩; omega), if_pos rfl,
          if_pos ⟨le_refl i, by omega, Or.inl (by omega)⟩]
      · rw [if_neg hip]
        have hiff : (p + 1 ≤ i ∧ i < p + 1 + (r2.length + 1) ∧
            (i + 1 < p + 1 + (r2.length + 1) ∨ f = true)) ↔
            (p ≤ i ∧ i < p + (r2.length + 1 + 1) ∧
              (i + 1 < p + (r2.length + 1 + 1) ∨ f = true)) := by
          constructor
          · rintro ⟨h1, h2, h3 | h3⟩
            · exact ⟨by omega, by omega, Or.inl (by omega)⟩
            · exact ⟨by omega, by omega, Or.inr h3⟩
          · rintro ⟨h1, h2, h3 | h3⟩
            · exact ⟨by omega, by omega, Or.inl (by omega)⟩
            · exact ⟨by omega, by omega, Or.inr h3⟩
        exact if_congr hiff rfl rfl

theorem segEdges_out (ts : List Token) (p : Nat) (f : Bool) (e : EdgeFun)
    (i : Nat) (h : ¬(p ≤ i ∧ i < p + ts.length)) :
    segEdges e p f ts i = e i := by
  rw [segEdges_spec, if_neg]
  rintro ⟨h1, h2, -⟩
  exact h ⟨h1, h2⟩

theorem segEdges_in (ts : List Token) (p : Nat) (f : Bool) (e : EdgeFun)
    (i : Nat) (h1 : p ≤ i) (h2 : i + 1 < p + ts.length) :
    segEdges e p f ts i = e i ++ [i + 1] := by
  rw [segEdges_spec, if_pos ⟨h1, by omega, Or.inl h2⟩]

theorem segEdges_last_open (ts : List Token) (p : Nat) (e : EdgeFun)
    (i : Nat) (h1 : p ≤ i) (h2 : i < p + ts.length) :
    segEdges e p true ts i = e i ++ [i + 1] := by
  rw [segEdges_spec, if_pos ⟨h1, h2, Or.inr rfl⟩]

theorem segEdges_last_closed (ts : List Token) (p : Nat) (e : EdgeFun)
    (i : Nat) (h2 : i + 1 = p + ts.length) :
    segEdges e p false ts i = e i := by
  rw [segEdges_spec, if_neg]
  rintro ⟨h1, h3, h4 | h4⟩
  · omega
  · simp at h4

/-- The build loop on a non-conditional run followed by anything: the run
contributes its segment edges and the loop continues after it. -/
theorem buildAux_seg :
    ∀ (ts : List Token), (∀ t ∈ ts, isConditional t.kind = false) →
      ∀ (rest : List Token) (n pos : Nat) (st : BState),
        buildAux n (ts ++ rest) pos st =
          buildAux n rest (pos + ts.length)
            { st with edges :=
                segEdges st.edges pos (openTok rest.head?) ts } := by
  intro ts
  induction ts with
  | nil =>
    intro _ rest n pos st
    simp only [List.nil_append, List.length_nil, Nat.add_zero, segEdges]
  | cons t ts' ih =>
    intro hfree rest n pos st
    have ht : isConditional t.kind = false := hfree t (by simp)
    rw [List.cons_append, buildAux, if_neg (by simp [ht])]
    cases ts' with
    | nil =>
      simp only [List.nil_append]
      have hb : buildStepNormal pos rest.head? st =
          { st with edges :=
              if openTok rest.head? then addEdge st.edges pos (pos + 1)
              else st.edges } := by
        cases hr : rest.head? with
        | none => simp [buildStepNormal, openTok]
        | some nt =>
          by_cases ho : (nt.kind != TokKind.ppElse &&
              nt.kind != TokKind.ppElsif && nt.kind != TokKind.ppEndif) = true
          · simp [buildStepNormal, openTok, ho]
          · simp only [Bool.not_eq_true] at ho
            simp [buildStepNormal, openTok, ho]
      rw [hb]
      rfl
    | cons t2 ts'' =>
      have ht2 : isConditional t2.kind = false := hfree t2 (by simp)
      have hcl := notCond_notCloser t2.kind ht2
      rw [show buildStepNormal pos (((t2 :: ts'') ++ rest).head?) st =
          { st with edges := addEdge st.edges pos (pos + 1) } from by
        simp [buildStepNormal, hcl]]
      rw [ih (fun x hx => hfree x (by simp [hx])) rest n (pos + 1)]
      simp only [List.length_cons]
      rw [show pos + 1 + (ts''.length + 1) = pos + (ts''.length + 1 + 1)
        from by omega]
      rfl

theorem get?_shift (pre X : List Token) (j : Nat) :
    (pre ++ X).get? (pre.length + j) = X.get? j := by
  rw [List.get?_append_right (by omega)]
  congr 1
  omega

theorem openTok_append_cons (Q : List Token) (x : Token) (X : List Token)
    (hQ : ∀ t ∈ Q, isConditional t.kind = false)
    (hx : openTok (some x) = true) :
    openTok ((Q ++ x :: X).head?) = true := by
  cases Q with
  | nil => simpa using hx
  | cons t ts =>
    simpa [openTok] using notCond_notCloser t.kind (hQ t (by simp))

theorem ord_not_cond (t : Token) (h : t.kind = TokKind.ordinary) :
    isConditional t.kind = false := by rw [h]; rfl

theorem ord_not_branch (t : Token) (h : t.kind = TokKind.ordinary) :
    (t.kind == TokKind.ppIfdef || t.kind == TokKind.ppIfndef ||
      t.kind == TokKind.ppElsif) = false := by rw [h]; rfl

theorem branch_not_emitted (k : TokKind)
    (h : (k == TokKind.ppIfdef || k == TokKind.ppIfndef ||
      k == TokKind.ppElsif) = true) : emitted k = false := by
  cases k <;> revert h <;> decide

theorem filter_emitted_ordinary (ts : List Token)
    (h : ∀ t ∈ ts, t.kind = TokKind.ordinary) :
    ts.filter (fun t => emitted t.kind) = ts :=
  List.filter_eq_self.mpr (fun t ht => by rw [h t ht]; rfl)

theorem variantsOf_append (xs ys : List RCall) :
    variantsOf (xs ++ ys) = variantsOf xs ++ variantsOf ys := by
  simp [variantsOf]

theorem addMacro_ifdef_new (m : String) (mp : List (String × Int))
    (ctr : Int) (h : mp.lookup m = none) :
    addMacroOfConditionalToMap tokIfdef (some (tokId m)) mp ctr =
      .ok (mp ++ [(m, ctr + 1)], ctr + 1) := by
  simp [addMacroOfConditionalToMap, tokIfdef, tokId, h]

theorem addMacro_ifdef_old (m : String) (mp : List (String × Int))
    (ctr : Int) (h : (mp.lookup m).isSome) :
    addMacroOfConditionalToMap tokIfdef (some (tokId m)) mp ctr =
      .ok (mp, ctr) := by
  simp [addMacroOfConditionalToMap, tokIfdef, tokId, h]

theorem addMacro_elsif_new (nm : String) (mp : List (String × Int))
    (ctr : Int) (h : mp.lookup nm = none) :
    addMacroOfConditionalToMap tokElsif (some (tokId nm)) mp ctr =
      .ok (mp ++ [(nm, ctr + 1)], ctr + 1) := by
  simp [addMacroOfConditionalToMap, tokElsif, tokId, h]

/-- One loop step of `GenerateControlFlowTree` at an `ifdef`. -/
theorem buildAux_step_ifdef (n p : Nat) (m : String) (L : List Token)
    (bs : List ConditionalBlock) (E : EdgeFun)
    (mp mp2 : List (String × Int)) (ctr ctr2 : Int)
    (hmac : addMacroOfConditionalToMap tokIfdef (some (tokId m)) mp ctr =
      .ok (mp2, ctr2)) :
    buildAux n (tokIfdef :: tokId m :: L) p ⟨bs, E, mp, ctr⟩ =
      buildAux n (tokId m :: L) (p + 1) ⟨⟨p, n, n, n, []⟩ :: bs, E, mp2, ctr2⟩ := by
  rw [buildAux, if_pos (show isConditional tokIfdef.kind = true from rfl)]
  simp only [tokIfdef] at hmac ⊢
  simp only [List.head?_cons]
  rw [hmac]
  simp [emptyBlock]

/-- One loop step of `GenerateControlFlowTree` at an `elsif`. -/
theorem buildAux_step_elsif (n p : Nat) (nm : String) (L : List Token)
    (b : ConditionalBlock) (bs : List ConditionalBlock) (E : EdgeFun)
    (mp mp2 : List (String × Int)) (ctr ctr2 : Int)
    (hmac : addMacroOfConditionalToMap tokElsif (some (tokId nm)) mp ctr =
      .ok (mp2, ctr2)) :
    buildAux n (tokElsif :: tokId nm :: L) p ⟨b :: bs, E, mp, ctr⟩ =
      buildAux n (tokId nm :: L) (p + 1)
        ⟨{ b with elsifs := b.elsifs ++ [p] } :: bs, E, mp2, ctr2⟩ := by
  rw [buildAux, if_pos (show isConditional tokElsif.kind = true from rfl)]
  simp only [tokElsif] at hmac ⊢
  simp only [List.head?_cons]
  rw [hmac]

/-- One loop step of `GenerateControlFlowTree` at an `else`. -/
theorem buildAux_step_else (n p : Nat) (L : List Token)
    (b : ConditionalBlock) (bs : List ConditionalBlock) (E : EdgeFun)
    (mp : List (String × Int)) (ctr : Int) :
    buildAux n (tokElse :: L) p ⟨b :: bs, E, mp, ctr⟩ =
      buildAux n L (p + 1) ⟨{ b with elseIt := p } :: bs, E, mp, ctr⟩ := by
  rw [buildAux, if_pos (show isConditional tokElse.kind = true from rfl)]
  simp only [tokElse]

/-- One loop step of `GenerateControlFlowTree` at an `endif`. -/
theorem buildAux_step_endif (n p : Nat) (L : List Token)
    (b : ConditionalBlock) (bs : List ConditionalBlock) (E : EdgeFun)
    (mp : List (String × Int)) (ctr : Int) :
    buildAux n (tokEndif :: L) p ⟨b :: bs, E, mp, ctr⟩ =
      buildAux n L (p + 1)
        ⟨bs, addBlockEdges n L.head? { b with endifIt := p } E, mp, ctr⟩ := by
  rw [buildAux, if_pos (show isConditional tokEndif.kind = true from rfl)]
  simp only [tokEndif]

theorem addBlockEdges_noElsif (n i F : Nat) (next : Option Token)
    (e : EdgeFun) (hin : i ≠ n) :
    addBlockEdges n next ⟨i, n, n, F, []⟩ e =
      (if openTok next then
        addEdge (addEdge (addEdge (addEdge e i (i + 1)) i F) (F - 1) F)
          F (F + 1)
      else addEdge (addEdge (addEdge e i (i + 1)) i F) (F - 1) F) := by
  cases next with
  | none => simp [addBlockEdges, elsifChainEdges, hin, openTok]
  | some nt =>
    by_cases ho : (nt.kind != TokKind.ppElse && nt.kind != TokKind.ppElsif &&
        nt.kind != TokKind.ppEndif) = true
    · simp [addBlockEdges, elsifChainEdges, hin, openTok, ho]
    · simp only [Bool.not_eq_true] at ho
      simp [addBlockEdges, elsifChainEdges, hin, openTok, ho]

theorem addBlockEdges_oneElsifElse (n s t F : Nat) (e : EdgeFun)
    (h0 : (0 : Nat) ≠ n) (ht : t ≠ n) :
    addBlockEdges n none ⟨0, n, t, F, [s]⟩ e =
      addEdge (addEdge (addEdge (addEdge (addEdge (addEdge (addEdge
        e 0 1) 0 s) s (s + 1)) s t) t (t + 1)) (F - 1) F) (s - 1) F := by
  simp [addBlockEdges, elsifChainEdges, h0, ht]

/-- Walking a chain of single-successor, non-branching positions that ends
by jumping to an arbitrary target position: each chain token is visited
once (one partial receiver call per position, emitted tokens pushed), the
search continues at the target, and on a successful return the pops
restore the emission buffer. -/
theorem dfs_chain_jump (ft : FlowTree) :
    ∀ (ts : List Token) (fuel pos tgt : Nat) (A : Nat → Bool)
      (s u : DfsState),
      ts ≠ [] →
      pos + ts.length < ft.src.length →
      (∀ j, j < ts.length → ft.src.get? (pos + j) = ts.get? j) →
      (∀ t ∈ ts, (t.kind == TokKind.ppIfdef || t.kind == TokKind.ppIfndef ||
        t.kind == TokKind.ppElsif) = false) →
      (∀ j, j + 1 < ts.length → ft.edges (pos + j) = [pos + j + 1]) →
      ft.edges (pos + ts.length - 1) = [tgt] →
      dfs alwaysTrue ft fuel tgt A
        ⟨s.seq ++ ts.filter (fun t => emitted t.kind), s.cnt, s.macros,
         s.calls ++ freePartials s.seq s.cnt ts⟩ = (u, none) →
      dfs alwaysTrue ft (fuel + ts.length) pos A s =
        (⟨s.seq, u.cnt, u.macros, u.calls⟩, none) := by
  intro ts
  induction ts with
  | nil => intro fuel pos tgt A s u hne; exact absurd rfl hne
  | cons t rest ih =>
    intro fuel pos tgt A s u _ hlen hts hkind hedges hlast hrec
    have htok : ft.src.get? pos = some t := by
      have h0 := hts 0 (by simp)
      simpa using h0
    have hbr := hkind t (by simp)
    rw [show fuel + (t :: rest).length = (fuel + rest.length) + 1 from rfl]
    rw [dfs]
    simp only [dfsBody]
    rw [if_neg (by simp [alwaysTrue])]
    rw [htok]
    simp only [dfsCore]
    rw [if_neg (by simp [hbr])]
    cases rest with
    | nil =>
      have hp : ft.edges pos = [tgt] := by simpa using hlast
      rw [hp]
      simp only [List.foldl_cons, List.foldl_nil, dfsLoopStep]
      have hnl : ¬(pos + 1 = ft.src.length) := by
        simp only [List.length_cons, List.length_nil] at hlen; omega
      cases hem : emitted t.kind with
      | true =>
        have hrec' : dfs alwaysTrue ft fuel tgt A
            ⟨s.seq ++ [t], s.cnt, s.macros,
             s.calls ++ [⟨s.seq, s.cnt, false⟩]⟩ = (u, none) := by
          simpa [freePartials, List.filter_cons, hem] using hrec
        have hu : u.seq = s.seq ++ [t] := by
          simpa using dfs_seq_restore alwaysTrue ft fuel tgt A _ u hrec'
        simp [hem, hrec', dfsFinish, hnl, hu, List.dropLast_concat]
      | false =>
        have hrec' : dfs alwaysTrue ft fuel tgt A
            ⟨s.seq, s.cnt, s.macros,
             s.calls ++ [⟨s.seq, s.cnt, false⟩]⟩ = (u, none) := by
          simpa [freePartials, List.filter_cons, hem] using hrec
        have hu : u.seq = s.seq := by
          simpa using dfs_seq_restore alwaysTrue ft fuel tgt A _ u hrec'
        obtain ⟨us, uc, um, ucl⟩ := u
        simp only at hu
        subst hu
        simp [hem, hrec', dfsFinish, hnl]
    | cons t2 r2 =>
      have he0 : ft.edges pos = [pos + 1] := by
        have h0 := hedges 0 (by simp)
        simpa using h0
      rw [he0]
      simp only [List.foldl_cons, List.foldl_nil, dfsLoopStep]
      have hnl : ¬(pos + 1 = ft.src.length) := by
        simp only [List.length_cons] at hlen; omega
      have hlen' : pos + 1 + (t2 :: r2).length < ft.src.length := by
        simp only [List.length_cons] at hlen ⊢; omega
      have hts' : ∀ j, j < (t2 :: r2).length →
          ft.src.get? (pos + 1 + j) = (t2 :: r2).get? j := by
        intro j hj
        have hj2 := hts (j + 1) (by simp only [List.length_cons] at hj ⊢; omega)
        rw [show pos + 1 + j = pos + (j + 1) from by omega]
        simpa using hj2
      have hkind' : ∀ x ∈ (t2 :: r2),
          (x.kind == TokKind.ppIfdef || x.kind == TokKind.ppIfndef ||
            x.kind == TokKind.ppElsif) = false :=
        fun x hx => hkind x (by simp [hx])
      have hedges' : ∀ j, j + 1 < (t2 :: r2).length →
          ft.edges (pos + 1 + j) = [pos + 1 + j + 1] := by
        intro j hj
        have hj2 := hedges (j + 1) (by
          simp only [List.length_cons] at hj ⊢; omega)
        rw [show pos + 1 + j = pos + (j + 1) from by omega, hj2]
      have hlast' : ft.edges (pos + 1 + (t2 :: r2).length - 1) = [tgt] := by
        rw [show pos + 1 + (t2 :: r2).length - 1 =
          pos + (t :: t2 :: r2).length - 1 from by
            simp only [List.length_cons]; omega]
        exact hlast
      cases hem : emitted t.kind with
      | true =>
        have hrec' : dfs alwaysTrue ft fuel tgt A
            ⟨(s.seq ++ [t]) ++
               (t2 :: r2).filter (fun x => emitted x.kind), s.cnt, s.macros,
             (s.calls ++ [⟨s.seq, s.cnt, false⟩]) ++
               freePartials (s.seq ++ [t]) s.cnt (t2 :: r2)⟩ = (u, none) := by
          simpa [freePartials, List.filter_cons, hem, List.append_assoc]
            using hrec
        have hih := ih fuel (pos + 1) tgt A
          ⟨s.seq ++ [t], s.cnt, s.macros, s.calls ++ [⟨s.seq, s.cnt, false⟩]⟩
          u (by simp) hlen' hts' hkind' hedges' hlast' hrec'
        simp only [List.length_cons] at hih
        simp [hem, hih, dfsFinish, hnl, List.dropLast_concat]
      | false =>
        have hrec' : dfs alwaysTrue ft fuel tgt A
            ⟨s.seq ++ (t2 :: r2).filter (fun x => emitted x.kind),
             s.cnt, s.macros,
             (s.calls ++ [⟨s.seq, s.cnt, false⟩]) ++
               freePartials s.seq s.cnt (t2 :: r2)⟩ = (u, none) := by
          simpa [freePartials, List.filter_cons, hem, List.append_assoc]
            using hrec
        have hih := ih fuel (pos + 1) tgt A
          ⟨s.seq, s.cnt, s.macros, s.calls ++ [⟨s.seq, s.cnt, false⟩]⟩
          u (by simp) hlen' hts' hkind' hedges' hlast' hrec'
        simp only [List.length_cons] at hih
        simp [hem, hih, dfsFinish, hnl]

/-- Straight chain walk: the target is the position one past the run
(possibly an empty run). -/
theorem dfs_chain_walk (ft : FlowTree) (ts : List Token)
    (fuel pos : Nat) (A : Nat → Bool) (s u : DfsState)
    (hlen : pos + ts.length < ft.src.length)
    (hts : ∀ j, j < ts.length → ft.src.get? (pos + j) = ts.get? j)
    (hkind : ∀ t ∈ ts, (t.kind == TokKind.ppIfdef ||
      t.kind == TokKind.ppIfndef || t.kind == TokKind.ppElsif) = false)
    (hedges : ∀ j, j < ts.length → ft.edges (pos + j) = [pos + j + 1])
    (hrec : dfs alwaysTrue ft fuel (pos + ts.length) A
      ⟨s.seq ++ ts.filter (fun t => emitted t.kind), s.cnt, s.macros,
       s.calls ++ freePartials s.seq s.cnt ts⟩ = (u, none)) :
    dfs alwaysTrue ft (fuel + ts.length) pos A s =
      (⟨s.seq, u.cnt, u.macros, u.calls⟩, none) := by
  cases ts with
  | nil =>
    have hrec' : dfs alwaysTrue ft fuel pos A s = (u, none) := by
      simpa [freePartials] using hrec
    have hu : u.seq = s.seq :=
      dfs_seq_restore alwaysTrue ft fuel pos A s u hrec'
    have hue : (⟨s.seq, u.cnt, u.macros, u.calls⟩ : DfsState) = u := by
      cases u with
      | mk a b c d => simp only at hu; rw [hu]
    rw [hue]
    simpa using hrec'
  | cons t rest =>
    refine dfs_chain_jump ft (t :: rest) fuel pos (pos + (t :: rest).length)
      A s u (by simp) hlen hts hkind (fun j hj => hedges j (by omega)) ?_ hrec
    have hl := hedges ((t :: rest).length - 1)
      (by simp only [List.length_cons]; omega)
    rw [show pos + (t :: rest).length - 1 = pos + ((t :: rest).length - 1)
      from by simp only [List.length_cons]; omega, hl]
    simp only [List.length_cons, Nat.add_sub_cancel, Nat.add_assoc]

/-- Walking a chain of non-branching tokens whose last position has no
successors and is not the last position of the sequence: the search visits
each token once, makes no complete call, and returns with counter, macro
bits and emission buffer unchanged. -/
theorem dfs_dead_walk (ft : FlowTree) :
    ∀ (ts : List Token) (fuel pos : Nat) (A : Nat → Bool) (s : DfsState),
      ts ≠ [] →
      pos + ts.length < ft.src.length →
      (∀ j, j < ts.length → ft.src.get? (pos + j) = ts.get? j) →
      (∀ t ∈ ts, (t.kind == TokKind.ppIfdef || t.kind == TokKind.ppIfndef ||
        t.kind == TokKind.ppElsif) = false) →
      (∀ j, j + 1 < ts.length → ft.edges (pos + j) = [pos + j + 1]) →
      ft.edges (pos + ts.length - 1) = [] →
      dfs alwaysTrue ft (fuel + ts.length) pos A s =
        (⟨s.seq, s.cnt, s.macros, s.calls ++ freePartials s.seq s.cnt ts⟩,
         none) := by
  intro ts
  induction ts with
  | nil => intro fuel pos A s hne; exact absurd rfl hne
  | cons t rest ih =>
    intro fuel pos A s _ hlen hts hkind hedges hlast
    have htok : ft.src.get? pos = some t := by
      have h0 := hts 0 (by simp)
      simpa using h0
    have hbr := hkind t (by simp)
    rw [show fuel + (t :: rest).length = (fuel + rest.length) + 1 from rfl]
    rw [dfs]
    simp only [dfsBody]
    rw [if_neg (by simp [alwaysTrue])]
    rw [htok]
    simp only [dfsCore]
    rw [if_neg (by simp [hbr])]
    cases rest with
    | nil =>
      have hp : ft.edges pos = [] := by simpa using hlast
      rw [hp]
      simp only [List.foldl_nil]
      have hnl : ¬(pos + 1 = ft.src.length) := by
        simp only [List.length_cons, List.length_nil] at hlen; omega
      cases hem : emitted t.kind with
      | true => simp [hem, dfsFinish, hnl, freePartials, List.dropLast_concat]
      | false => simp [hem, dfsFinish, hnl, freePartials]
    | cons t2 r2 =>
      have he0 : ft.edges pos = [pos + 1] := by
        have h0 := hedges 0 (by simp)
        simpa using h0
      rw [he0]
      simp only [List.foldl_cons, List.foldl_nil, dfsLoopStep]
      have hnl : ¬(pos + 1 = ft.src.length) := by
        simp only [List.length_cons] at hlen; omega
      have hlen' : pos + 1 + (t2 :: r2).length < ft.src.length := by
        simp only [List.length_cons] at hlen ⊢; omega
      have hts' : ∀ j, j < (t2 :: r2).length →
          ft.src.get? (pos + 1 + j) = (t2 :: r2).get? j := by
        intro j hj
        have hj2 := hts (j + 1) (by simp only [List.length_cons] at hj ⊢; omega)
        rw [show pos + 1 + j = pos + (j + 1) from by omega]
        simpa using hj2
      have hkind' : ∀ x ∈ (t2 :: r2),
          (x.kind == TokKind.ppIfdef || x.kind == TokKind.ppIfndef ||
            x.kind == TokKind.ppElsif) = false :=
        fun x hx => hkind x (by simp [hx])
      have hedges' : ∀ j, j + 1 < (t2 :: r2).length →
          ft.edges (pos + 1 + j) = [pos + 1 + j + 1] := by
        intro j hj
        have hj2 := hedges (j + 1) (by
          simp only [List.length_cons] at hj ⊢; omega)
        rw [show pos + 1 + j = pos + (j + 1) from by omega, hj2]
      have hlast' : ft.edges (pos + 1 + (t2 :: r2).length - 1) = [] := by
        rw [show pos + 1 + (t2 :: r2).length - 1 =
          pos + (t :: t2 :: r2).length - 1 from by
            simp only [List.length_cons]; omega]
        exact hlast
      cases hem : emitted t.kind with
      | true =>
        have hih := ih fuel (pos + 1) A
          ⟨s.seq ++ [t], s.cnt, s.macros, s.calls ++ [⟨s.seq, s.cnt, false⟩]⟩
          (by simp) hlen' hts' hkind' hedges' hlast'
        simp only [List.length_cons] at hih
        simp [hem, hih, dfsFinish, hnl, freePartials, List.dropLast_concat,
          List.append_assoc]
      | false =>
        have hih := ih fuel (pos + 1) A
          ⟨s.seq, s.cnt, s.macros, s.calls ++ [⟨s.seq, s.cnt, false⟩]⟩
          (by simp) hlen' hts' hkind' hedges' hlast'
        simp only [List.length_cons] at hih
        simp [hem, hih, dfsFinish, hnl, freePartials, List.append_assoc]

/-- One `DepthFirstSearch` call at a non-negated branching directive whose
macro has not yet been assumed: the partial call is made, the true
successor (edge 0) is explored with the macro bit flipped on in `assumed`
and set in `current_macros_`, then the false successor (edge 1) with the
bit reset in `current_macros_`; the completion check fails and the
directive token is not popped (it was never pushed). -/
theorem dfs_branch_unassumed (ft : FlowTree) (fuel pos F : Nat)
    (tok : Token) (mid : Int) (A : Nat → Bool) (s st3 u : DfsState)
    (htok : ft.src.get? pos = some tok)
    (hkind : (tok.kind == TokKind.ppIfdef || tok.kind == TokKind.ppIfndef ||
      tok.kind == TokKind.ppElsif) = true)
    (hneg : (tok.kind == TokKind.ppIfndef) = false)
    (hmid : getMacroIDOfConditional ft.src ft.macroMap pos = .ok mid)
    (h0 : 0 ≤ mid) (h1 : mid < 128)
    (hA : A mid.toNat = false)
    (hedge : ft.edges pos = [pos + 1, F])
    (hnl : pos + 1 ≠ ft.src.length)
    (hrec1 : dfs alwaysTrue ft fuel (pos + 1)
        (fun j => if j = mid.toNat then !A j else A j)
        ⟨s.seq, s.cnt, fun j => if j = mid.toNat then true else s.macros j,
         s.calls ++ [⟨s.seq, s.cnt, false⟩]⟩ = (st3, none))
    (hrec2 : dfs alwaysTrue ft fuel F
        (fun j => if j = mid.toNat then !A j else A j)
        ⟨st3.seq, st3.cnt,
         fun j => if j = mid.toNat then false else st3.macros j,
         st3.calls⟩ = (u, none)) :
    dfs alwaysTrue ft (fuel + 1) pos A s = (u, none) := by
  have hem : emitted tok.kind = false := branch_not_emitted tok.kind hkind
  have htest := bitsetTest_ok A mid h0 h1
  have hflip := bitsetFlip_ok A mid h0 h1
  have hset := bitsetSet_ok s.macros mid h0 h1
  have hreset := bitsetReset_ok st3.macros mid h0 h1
  rw [dfs]
  simp only [dfsBody, dfsCore]
  rw [if_neg (by simp [alwaysTrue]), htok]
  simp only []
  rw [if_neg (show ¬(emitted tok.kind = true) from by simp [hem])]
  rw [if_pos hkind]
  rw [hmid]
  simp only []
  rw [htest, hA]
  simp only []
  rw [hflip]
  simp only []
  rw [if_neg (show ¬((tok.kind == TokKind.ppIfndef) = true) from by
    simp [hneg])]
  rw [hset]
  simp only []
  rw [hedge]
  simp only [List.get?_cons_zero, List.get?_cons_succ]
  rw [hrec1]
  simp only []
  rw [hreset]
  rw [if_neg (show ¬((tok.kind == TokKind.ppIfndef) = true) from by
    simp [hneg])]
  simp only []
  rw [hrec2]
  simp [dfsFinish, hnl, hem]

/-- One `DepthFirstSearch` call at a non-negated branching directive whose
macro is already assumed: the partial call is made and the single successor
selected by the current macro bit is explored with `assumed` and
`current_macros_` unchanged. -/
theorem dfs_branch_assumed (ft : FlowTree) (fuel pos F : Nat)
    (tok : Token) (mid : Int) (v : Bool) (A : Nat → Bool) (s u : DfsState)
    (htok : ft.src.get? pos = some tok)
    (hkind : (tok.kind == TokKind.ppIfdef || tok.kind == TokKind.ppIfndef ||
      tok.kind == TokKind.ppElsif) = true)
    (hneg : (tok.kind == TokKind.ppIfndef) = false)
    (hmid : getMacroIDOfConditional ft.src ft.macroMap pos = .ok mid)
    (h0 : 0 ≤ mid) (h1 : mid < 128)
    (hA : A mid.toNat = true)
    (hv : s.macros mid.toNat = v)
    (hedge : ft.edges pos = [pos + 1, F])
    (hnl : pos + 1 ≠ ft.src.length)
    (hrec : dfs alwaysTrue ft fuel (if v = true then pos + 1 else F) A
        ⟨s.seq, s.cnt, s.macros, s.calls ++ [⟨s.seq, s.cnt, false⟩]⟩ =
        (u, none)) :
    dfs alwaysTrue ft (fuel + 1) pos A s = (u, none) := by
  have hem : emitted tok.kind = false := branch_not_emitted tok.kind hkind
  have htest := bitsetTest_ok A mid h0 h1
  have htest2 := bitsetTest_ok s.macros mid h0 h1
  rw [dfs]
  simp only [dfsBody, dfsCore]
  rw [if_neg (by simp [alwaysTrue]), htok]
  simp only []
  rw [if_neg (show ¬(emitted tok.kind = true) from by simp [hem])]
  rw [if_pos hkind]
  rw [hmid]
  simp only []
  rw [htest, hA]
  simp only []
  rw [htest2, hv]
  simp only []
  rw [hneg]
  simp only [Bool.false_xor]
  rw [hedge]
  cases v with
  | true =>
    rw [if_pos rfl] at hrec
    rw [if_pos rfl]
    simp only [List.get?_cons_zero]
    rw [hrec]
    simp only []
    simp [dfsFinish, hnl, hem]
  | false =>
    rw [if_neg (by simp)] at hrec
    rw [if_neg (by simp)]
    simp only [List.get?_cons_succ, List.get?_cons_zero]
    rw [hrec]
    simp only []
    simp [dfsFinish, hnl, hem]

/-- A whole `ifdef m ... endif` block in the build loop. -/
theorem buildAux_block (B : List Token)
    (hB : ∀ t ∈ B, isConditional t.kind = false)
    (m : String) (rest : List Token) (n pos : Nat)
    (bs : List ConditionalBlock) (E : EdgeFun)
    (mp mp2 : List (String × Int)) (ctr ctr2 : Int)
    (hmac : addMacroOfConditionalToMap tokIfdef (some (tokId m)) mp ctr =
      .ok (mp2, ctr2)) :
    buildAux n (tokIfdef :: tokId m :: (B ++ tokEndif :: rest)) pos
        ⟨bs, E, mp, ctr⟩ =
      buildAux n rest (pos + (B.length + 3))
        ⟨bs,
         addBlockEdges n rest.head? ⟨pos, n, n, pos + (B.length + 2), []⟩
           (segEdges E (pos + 1) false (tokId m :: B)),
         mp2, ctr2⟩ := by
  rw [buildAux_step_ifdef n pos m _ bs E mp mp2 ctr ctr2 hmac]
  rw [show (tokId m :: (B ++ tokEndif :: rest)) =
    (tokId m :: B) ++ (tokEndif :: rest) from by simp]
  rw [buildAux_seg (tokId m :: B) (by
    intro t ht
    rcases List.mem_cons.mp ht with h | h
    · rw [h]; rfl
    · exact hB t h) (tokEndif :: rest) n (pos + 1)]
  rw [show buildAux n (tokEndif :: rest)
      (pos + 1 + (tokId m :: B).length)
      { (⟨⟨pos, n, n, n, []⟩ :: bs, E, mp2, ctr2⟩ : BState) with
        edges := segEdges E (pos + 1)
          (openTok ((tokEndif :: rest).head?)) (tokId m :: B) } =
    buildAux n (tokEndif :: rest) (pos + (B.length + 2))
      ⟨⟨pos, n, n, n, []⟩ :: bs,
       segEdges E (pos + 1) false (tokId m :: B), mp2, ctr2⟩ from by
    simp only [List.length_cons, List.head?_cons,
      show openTok (some tokEndif) = false from rfl]
    rw [show pos + 1 + (B.length + 1) = pos + (B.length + 2) from by omega]]
  rw [buildAux_step_endif n (pos + (B.length + 2)) rest
    ⟨pos, n, n, n, []⟩ bs (segEdges E (pos + 1) false (tokId m :: B))
    mp2 ctr2]
  rw [show pos + (B.length + 2) + 1 = pos + (B.length + 3) from by omega]

/-- Closed form of the graph construction on `siblingInput`: the build
succeeds, leaves an empty block stack, registers exactly `m` with id 0,
and produces the layered edge map `sibGraphEdges`. -/
theorem sib_build (m : String) (P B1 Q B2 RR : List Token) (n : Nat)
    (hn : n = (P ++ (tokIfdef :: tokId m ::
      (B1 ++ tokEndif :: (Q ++ tokIfdef :: tokId m ::
        (B2 ++ tokEndif :: RR))))).length)
    (hP : ∀ t ∈ P, isConditional t.kind = false)
    (hB1 : ∀ t ∈ B1, isConditional t.kind = false)
    (hQ : ∀ t ∈ Q, isConditional t.kind = false)
    (hB2 : ∀ t ∈ B2, isConditional t.kind = false)
    (hRR : ∀ t ∈ RR, isConditional t.kind = false) :
    generateControlFlowTree (siblingInput m P B1 Q B2 RR) =
      .ok ⟨[], sibGraphEdges m P B1 Q B2 RR n, [(m, 0)], 0⟩ := by
  have hform : siblingInput m P B1 Q B2 RR =
      P ++ (tokIfdef :: tokId m ::
        (B1 ++ tokEndif :: (Q ++ tokIfdef :: tokId m ::
          (B2 ++ tokEndif :: RR)))) := by
    simp [siblingInput]
  have hmac1 : addMacroOfConditionalToMap tokIfdef (some (tokId m)) []
      initialMacroCounter = .ok ([(m, 0)], 0) := by
    rw [addMacro_ifdef_new m [] initialMacroCounter rfl]
    simp [initialMacroCounter]
  have hmac2 : addMacroOfConditionalToMap tokIfdef (some (tokId m)) [(m, 0)]
      0 = .ok ([(m, 0)], 0) := by
    rw [addMacro_ifdef_old m [(m, 0)] 0 (by simp [List.lookup])]
  rw [generateControlFlowTree, hform, ← hn]
  rw [buildAux_seg P hP _ n 0]
  simp only [List.head?_cons, Nat.zero_add,
    show openTok (some tokIfdef) = true from rfl]
  rw [buildAux_block B1 hB1 m _ n P.length [] _ [] [(m, 0)]
    initialMacroCounter 0 hmac1]
  rw [buildAux_seg Q hQ _ n (P.length + (B1.length + 3))]
  simp only [List.head?_cons,
    show openTok (some tokIfdef) = true from rfl]
  rw [buildAux_block B2 hB2 m RR n (P.length + (B1.length + 3) + Q.length)
    [] _ [(m, 0)] [(m, 0)] 0 0 hmac2]
  have hfin : ∀ (pos : Nat) (st : BState), buildAux n RR pos st =
      .ok { st with edges := segEdges st.edges pos false RR } := by
    intro pos st
    have h2 := buildAux_seg RR hRR [] n pos st
    rw [List.append_nil] at h2
    rw [h2, buildAux]
    rfl
  rw [hfin]
  rfl

theorem addEdge_eval (e : EdgeFun) (p q i : Nat) :
    addEdge e p q i = if i = p then e i ++ [q] else e i := rfl

/-- Pointwise value of the layered `siblingInput` edge map. -/
theorem sibGraphEdges_spec (m : String) (P B1 Q B2 RR : List Token)
    (n : Nat)
    (hn : n = P.length + B1.length + Q.length + B2.length + RR.length + 6)
    (hQ : ∀ t ∈ Q, isConditional t.kind = false)
    (hRR : ∀ t ∈ RR, isConditional t.kind = false) :
    ∀ j, sibGraphEdges m P B1 Q B2 RR n j =
      sibEdgeSpec P.length B1.length Q.length B2.length RR.length j := by
  have hopen2 : openTok ((Q ++ tokIfdef :: tokId m ::
      (B2 ++ tokEndif :: RR)).head?) = true :=
    openTok_append_cons Q tokIfdef _ hQ rfl
  intro j
  simp only [sibGraphEdges]
  rw [addBlockEdges_noElsif n (P.length)
    (P.length + (B1.length + 2)) _ _ (by omega)]
  rw [hopen2, if_pos rfl]
  rw [addBlockEdges_noElsif n (P.length + (B1.length + 3) + Q.length)
    (P.length + (B1.length + 3) + Q.length + (B2.length + 2)) _ _
    (by omega)]
  by_cases h1 : j = P.length
  · rw [segEdges_out RR (P.length + (B1.length + 3) + Q.length + (B2.length + 3)) false _ j (by omega)]
    rw [apply_ite (fun E : EdgeFun => E j)]
    rw [addEdge_ne _ (P.length + (B1.length + 3) + Q.length + (B2.length + 2)) (P.length + (B1.length + 3) + Q.length + (B2.length + 2) + 1) j (by omega)]
    rw [ite_self]
    rw [addEdge_ne _ (P.length + (B1.length + 3) + Q.length + (B2.length + 2) - 1) (P.length + (B1.length + 3) + Q.length + (B2.length + 2)) j (by omega)]
    rw [addEdge_ne _ (P.length + (B1.length + 3) + Q.length) (P.length + (B1.length + 3) + Q.length + (B2.length + 2)) j (by omega)]
    rw [addEdge_ne _ (P.length + (B1.length + 3) + Q.length) (P.length + (B1.length + 3) + Q.length + 1) j (by omega)]
    rw [segEdges_out (tokId m :: B2) (P.length + (B1.length + 3) + Q.length + 1) false _ j (by simp only [List.length_cons]; omega)]
    rw [segEdges_out Q (P.length + (B1.length + 3)) true _ j (by omega)]
    rw [addEdge_ne _ (P.length + (B1.length + 2)) (P.length + (B1.length + 2) + 1) j (by omega)]
    rw [addEdge_ne _ (P.length + (B1.length + 2) - 1) (P.length + (B1.length + 2)) j (by omega)]
    rw [addEdge_eval _ (P.length) (P.length + (B1.length + 2)) j, if_pos (show j = P.length from by omega)]
    rw [addEdge_eval _ (P.length) (P.length + 1) j, if_pos (show j = P.length from by omega)]
    rw [segEdges_out (tokId m :: B1) (P.length + 1) false _ j (by simp only [List.length_cons]; omega)]
    rw [segEdges_out P 0 true _ j (by omega)]
    simp only [sibEdgeSpec]
    rw [if_pos (by omega)]
    all_goals (simp <;> omega)
  by_cases h2 : j = P.length + (B1.length + 3) + Q.length
  · rw [segEdges_out RR (P.length + (B1.length + 3) + Q.length + (B2.length + 3)) false _ j (by omega)]
    rw [apply_ite (fun E : EdgeFun => E j)]
    rw [addEdge_ne _ (P.length + (B1.length + 3) + Q.length + (B2.length + 2)) (P.length + (B1.length + 3) + Q.length + (B2.length + 2) + 1) j (by omega)]
    rw [ite_self]
    rw [addEdge_ne _ (P.length + (B1.length + 3) + Q.length + (B2.length + 2) - 1) (P.length + (B1.length + 3) + Q.length + (B2.length + 2)) j (by omega)]
    rw [addEdge_eval _ (P.length + (B1.length + 3) + Q.length) (P.length + (B1.length + 3) + Q.length + (B2.length + 2)) j, if_pos (show j = P.length + (B1.length + 3) + Q.length from by omega)]
    rw [addEdge_eval _ (P.length + (B1.length + 3) + Q.length) (P.length + (B1.length + 3) + Q.length + 1) j, if_pos (show j = P.length + (B1.length + 3) + Q.length from by omega)]
    rw [segEdges_out (tokId m :: B2) (P.length + (B1.length + 3) + Q.length + 1) false _ j (by simp only [List.length_cons]; omega)]
    rw [segEdges_out Q (P.length + (B1.length + 3)) true _ j (by omega)]
    rw [addEdge_ne _ (P.length + (B1.length + 2)) (P.length + (B1.length + 2) + 1) j (by omega)]
    rw [addEdge_ne _ (P.length + (B1.length + 2) - 1) (P.length + (B1.length + 2)) j (by omega)]
    rw [addEdge_ne _ (P.length) (P.length + (B1.length + 2)) j (by omega)]
    rw [addEdge_ne _ (P.length) (P.length + 1) j (by omega)]
    rw [segEdges_out (tokId m :: B1) (P.length + 1) false _ j (by simp only [List.length_cons]; omega)]
    rw [segEdges_out P 0 true _ j (by omega)]
    simp only [sibEdgeSpec]
    rw [if_neg (by omega)]
    rw [if_pos (by omega)]
    all_goals (simp <;> omega)
  by_cases hjP : j < P.length
  · rw [segEdges_out RR (P.length + (B1.length + 3) + Q.length + (B2.length + 3)) false _ j (by omega)]
    rw [apply_ite (fun E : EdgeFun => E j)]
    rw [addEdge_ne _ (P.length + (B1.length + 3) + Q.length + (B2.length + 2)) (P.length + (B1.length + 3) + Q.length + (B2.length + 2) + 1) j (by omega)]
    rw [ite_self]
    rw [addEdge_ne _ (P.length + (B1.length + 3) + Q.length + (B2.length + 2) - 1) (P.length + (B1.length + 3) + Q.length + (B2.length + 2)) j (by omega)]
    rw [addEdge_ne _ (P.length + (B1.length + 3) + Q.length) (P.length + (B1.length + 3) + Q.length + (B2.length + 2)) j (by omega)]
    rw [addEdge_ne _ (P.length + (B1.length + 3) + Q.length) (P.length + (B1.length + 3) + Q.length + 1) j (by omega)]
    rw [segEdges_out (tokId m :: B2) (P.length + (B1.length + 3) + Q.length + 1) false _ j (by simp only [List.length_cons]; omega)]
    rw [segEdges_out Q (P.length + (B1.length + 3)) true _ j (by omega)]
    rw [addEdge_ne _ (P.length + (B1.length + 2)) (P.length + (B1.length + 2) + 1) j (by omega)]
    rw [addEdge_ne _ (P.length + (B1.length + 2) - 1) (P.length + (B1.length + 2)) j (by omega)]
    rw [addEdge_ne _ (P.length) (P.length + (B1.length + 2)) j (by omega)]
    rw [addEdge_ne _ (P.length) (P.length + 1) j (by omega)]
    rw [segEdges_out (tokId m :: B1) (P.length + 1) false _ j (by simp only [List.length_cons]; omega)]
    rw [segEdges_last_open P 0 _ j (by omega) (by omega)]
    simp only [sibEdgeSpec]
    rw [if_neg (by omega)]
    rw [if_neg (by omega)]
    rw [if_pos (by omega)]
    all_goals (simp <;> omega)
  by_cases hj3 : P.length + 1 ≤ j ∧ j + 1 < P.length + (B1.length + 2)
  · rw [segEdges_out RR (P.length + (B1.length + 3) + Q.length + (B2.length + 3)) false _ j (by omega)]
    rw [apply_ite (fun E : EdgeFun => E j)]
    rw [addEdge_ne _ (P.length + (B1.length + 3) + Q.length + (B2.length + 2)) (P.length + (B1.length + 3) + Q.length + (B2.length + 2) + 1) j (by omega)]
    rw [ite_self]
    rw [addEdge_ne _ (P.length + (B1.length + 3) + Q.length + (B2.length + 2) - 1) (P.length + (B1.length + 3) + Q.length + (B2.length + 2)) j (by omega)]
    rw [addEdge_ne _ (P.length + (B1.length + 3) + Q.length) (P.length + (B1.length + 3) + Q.length + (B2.length + 2)) j (by omega)]
    rw [addEdge_ne _ (P.length + (B1.length + 3) + Q.length) (P.length + (B1.length + 3) + Q.length + 1) j (by omega)]
    rw [segEdges_out (tokId m :: B2) (P.length + (B1.length + 3) + Q.length + 1) false _ j (by simp only [List.length_cons]; omega)]
    rw [segEdges_out Q (P.length + (B1.length + 3)) true _ j (by omega)]
    rw [addEdge_ne _ (P.length + (B1.length + 2)) (P.length + (B1.length + 2) + 1) j (by omega)]
    rw [addEdge_ne _ (P.length + (B1.length + 2) - 1) (P.length + (B1.length + 2)) j (by omega)]
    rw [addEdge_ne _ (P.length) (P.length + (B1.length + 2)) j (by omega)]
    rw [addEdge_ne _ (P.length) (P.length + 1) j (by omega)]
    rw [segEdges_in (tokId m :: B1) (P.length + 1) false _ j (by omega) (by simp only [List.length_cons]; omega)]
    rw [segEdges_out P 0 true _ j (by omega)]
    simp only [sibEdgeSpec]
    rw [if_neg (by omega)]
    rw [if_neg (by omega)]
    rw [if_pos (by omega)]
    all_goals (simp <;> omega)
  by_cases hj4 : j = P.length + B1.length + 1
  · rw [segEdges_out RR (P.length + (B1.length + 3) + Q.length + (B2.length + 3)) false _ j (by omega)]
    rw [apply_ite (fun E : EdgeFun => E j)]
    rw [addEdge_ne _ (P.length + (B1.length + 3) + Q.length + (B2.length + 2)) (P.length + (B1.length + 3) + Q.length + (B2.length + 2) + 1) j (by omega)]
    rw [ite_self]
    rw [addEdge_ne _ (P.length + (B1.length + 3) + Q.length + (B2.length + 2) - 1) (P.length + (B1.length + 3) + Q.length + (B2.length + 2)) j (by omega)]
    rw [addEdge_ne _ (P.length + (B1.length + 3) + Q.length) (P.length + (B1.length + 3) + Q.length + (B2.length + 2)) j (by omega)]
    rw [addEdge_ne _ (P.length + (B1.length + 3) + Q.length) (P.length + (B1.length + 3) + Q.length + 1) j (by omega)]
    rw [segEdges_out (tokId m :: B2) (P.length + (B1.length + 3) + Q.length + 1) false _ j (by simp only [List.length_cons]; omega)]
    rw [segEdges_out Q (P.length + (B1.length + 3)) true _ j (by omega)]
    rw [addEdge_ne _ (P.length + (B1.length + 2)) (P.length + (B1.length + 2) + 1) j (by omega)]
    rw [addEdge_eval _ (P.length + (B1.length + 2) - 1) (P.length + (B1.length + 2)) j, if_pos (show j = P.length + (B1.length + 2) - 1 from by omega)]
    rw [addEdge_ne _ (P.length) (P.length + (B1.length + 2)) j (by omega)]
    rw [addEdge_ne _ (P.length) (P.length + 1) j (by omega)]
    rw [segEdges_last_closed (tokId m :: B1) (P.length + 1) _ j (by simp only [List.length_cons]; omega)]
    rw [segEdges_out P 0 true _ j (by omega)]
    simp only [sibEdgeSpec]
    rw [if_neg (by omega)]
    rw [if_neg (by omega)]
    rw [if_pos (by omega)]
    all_goals (simp <;> omega)
  by_cases hj5 : j = P.length + (B1.length + 2)
  · rw [segEdges_out RR (P.length + (B1.length + 3) + Q.length + (B2.length + 3)) false _ j (by omega)]
    rw [apply_ite (fun E : EdgeFun => E j)]
    rw [addEdge_ne _ (P.length + (B1.length + 3) + Q.length + (B2.length + 2)) (P.length + (B1.length + 3) + Q.length + (B2.length + 2) + 1) j (by omega)]
    rw [ite_self]
    rw [addEdge_ne _ (P.length + (B1.length + 3) + Q.length + (B2.length + 2) - 1) (P.length + (B1.length + 3) + Q.length + (B2.length + 2)) j (by omega)]
    rw [addEdge_ne _ (P.length + (B1.length + 3) + Q.length) (P.length + (B1.length + 3) + Q.length + (B2.length + 2)) j (by omega)]
    rw [addEdge_ne _ (P.length + (B1.length + 3) + Q.length) (P.length + (B1.length + 3) + Q.length + 1) j (by omega)]
    rw [segEdges_out (tokId m :: B2) (P.length + (B1.length + 3) + Q.length + 1) false _ j (by simp only [List.length_cons]; omega)]
    rw [segEdges_out Q (P.length + (B1.length + 3)) true _ j (by omega)]
    rw [addEdge_eval _ (P.length + (B1.length + 2)) (P.length + (B1.length + 2) + 1) j, if_pos (show j = P.length + (B1.length + 2) from by omega)]
    rw [addEdge_ne _ (P.length + (B1.length + 2) - 1) (P.length + (B1.length + 2)) j (by omega)]
    rw [addEdge_ne _ (P.length) (P.length + (B1.length + 2)) j (by omega)]
    rw [addEdge_ne _ (P.length) (P.length + 1) j (by omega)]
    rw [segEdges_out (tokId m :: B1) (P.length + 1) false _ j (by simp only [List.length_cons]; omega)]
    rw [segEdges_out P 0 true _ j (by omega)]
    simp only [sibEdgeSpec]
    rw [if_neg (by omega)]
    rw [if_neg (by omega)]
    rw [if_pos (by omega)]
    all_goals (simp <;> omega)
  by_cases hj6 : P.length + (B1.length + 3) ≤ j ∧ j < P.length + (B1.length + 3) + Q.length
  · rw [segEdges_out RR (P.length + (B1.length + 3) + Q.length + (B2.length + 3)) false _ j (by omega)]
    rw [apply_ite (fun E : EdgeFun => E j)]
    rw [addEdge_ne _ (P.length + (B1.length + 3) + Q.length + (B2.length + 2)) (P.length + (B1.length + 3) + Q.length + (B2.length + 2) + 1) j (by omega)]
    rw [ite_self]
    rw [addEdge_ne _ (P.length + (B1.length + 3) + Q.length + (B2.length + 2) - 1) (P.length + (B1.length + 3) + Q.length + (B2.length + 2)) j (by omega)]
    rw [addEdge_ne _ (P.length + (B1.length + 3) + Q.length) (P.length + (B1.length + 3) + Q.length + (B2.length + 2)) j (by omega)]
    rw [addEdge_ne _ (P.length + (B1.length + 3) + Q.length) (P.length + (B1.length + 3) + Q.length + 1) j (by omega)]
    rw [segEdges_out (tokId m :: B2) (P.length + (B1.length + 3) + Q.length + 1) false _ j (by simp only [List.length_cons]; omega)]
    rw [segEdges_last_open Q (P.length + (B1.length + 3)) _ j (by omega) (by omega)]
    rw [addEdge_ne _ (P.length + (B1.length + 2)) (P.length + (B1.length + 2) + 1) j (by omega)]
    rw [addEdge_ne _ (P.length + (B1.length + 2) - 1) (P.length + (B1.length + 2)) j (by omega)]
    rw [addEdge_ne _ (P.length) (P.length + (B1.length + 2)) j (by omega)]
    rw [addEdge_ne _ (P.length) (P.length + 1) j (by omega)]
    rw [segEdges_out (tokId m :: B1) (P.length + 1) false _ j (by simp only [List.length_cons]; omega)]
    rw [segEdges_out P 0 true _ j (by omega)]
    simp only [sibEdgeSpec]
    rw [if_neg (by omega)]
    rw [if_neg (by omega)]
    rw [if_pos (by omega)]
    all_goals (simp <;> omega)
  by_cases hj7 : P.length + (B1.length + 3) + Q.length + 1 ≤ j ∧ j + 1 < P.length + (B1.length + 3) + Q.length + (B2.length + 2)
  · rw [segEdges_out RR (P.length + (B1.length + 3) + Q.length + (B2.length + 3)) false _ j (by omega)]
    rw [apply_ite (fun E : EdgeFun => E j)]
    rw [addEdge_ne _ (P.length + (B1.length + 3) + Q.length + (B2.length + 2)) (P.length + (B1.length + 3) + Q.length + (B2.length + 2) + 1) j (by omega)]
    rw [ite_self]
    rw [addEdge_ne _ (P.length + (B1.length + 3) + Q.length + (B2.length + 2) - 1) (P.length + (B1.length + 3) + Q.length + (B2.length + 2)) j (by omega)]
    rw [addEdge_ne _ (P.length + (B1.length + 3) + Q.length) (P.length + (B1.length + 3) + Q.length + (B2.length + 2)) j (by omega)]
    rw [addEdge_ne _ (P.length + (B1.length + 3) + Q.length) (P.length + (B1.length + 3) + Q.length + 1) j (by omega)]
    rw [segEdges_in (tokId m :: B2) (P.length + (B1.length + 3) + Q.length + 1) false _ j (by omega) (by simp only [List.length_cons]; omega)]
    rw [segEdges_out Q (P.length + (B1.length + 3)) true _ j (by omega)]
    rw [addEdge_ne _ (P.length + (B1.length + 2)) (P.length + (B1.length + 2) + 1) j (by omega)]
    rw [addEdge_ne _ (P.length + (B1.length + 2) - 1) (P.length + (B1.length + 2)) j (by omega)]
    rw [addEdge_ne _ (P.length) (P.length + (B1.length + 2)) j (by omega)]
    rw [addEdge_ne _ (P.length) (P.length + 1) j (by omega)]
    rw [segEdges_out (tokId m :: B1) (P.length + 1) false _ j (by simp only [List.length_cons]; omega)]
    rw [segEdges_out P 0 true _ j (by omega)]
    simp only [sibEdgeSpec]
    rw [if_neg (by omega)]
    rw [if_neg (by omega)]
    rw [if_pos (by omega)]
    all_goals (simp <;> omega)
  by_cases hj8 : j = P.length + (B1.length + 3) + Q.length + B2.length + 1
  · rw [segEdges_out RR (P.length + (B1.length + 3) + Q.length + (B2.length + 3)) false _ j (by omega)]
    rw [apply_ite (fun E : EdgeFun => E j)]
    rw [addEdge_ne _ (P.length + (B1.length + 3) + Q.length + (B2.length + 2)) (P.length + (B1.length + 3) + Q.length + (B2.length + 2) + 1) j (by omega)]
    rw [ite_self]
    rw [addEdge_eval _ (P.length + (B1.length + 3) + Q.length + (B2.length + 2) - 1) (P.length + (B1.length + 3) + Q.length + (B2.length + 2)) j, if_pos (show j = P.length + (B1.length + 3) + Q.length + (B2.length + 2) - 1 from by omega)]
    rw [addEdge_ne _ (P.length + (B1.length + 3) + Q.length) (P.length + (B1.length + 3) + Q.length + (B2.length + 2)) j (by omega)]
    rw [addEdge_ne _ (P.length + (B1.length + 3) + Q.length) (P.length + (B1.length + 3) + Q.length + 1) j (by omega)]
    rw [segEdges_last_closed (tokId m :: B2) (P.length + (B1.length + 3) + Q.length + 1) _ j (by simp only [List.length_cons]; omega)]
    rw [segEdges_out Q (P.length + (B1.length + 3)) true _ j (by omega)]
    rw [addEdge_ne _ (P.length + (B1.length + 2)) (P.length + (B1.length + 2) + 1) j (by omega)]
    rw [addEdge_ne _ (P.length + (B1.length + 2) - 1) (P.length + (B1.length + 2)) j (by omega)]
    rw [addEdge_ne _ (P.length) (P.length + (B1.length + 2)) j (by omega)]
    rw [addEdge_ne _ (P.length) (P.length + 1) j (by omega)]
    rw [segEdges_out (tokId m :: B1) (P.length + 1) false _ j (by simp only [List.length_cons]; omega)]
    rw [segEdges_out P 0 true _ j (by omega)]
    simp only [sibEdgeSpec]
    rw [if_neg (by omega)]
    rw [if_neg (by omega)]
    rw [if_pos (by omega)]
    all_goals (simp <;> omega)
  by_cases hj9 : j = P.length + (B1.length + 3) + Q.length + (B2.length + 2)
  · rw [segEdges_out RR (P.length + (B1.length + 3) + Q.length + (B2.length + 3)) false _ j (by omega)]
    rcases RR with _ | ⟨rh, rt⟩
    · simp only [List.length_nil] at hn
      rw [show openTok (List.head? ([] : List Token)) = false from rfl]
      rw [if_neg (by simp)]
      simp only [List.length_nil]
      rw [addEdge_ne _ (P.length + (B1.length + 3) + Q.length + (B2.length + 2) - 1) (P.length + (B1.length + 3) + Q.length + (B2.length + 2)) j (by omega)]
      rw [addEdge_ne _ (P.length + (B1.length + 3) + Q.length) (P.length + (B1.length + 3) + Q.length + (B2.length + 2)) j (by omega)]
      rw [addEdge_ne _ (P.length + (B1.length + 3) + Q.length) (P.length + (B1.length + 3) + Q.length + 1) j (by omega)]
      rw [segEdges_out (tokId m :: B2) (P.length + (B1.length + 3) + Q.length + 1) false _ j (by simp only [List.length_cons]; omega)]
      rw [segEdges_out Q (P.length + (B1.length + 3)) true _ j (by omega)]
      rw [addEdge_ne _ (P.length + (B1.length + 2)) (P.length + (B1.length + 2) + 1) j (by omega)]
      rw [addEdge_ne _ (P.length + (B1.length + 2) - 1) (P.length + (B1.length + 2)) j (by omega)]
      rw [addEdge_ne _ (P.length) (P.length + (B1.length + 2)) j (by omega)]
      rw [addEdge_ne _ (P.length) (P.length + 1) j (by omega)]
      rw [segEdges_out (tokId m :: B1) (P.length + 1) false _ j (by simp only [List.length_cons]; omega)]
      rw [segEdges_out P 0 true _ j (by omega)]
      simp only [sibEdgeSpec]
      rw [if_neg (by omega)]
      rw [if_neg (by omega)]
      rw [if_neg (by omega)]
      all_goals (simp <;> omega)
    · simp only [List.length_cons] at hn
      rw [show openTok ((rh :: rt).head?) = true from by
        simpa [openTok] using notCond_notCloser rh.kind (hRR rh (by simp))]
      rw [if_pos rfl]
      simp only [List.length_cons]
      rw [addEdge_eval _ (P.length + (B1.length + 3) + Q.length + (B2.length + 2)) (P.length + (B1.length + 3) + Q.length + (B2.length + 2) + 1) j, if_pos (show j = P.length + (B1.length + 3) + Q.length + (B2.length + 2) from by omega)]
      rw [addEdge_ne _ (P.length + (B1.length + 3) + Q.length + (B2.length + 2) - 1) (P.length + (B1.length + 3) + Q.length + (B2.length + 2)) j (by omega)]
      rw [addEdge_ne _ (P.length + (B1.length + 3) + Q.length) (P.length + (B1.length + 3) + Q.length + (B2.length + 2)) j (by omega)]
      rw [addEdge_ne _ (P.length + (B1.length + 3) + Q.length) (P.length + (B1.length + 3) + Q.length + 1) j (by omega)]
      rw [segEdges_out (tokId m :: B2) (P.length + (B1.length + 3) + Q.length + 1) false _ j (by simp only [List.length_cons]; omega)]
      rw [segEdges_out Q (P.length + (B1.length + 3)) true _ j (by omega)]
      rw [addEdge_ne _ (P.length + (B1.length + 2)) (P.length + (B1.length + 2) + 1) j (by omega)]
      rw [addEdge_ne _ (P.length + (B1.length + 2) - 1) (P.length + (B1.length + 2)) j (by omega)]
      rw [addEdge_ne _ (P.length) (P.length + (B1.length + 2)) j (by omega)]
      rw [addEdge_ne _ (P.length) (P.length + 1) j (by omega)]
      rw [segEdges_out (tokId m :: B1) (P.length + 1) false _ j (by simp only [List.length_cons]; omega)]
      rw [segEdges_out P 0 true _ j (by omega)]
      simp only [sibEdgeSpec]
      rw [if_neg (by omega)]
      rw [if_neg (by omega)]
      rw [if_pos (by omega)]
      all_goals (simp <;> omega)
  have hge : P.length + (B1.length + 3) + Q.length + (B2.length + 3) ≤ j := by omega
  by_cases hr1 : j + 1 < P.length + (B1.length + 3) + Q.length + (B2.length + 3) + RR.length
  · rw [segEdges_in RR (P.length + (B1.length + 3) + Q.length + (B2.length + 3)) false _ j (by omega) (by omega)]
    rw [apply_ite (fun E : EdgeFun => E j)]
    rw [addEdge_ne _ (P.length + (B1.length + 3) + Q.length + (B2.length + 2)) (P.length + (B1.length + 3) + Q.length + (B2.length + 2) + 1) j (by omega)]
    rw [ite_self]
    rw [addEdge_ne _ (P.length + (B1.length + 3) + Q.length + (B2.length + 2) - 1) (P.length + (B1.length + 3) + Q.length + (B2.length + 2)) j (by omega)]
    rw [addEdge_ne _ (P.length + (B1.length + 3) + Q.length) (P.length + (B1.length + 3) + Q.length + (B2.length + 2)) j (by omega)]
    rw [addEdge_ne _ (P.length + (B1.length + 3) + Q.length) (P.length + (B1.length + 3) + Q.length + 1) j (by omega)]
    rw [segEdges_out (tokId m :: B2) (P.length + (B1.length + 3) + Q.length + 1) false _ j (by simp only [List.length_cons]; omega)]
    rw [segEdges_out Q (P.length + (B1.length + 3)) true _ j (by omega)]
    rw [addEdge_ne _ (P.length + (B1.length + 2)) (P.length + (B1.length + 2) + 1) j (by omega)]
    rw [addEdge_ne _ (P.length + (B1.length + 2) - 1) (P.length + (B1.length + 2)) j (by omega)]
    rw [addEdge_ne _ (P.length) (P.length + (B1.length + 2)) j (by omega)]
    rw [addEdge_ne _ (P.length) (P.length + 1) j (by omega)]
    rw [segEdges_out (tokId m :: B1) (P.length + 1) false _ j (by simp only [List.length_cons]; omega)]
    rw [segEdges_out P 0 true _ j (by omega)]
    simp only [sibEdgeSpec]
    rw [if_neg (by omega)]
    rw [if_neg (by omega)]
    rw [if_pos (by omega)]
    all_goals (simp <;> omega)
  by_cases hr2 : j + 1 = P.length + (B1.length + 3) + Q.length + (B2.length + 3) + RR.length
  · rw [segEdges_last_closed RR (P.length + (B1.length + 3) + Q.length + (B2.length + 3)) _ j (by omega)]
    rw [apply_ite (fun E : EdgeFun => E j)]
    rw [addEdge_ne _ (P.length + (B1.length + 3) + Q.length + (B2.length + 2)) (P.length + (B1.length + 3) + Q.length + (B2.length + 2) + 1) j (by omega)]
    rw [ite_self]
    rw [addEdge_ne _ (P.length + (B1.length + 3) + Q.length + (B2.length + 2) - 1) (P.length + (B1.length + 3) + Q.length + (B2.length + 2)) j (by omega)]
    rw [addEdge_ne _ (P.length + (B1.length + 3) + Q.length) (P.length + (B1.length + 3) + Q.length + (B2.length + 2)) j (by omega)]
    rw [addEdge_ne _ (P.length + (B1.length + 3) + Q.length) (P.length + (B1.length + 3) + Q.length + 1) j (by omega)]
    rw [segEdges_out (tokId m :: B2) (P.length + (B1.length + 3) + Q.length + 1) false _ j (by simp only [List.length_cons]; omega)]
    rw [segEdges_out Q (P.length + (B1.length + 3)) true _ j (by omega)]
    rw [addEdge_ne _ (P.length + (B1.length + 2)) (P.length + (B1.length + 2) + 1) j (by omega)]
    rw [addEdge_ne _ (P.length + (B1.length + 2) - 1) (P.length + (B1.length + 2)) j (by omega)]
    rw [addEdge_ne _ (P.length) (P.length + (B1.length + 2)) j (by omega)]
    rw [addEdge_ne _ (P.length) (P.length + 1) j (by omega)]
    rw [segEdges_out (tokId m :: B1) (P.length + 1) false _ j (by simp only [List.length_cons]; omega)]
    rw [segEdges_out P 0 true _ j (by omega)]
    simp only [sibEdgeSpec]
    rw [if_neg (by omega)]
    rw [if_neg (by omega)]
    rw [if_neg (by omega)]
    all_goals (simp <;> omega)
  · rw [segEdges_out RR (P.length + (B1.length + 3) + Q.length + (B2.length + 3)) false _ j (by omega)]
    rw [apply_ite (fun E : EdgeFun => E j)]
    rw [addEdge_ne _ (P.length + (B1.length + 3) + Q.length + (B2.length + 2)) (P.length + (B1.length + 3) + Q.length + (B2.length + 2) + 1) j (by omega)]
    rw [ite_self]
    rw [addEdge_ne _ (P.length + (B1.length + 3) + Q.length + (B2.length + 2) - 1) (P.length + (B1.length + 3) + Q.length + (B2.length + 2)) j (by omega)]
    rw [addEdge_ne _ (P.length + (B1.length + 3) + Q.length) (P.length + (B1.length + 3) + Q.length + (B2.length + 2)) j (by omega)]
    rw [addEdge_ne _ (P.length + (B1.length + 3) + Q.length) (P.length + (B1.length + 3) + Q.length + 1) j (by omega)]
    rw [segEdges_out (tokId m :: B2) (P.length + (B1.length + 3) + Q.length + 1) false _ j (by simp only [List.length_cons]; omega)]
    rw [segEdges_out Q (P.length + (B1.length + 3)) true _ j (by omega)]
    rw [addEdge_ne _ (P.length + (B1.length + 2)) (P.length + (B1.length + 2) + 1) j (by omega)]
    rw [addEdge_ne _ (P.length + (B1.length + 2) - 1) (P.length + (B1.length + 2)) j (by omega)]
    rw [addEdge_ne _ (P.length) (P.length + (B1.length + 2)) j (by omega)]
    rw [addEdge_ne _ (P.length) (P.length + 1) j (by omega)]
    rw [segEdges_out (tokId m :: B1) (P.length + 1) false _ j (by simp only [List.length_cons]; omega)]
    rw [segEdges_out P 0 true _ j (by omega)]
    simp only [sibEdgeSpec]
    rw [if_neg (by omega)]
    rw [if_neg (by omega)]
    rw [if_neg (by omega)]
    all_goals (simp <;> omega)

/-- The full `GenerateVariants` run on the two-sibling-`ifdef` graph:
the true branch of the first directive forces the true branch of the
second (complete variant 0 contains both bodies), the false branch forces
the false branch (complete variant 1 contains neither), and no other
complete variant is delivered. -/
theorem c1_dfs_run (m : String) (P B1 Q B2 RR : List Token) (ft : FlowTree)
    (hP : ∀ t ∈ P, t.kind = TokKind.ordinary)
    (hB1 : ∀ t ∈ B1, t.kind = TokKind.ordinary)
    (hQ : ∀ t ∈ Q, t.kind = TokKind.ordinary)
    (hB2 : ∀ t ∈ B2, t.kind = TokKind.ordinary)
    (hRR : ∀ t ∈ RR, t.kind = TokKind.ordinary)
    (hsrc : ft.src = P ++ tokIfdef :: tokId m :: (B1 ++ tokEndif ::
      (Q ++ tokIfdef :: tokId m :: (B2 ++ tokEndif :: RR))))
    (hmap : ft.macroMap = [(m, 0)])
    (hE : ∀ j, ft.edges j = sibEdgeSpec P.length B1.length Q.length
      B2.length RR.length j) :
    generateVariants alwaysTrue ft [] 0 (fun _ => false) =
      (⟨[], 2, fun j => if j = 0 then false else
          if j = 0 then true else false,
        ((((((freePartials [] 0 P ++ [(⟨P, 0, false⟩ : RCall)] ++
          freePartials P 0 (tokId m :: (B1 ++ tokEndif :: Q)) ++
          [(⟨P ++ (B1 ++ Q), 0, false⟩ : RCall)] ++
          freePartials (P ++ (B1 ++ Q)) 0
            (tokId m :: (B2 ++ tokEndif :: RR))) ++
          [(⟨(P ++ (B1 ++ Q)) ++ (B2 ++ RR), 0, true⟩ : RCall)]) ++
          freePartials P 1 (tokEndif :: Q)) ++
          [(⟨P ++ Q, 1, false⟩ : RCall)]) ++
          freePartials (P ++ Q) 1 (tokEndif :: RR)) ++
          [(⟨(P ++ Q) ++ RR, 1, true⟩ : RCall)])⟩, none) := by
  have hlenSRC : ft.src.length =
      P.length + B1.length + Q.length + B2.length + RR.length + 6 := by
    rw [hsrc]
    simp only [List.length_append, List.length_cons]
    omega
  have hEone : ∀ j, j ≠ P.length →
      j ≠ P.length + 3 + B1.length + Q.length →
      j + 1 < P.length + B1.length + Q.length + B2.length + RR.length + 6 →
      ft.edges j = [j + 1] := by
    intro j hj1 hj2 hj3
    rw [hE j]
    simp only [sibEdgeSpec]
    rw [if_neg hj1, if_neg hj2, if_pos (by omega)]
  have hEi1 : ft.edges P.length =
      [P.length + 1, P.length + B1.length + 2] := by
    rw [hE]
    simp only [sibEdgeSpec]
    rw [if_pos trivial]
    all_goals (simp <;> omega)
  have hEi2 : ft.edges (P.length + B1.length + Q.length + 3) =
      [P.length + B1.length + Q.length + 4,
       P.length + B1.length + Q.length + B2.length + 5] := by
    rw [hE]
    simp only [sibEdgeSpec]
    rw [if_neg (by omega), if_pos (by omega)]
    all_goals (simp <;> omega)
  have hElast : ft.edges (ft.src.length - 1) = [] := by
    rw [hE]
    simp only [sibEdgeSpec]
    rw [if_neg (by omega), if_neg (by omega), if_neg (by omega)]
  have hti1 : ft.src.get? P.length = some tokIfdef := by
    rw [hsrc]
    simpa using get?_shift P (tokIfdef :: tokId m :: (B1 ++ tokEndif ::
      (Q ++ tokIfdef :: tokId m :: (B2 ++ tokEndif :: RR)))) 0
  have hti1' : ft.src.get? (P.length + 1) = some (tokId m) := by
    rw [hsrc]
    simpa using get?_shift P (tokIfdef :: tokId m :: (B1 ++ tokEndif ::
      (Q ++ tokIfdef :: tokId m :: (B2 ++ tokEndif :: RR)))) 1
  have hdec2 : P ++ tokIfdef :: tokId m :: (B1 ++ tokEndif ::
      (Q ++ tokIfdef :: tokId m :: (B2 ++ tokEndif :: RR))) =
      (P ++ tokIfdef :: tokId m :: (B1 ++ tokEndif :: Q)) ++
        (tokIfdef :: tokId m :: (B2 ++ tokEndif :: RR)) := by
    simp
  have hti2 : ft.src.get? (P.length + B1.length + Q.length + 3) =
      some tokIfdef := by
    rw [hsrc, show P.length + B1.length + Q.length + 3 =
      (P ++ tokIfdef :: tokId m :: (B1 ++ tokEndif :: Q)).length + 0 from by
        simp only [List.length_append, List.length_cons, List.length_nil] <;> omega]
    rw [hdec2, get?_shift]
    rfl
  have hti2' : ft.src.get? (P.length + B1.length + Q.length + 4) =
      some (tokId m) := by
    rw [hsrc, show P.length + B1.length + Q.length + 4 =
      (P ++ tokIfdef :: tokId m :: (B1 ++ tokEndif :: Q)).length + 1 from by
        simp only [List.length_append, List.length_cons, List.length_nil] <;> omega]
    rw [hdec2, get?_shift]
    rfl
  have hmid1 : getMacroIDOfConditional ft.src ft.macroMap P.length =
      .ok 0 := by
    rw [hmap]
    simp only [getMacroIDOfConditional, hti1, hti1']
    simp [tokIfdef, tokId, List.lookup]
  have hmid2 : getMacroIDOfConditional ft.src ft.macroMap
      (P.length + B1.length + Q.length + 3) = .ok 0 := by
    rw [hmap]
    simp only [getMacroIDOfConditional, hti2, hti2']
    simp [tokIfdef, tokId, List.lookup]
  have hkT1 : ∀ t ∈ tokId m :: (B1 ++ tokEndif :: Q),
      (t.kind == TokKind.ppIfdef || t.kind == TokKind.ppIfndef ||
        t.kind == TokKind.ppElsif) = false := by
    intro t ht
    rcases List.mem_cons.mp ht with h | h
    · subst h; rfl
    rcases List.mem_append.mp h with h2 | h2
    · exact ord_not_branch t (hB1 t h2)
    rcases List.mem_cons.mp h2 with h3 | h3
    · subst h3; rfl
    · exact ord_not_branch t (hQ t h3)
  have hkT2 : ∀ t ∈ tokId m :: (B2 ++ tokEndif :: RR),
      (t.kind == TokKind.ppIfdef || t.kind == TokKind.ppIfndef ||
        t.kind == TokKind.ppElsif) = false := by
    intro t ht
    rcases List.mem_cons.mp ht with h | h
    · subst h; rfl
    rcases List.mem_append.mp h with h2 | h2
    · exact ord_not_branch t (hB2 t h2)
    rcases List.mem_cons.mp h2 with h3 | h3
    · subst h3; rfl
    · exact ord_not_branch t (hRR t h3)
  have hkT3 : ∀ t ∈ tokEndif :: Q,
      (t.kind == TokKind.ppIfdef || t.kind == TokKind.ppIfndef ||
        t.kind == TokKind.ppElsif) = false := by
    intro t ht
    rcases List.mem_cons.mp ht with h | h
    · subst h; rfl
    · exact ord_not_branch t (hQ t h)
  have hkT4 : ∀ t ∈ tokEndif :: RR,
      (t.kind == TokKind.ppIfdef || t.kind == TokKind.ppIfndef ||
        t.kind == TokKind.ppElsif) = false := by
    intro t ht
    rcases List.mem_cons.mp ht with h | h
    · subst h; rfl
    · exact ord_not_branch t (hRR t h)
  have hfT1 : (tokId m :: (B1 ++ tokEndif :: Q)).filter
      (fun t => emitted t.kind) = B1 ++ Q := by
    simp only [List.filter_cons, List.filter_append]
    rw [filter_emitted_ordinary B1 hB1, filter_emitted_ordinary Q hQ]
    simp [emitted, tokId, tokEndif]
  have hfT2 : (tokId m :: (B2 ++ tokEndif :: RR)).filter
      (fun t => emitted t.kind) = B2 ++ RR := by
    simp only [List.filter_cons, List.filter_append]
    rw [filter_emitted_ordinary B2 hB2, filter_emitted_ordinary RR hRR]
    simp [emitted, tokId, tokEndif]
  have hfT3 : (tokEndif :: Q).filter (fun t => emitted t.kind) = Q := by
    simp only [List.filter_cons]
    rw [filter_emitted_ordinary Q hQ]
    simp [emitted, tokEndif]
  have hfT4 : (tokEndif :: RR).filter (fun t => emitted t.kind) = RR := by
    simp only [List.filter_cons]
    rw [filter_emitted_ordinary RR hRR]
    simp [emitted, tokEndif]
  have htsT1 : ∀ j, j < (tokId m :: (B1 ++ tokEndif :: Q)).length →
      ft.src.get? (P.length + 1 + j) = (tokId m :: (B1 ++ tokEndif :: Q)).get? j := by
    intro j hj
    rw [hsrc, show P.length + 1 + j = (P ++ [tokIfdef]).length + j from by
      simp only [List.length_append, List.length_cons, List.length_nil] <;> omega]
    rw [show P ++ tokIfdef :: tokId m :: (B1 ++ tokEndif ::
        (Q ++ tokIfdef :: tokId m :: (B2 ++ tokEndif :: RR))) =
      (P ++ [tokIfdef]) ++ ((tokId m :: (B1 ++ tokEndif :: Q)) ++
        (tokIfdef :: tokId m :: (B2 ++ tokEndif :: RR))) from by simp]
    rw [get?_shift]
    exact List.get?_append hj
  have htsT2 : ∀ j, ft.src.get? (P.length + B1.length + Q.length + 4 + j) = (tokId m :: (B2 ++ tokEndif :: RR)).get? j := by
    intro j
    rw [hsrc, show P.length + B1.length + Q.length + 4 + j =
      (P ++ tokIfdef :: tokId m :: (B1 ++ tokEndif ::
        (Q ++ [tokIfdef]))).length + j from by
        simp only [List.length_append, List.length_cons, List.length_nil] <;> omega]
    rw [show P ++ tokIfdef :: tokId m :: (B1 ++ tokEndif ::
        (Q ++ tokIfdef :: tokId m :: (B2 ++ tokEndif :: RR))) =
      (P ++ tokIfdef :: tokId m :: (B1 ++ tokEndif :: (Q ++ [tokIfdef]))) ++
        (tokId m :: (B2 ++ tokEndif :: RR)) from by simp]
    rw [get?_shift]
  have htsT3 : ∀ j, j < (tokEndif :: Q).length →
      ft.src.get? (P.length + B1.length + 2 + j) = (tokEndif :: Q).get? j := by
    intro j hj
    rw [hsrc, show P.length + B1.length + 2 + j =
      (P ++ tokIfdef :: tokId m :: B1).length + j from by
        simp only [List.length_append, List.length_cons, List.length_nil] <;> omega]
    rw [show P ++ tokIfdef :: tokId m :: (B1 ++ tokEndif ::
        (Q ++ tokIfdef :: tokId m :: (B2 ++ tokEndif :: RR))) =
      (P ++ tokIfdef :: tokId m :: B1) ++ ((tokEndif :: Q) ++
        (tokIfdef :: tokId m :: (B2 ++ tokEndif :: RR))) from by simp]
    rw [get?_shift]
    exact List.get?_append hj
  have htsT4 : ∀ j, ft.src.get? (P.length + B1.length + Q.length + B2.length + 5 + j) = (tokEndif :: RR).get? j := by
    intro j
    rw [hsrc, show P.length + B1.length + Q.length + B2.length + 5 + j =
      (P ++ tokIfdef :: tokId m :: (B1 ++ tokEndif ::
        (Q ++ tokIfdef :: tokId m :: B2))).length + j from by
        simp only [List.length_append, List.length_cons, List.length_nil] <;> omega]
    rw [show P ++ tokIfdef :: tokId m :: (B1 ++ tokEndif ::
        (Q ++ tokIfdef :: tokId m :: (B2 ++ tokEndif :: RR))) =
      (P ++ tokIfdef :: tokId m :: (B1 ++ tokEndif ::
        (Q ++ tokIfdef :: tokId m :: B2))) ++ (tokEndif :: RR) from by simp]
    rw [get?_shift]
  have hedT1 : ∀ j, j < (tokId m :: (B1 ++ tokEndif :: Q)).length →
      ft.edges (P.length + 1 + j) = [P.length + 1 + j + 1] := by
    intro j hj
    simp only [List.length_cons, List.length_append] at hj
    exact hEone (P.length + 1 + j) (by omega) (by omega) (by omega)
  have hedT2 : ∀ j, j + 1 < (tokId m :: (B2 ++ tokEndif :: RR)).length →
      ft.edges (P.length + B1.length + Q.length + 4 + j) = [P.length + B1.length + Q.length + 4 + j + 1] := by
    intro j hj
    simp only [List.length_cons, List.length_append] at hj
    exact hEone (P.length + B1.length + Q.length + 4 + j) (by omega)
      (by omega) (by omega)
  have hedT3 : ∀ j, j < (tokEndif :: Q).length →
      ft.edges (P.length + B1.length + 2 + j) = [P.length + B1.length + 2 + j + 1] := by
    intro j hj
    simp only [List.length_cons] at hj
    exact hEone (P.length + B1.length + 2 + j) (by omega) (by omega)
      (by omega)
  have hedT4 : ∀ j, j + 1 < (tokEndif :: RR).length →
      ft.edges (P.length + B1.length + Q.length + B2.length + 5 + j) = [P.length + B1.length + Q.length + B2.length + 5 + j + 1] := by
    intro j hj
    simp only [List.length_cons] at hj
    exact hEone (P.length + B1.length + Q.length + B2.length + 5 + j)
      (by omega) (by omega) (by omega)
  have hF2 : dfs alwaysTrue ft (B2.length + RR.length + 3) (P.length + B1.length + Q.length + 4)
      (fun j => if j = 0 then true else false)
      ⟨P ++ (B1 ++ Q), 0, fun j => if j = 0 then true else false,
       freePartials [] 0 P ++ [(⟨P, 0, false⟩ : RCall)] ++ freePartials P 0 (tokId m :: (B1 ++ tokEndif :: Q)) ++ [(⟨P ++ (B1 ++ Q), 0, false⟩ : RCall)]⟩ =
      (⟨P ++ (B1 ++ Q), 1, fun j => if j = 0 then true else false, freePartials [] 0 P ++ [(⟨P, 0, false⟩ : RCall)] ++ freePartials P 0 (tokId m :: (B1 ++ tokEndif :: Q)) ++ [(⟨P ++ (B1 ++ Q), 0, false⟩ : RCall)] ++ freePartials (P ++ (B1 ++ Q)) 0 (tokId m :: (B2 ++ tokEndif :: RR)) ++ [(⟨(P ++ (B1 ++ Q)) ++ (B2 ++ RR), 0, true⟩ : RCall)]⟩, none) := by
    rw [show B2.length + RR.length + 3 =
      1 + (tokId m :: (B2 ++ tokEndif :: RR)).length from by
        simp only [List.length_cons, List.length_append]; omega]
    have h := dfs_free_walk ft (tokId m :: (B2 ++ tokEndif :: RR)) 1 (P.length + B1.length + Q.length + 4)
      (fun j => if j = 0 then true else false)
      ⟨P ++ (B1 ++ Q), 0, fun j => if j = 0 then true else false,
       freePartials [] 0 P ++ [(⟨P, 0, false⟩ : RCall)] ++ freePartials P 0 (tokId m :: (B1 ++ tokEndif :: Q)) ++ [(⟨P ++ (B1 ++ Q), 0, false⟩ : RCall)]⟩
      (by simp)
      (by rw [hlenSRC]; simp only [List.length_cons, List.length_append]
          omega)
      htsT2 hkT2 hedT2 hElast
    rw [hfT2] at h
    exact h
  have hI2 : dfs alwaysTrue ft (B2.length + RR.length + 4) (P.length + B1.length + Q.length + 3)
      (fun j => if j = 0 then true else false)
      ⟨P ++ (B1 ++ Q), 0, fun j => if j = 0 then true else false, freePartials [] 0 P ++ [(⟨P, 0, false⟩ : RCall)] ++ freePartials P 0 (tokId m :: (B1 ++ tokEndif :: Q))⟩ =
      (⟨P ++ (B1 ++ Q), 1, fun j => if j = 0 then true else false, freePartials [] 0 P ++ [(⟨P, 0, false⟩ : RCall)] ++ freePartials P 0 (tokId m :: (B1 ++ tokEndif :: Q)) ++ [(⟨P ++ (B1 ++ Q), 0, false⟩ : RCall)] ++ freePartials (P ++ (B1 ++ Q)) 0 (tokId m :: (B2 ++ tokEndif :: RR)) ++ [(⟨(P ++ (B1 ++ Q)) ++ (B2 ++ RR), 0, true⟩ : RCall)]⟩, none) := by
    exact dfs_branch_assumed ft (B2.length + RR.length + 3) (P.length + B1.length + Q.length + 3) (P.length + B1.length + Q.length + B2.length + 5)
      tokIfdef 0 true (fun j => if j = 0 then true else false)
      ⟨P ++ (B1 ++ Q), 0, fun j => if j = 0 then true else false, freePartials [] 0 P ++ [(⟨P, 0, false⟩ : RCall)] ++ freePartials P 0 (tokId m :: (B1 ++ tokEndif :: Q))⟩
      ⟨P ++ (B1 ++ Q), 1, fun j => if j = 0 then true else false, freePartials [] 0 P ++ [(⟨P, 0, false⟩ : RCall)] ++ freePartials P 0 (tokId m :: (B1 ++ tokEndif :: Q)) ++ [(⟨P ++ (B1 ++ Q), 0, false⟩ : RCall)] ++ freePartials (P ++ (B1 ++ Q)) 0 (tokId m :: (B2 ++ tokEndif :: RR)) ++ [(⟨(P ++ (B1 ++ Q)) ++ (B2 ++ RR), 0, true⟩ : RCall)]⟩ hti2 rfl rfl hmid2 (by decide) (by decide) rfl rfl hEi2
      (by rw [hlenSRC]; omega) (by rw [if_pos rfl]; exact hF2)
  have hC1 : dfs alwaysTrue ft
      (B1.length + Q.length + B2.length + RR.length + 6) (P.length + 1)
      (fun j => if j = 0 then true else false)
      ⟨P, 0, fun j => if j = 0 then true else false, freePartials [] 0 P ++ [(⟨P, 0, false⟩ : RCall)]⟩ =
      (⟨P, 1, fun j => if j = 0 then true else false, freePartials [] 0 P ++ [(⟨P, 0, false⟩ : RCall)] ++ freePartials P 0 (tokId m :: (B1 ++ tokEndif :: Q)) ++ [(⟨P ++ (B1 ++ Q), 0, false⟩ : RCall)] ++ freePartials (P ++ (B1 ++ Q)) 0 (tokId m :: (B2 ++ tokEndif :: RR)) ++ [(⟨(P ++ (B1 ++ Q)) ++ (B2 ++ RR), 0, true⟩ : RCall)]⟩, none) := by
    rw [show B1.length + Q.length + B2.length + RR.length + 6 =
      (B2.length + RR.length + 4) + (tokId m :: (B1 ++ tokEndif :: Q)).length from by
        simp only [List.length_cons, List.length_append]; omega]
    refine dfs_chain_walk ft (tokId m :: (B1 ++ tokEndif :: Q)) (B2.length + RR.length + 4)
      (P.length + 1) (fun j => if j = 0 then true else false)
      ⟨P, 0, fun j => if j = 0 then true else false, freePartials [] 0 P ++ [(⟨P, 0, false⟩ : RCall)]⟩
      ⟨P ++ (B1 ++ Q), 1, fun j => if j = 0 then true else false, freePartials [] 0 P ++ [(⟨P, 0, false⟩ : RCall)] ++ freePartials P 0 (tokId m :: (B1 ++ tokEndif :: Q)) ++ [(⟨P ++ (B1 ++ Q), 0, false⟩ : RCall)] ++ freePartials (P ++ (B1 ++ Q)) 0 (tokId m :: (B2 ++ tokEndif :: RR)) ++ [(⟨(P ++ (B1 ++ Q)) ++ (B2 ++ RR), 0, true⟩ : RCall)]⟩ ?_ htsT1 hkT1 hedT1 ?_
    · rw [hlenSRC]
      simp only [List.length_cons, List.length_append]
      omega
    · rw [show P.length + 1 + (tokId m :: (B1 ++ tokEndif :: Q)).length = P.length + B1.length + Q.length + 3 from by
        simp only [List.length_cons, List.length_append]; omega]
      rw [hfT1]
      exact hI2
  have hF4 : dfs alwaysTrue ft (B1.length + B2.length + RR.length + 4)
      (P.length + B1.length + Q.length + B2.length + 5) (fun j => if j = 0 then true else false)
      ⟨P ++ Q, 1, fun j => if j = 0 then false else if j = 0 then true else false, freePartials [] 0 P ++ [(⟨P, 0, false⟩ : RCall)] ++ freePartials P 0 (tokId m :: (B1 ++ tokEndif :: Q)) ++ [(⟨P ++ (B1 ++ Q), 0, false⟩ : RCall)] ++ freePartials (P ++ (B1 ++ Q)) 0 (tokId m :: (B2 ++ tokEndif :: RR)) ++ [(⟨(P ++ (B1 ++ Q)) ++ (B2 ++ RR), 0, true⟩ : RCall)] ++ freePartials P 1 (tokEndif :: Q) ++ [(⟨P ++ Q, 1, false⟩ : RCall)]⟩ =
      (⟨P ++ Q, 2, fun j => if j = 0 then false else if j = 0 then true else false, freePartials [] 0 P ++ [(⟨P, 0, false⟩ : RCall)] ++ freePartials P 0 (tokId m :: (B1 ++ tokEndif :: Q)) ++ [(⟨P ++ (B1 ++ Q), 0, false⟩ : RCall)] ++ freePartials (P ++ (B1 ++ Q)) 0 (tokId m :: (B2 ++ tokEndif :: RR)) ++ [(⟨(P ++ (B1 ++ Q)) ++ (B2 ++ RR), 0, true⟩ : RCall)] ++ freePartials P 1 (tokEndif :: Q) ++ [(⟨P ++ Q, 1, false⟩ : RCall)] ++ freePartials (P ++ Q) 1 (tokEndif :: RR) ++ [(⟨(P ++ Q) ++ RR, 1, true⟩ : RCall)]⟩, none) := by
    rw [show B1.length + B2.length + RR.length + 4 =
      (B1.length + B2.length + 3) + (tokEndif :: RR).length from by
        simp only [List.length_cons]; omega]
    have h := dfs_free_walk ft (tokEndif :: RR) (B1.length + B2.length + 3) (P.length + B1.length + Q.length + B2.length + 5)
      (fun j => if j = 0 then true else false)
      ⟨P ++ Q, 1, fun j => if j = 0 then false else if j = 0 then true else false, freePartials [] 0 P ++ [(⟨P, 0, false⟩ : RCall)] ++ freePartials P 0 (tokId m :: (B1 ++ tokEndif :: Q)) ++ [(⟨P ++ (B1 ++ Q), 0, false⟩ : RCall)] ++ freePartials (P ++ (B1 ++ Q)) 0 (tokId m :: (B2 ++ tokEndif :: RR)) ++ [(⟨(P ++ (B1 ++ Q)) ++ (B2 ++ RR), 0, true⟩ : RCall)] ++ freePartials P 1 (tokEndif :: Q) ++ [(⟨P ++ Q, 1, false⟩ : RCall)]⟩
      (by simp)
      (by rw [hlenSRC]; simp only [List.length_cons]; omega)
      htsT4 hkT4 hedT4 hElast
    rw [hfT4] at h
    exact h
  have hI2b : dfs alwaysTrue ft (B1.length + B2.length + RR.length + 5)
      (P.length + B1.length + Q.length + 3) (fun j => if j = 0 then true else false)
      ⟨P ++ Q, 1, fun j => if j = 0 then false else if j = 0 then true else false, freePartials [] 0 P ++ [(⟨P, 0, false⟩ : RCall)] ++ freePartials P 0 (tokId m :: (B1 ++ tokEndif :: Q)) ++ [(⟨P ++ (B1 ++ Q), 0, false⟩ : RCall)] ++ freePartials (P ++ (B1 ++ Q)) 0 (tokId m :: (B2 ++ tokEndif :: RR)) ++ [(⟨(P ++ (B1 ++ Q)) ++ (B2 ++ RR), 0, true⟩ : RCall)] ++ freePartials P 1 (tokEndif :: Q)⟩ = (⟨P ++ Q, 2, fun j => if j = 0 then false else if j = 0 then true else false, freePartials [] 0 P ++ [(⟨P, 0, false⟩ : RCall)] ++ freePartials P 0 (tokId m :: (B1 ++ tokEndif :: Q)) ++ [(⟨P ++ (B1 ++ Q), 0, false⟩ : RCall)] ++ freePartials (P ++ (B1 ++ Q)) 0 (tokId m :: (B2 ++ tokEndif :: RR)) ++ [(⟨(P ++ (B1 ++ Q)) ++ (B2 ++ RR), 0, true⟩ : RCall)] ++ freePartials P 1 (tokEndif :: Q) ++ [(⟨P ++ Q, 1, false⟩ : RCall)] ++ freePartials (P ++ Q) 1 (tokEndif :: RR) ++ [(⟨(P ++ Q) ++ RR, 1, true⟩ : RCall)]⟩, none) := by
    exact dfs_branch_assumed ft (B1.length + B2.length + RR.length + 4)
      (P.length + B1.length + Q.length + 3) (P.length + B1.length + Q.length + B2.length + 5) tokIfdef 0 false (fun j => if j = 0 then true else false)
      ⟨P ++ Q, 1, fun j => if j = 0 then false else if j = 0 then true else false, freePartials [] 0 P ++ [(⟨P, 0, false⟩ : RCall)] ++ freePartials P 0 (tokId m :: (B1 ++ tokEndif :: Q)) ++ [(⟨P ++ (B1 ++ Q), 0, false⟩ : RCall)] ++ freePartials (P ++ (B1 ++ Q)) 0 (tokId m :: (B2 ++ tokEndif :: RR)) ++ [(⟨(P ++ (B1 ++ Q)) ++ (B2 ++ RR), 0, true⟩ : RCall)] ++ freePartials P 1 (tokEndif :: Q)⟩
      ⟨P ++ Q, 2, fun j => if j = 0 then false else if j = 0 then true else false, freePartials [] 0 P ++ [(⟨P, 0, false⟩ : RCall)] ++ freePartials P 0 (tokId m :: (B1 ++ tokEndif :: Q)) ++ [(⟨P ++ (B1 ++ Q), 0, false⟩ : RCall)] ++ freePartials (P ++ (B1 ++ Q)) 0 (tokId m :: (B2 ++ tokEndif :: RR)) ++ [(⟨(P ++ (B1 ++ Q)) ++ (B2 ++ RR), 0, true⟩ : RCall)] ++ freePartials P 1 (tokEndif :: Q) ++ [(⟨P ++ Q, 1, false⟩ : RCall)] ++ freePartials (P ++ Q) 1 (tokEndif :: RR) ++ [(⟨(P ++ Q) ++ RR, 1, true⟩ : RCall)]⟩ hti2 rfl rfl hmid2 (by decide) (by decide) rfl rfl hEi2
      (by rw [hlenSRC]; omega) (by rw [if_neg (by simp)]; exact hF4)
  have hC3 : dfs alwaysTrue ft
      (B1.length + Q.length + B2.length + RR.length + 6) (P.length + B1.length + 2)
      (fun j => if j = 0 then true else false)
      ⟨P, 1, fun j => if j = 0 then false else if j = 0 then true else false, freePartials [] 0 P ++ [(⟨P, 0, false⟩ : RCall)] ++ freePartials P 0 (tokId m :: (B1 ++ tokEndif :: Q)) ++ [(⟨P ++ (B1 ++ Q), 0, false⟩ : RCall)] ++ freePartials (P ++ (B1 ++ Q)) 0 (tokId m :: (B2 ++ tokEndif :: RR)) ++ [(⟨(P ++ (B1 ++ Q)) ++ (B2 ++ RR), 0, true⟩ : RCall)]⟩ =
      (⟨P, 2, fun j => if j = 0 then false else if j = 0 then true else false, freePartials [] 0 P ++ [(⟨P, 0, false⟩ : RCall)] ++ freePartials P 0 (tokId m :: (B1 ++ tokEndif :: Q)) ++ [(⟨P ++ (B1 ++ Q), 0, false⟩ : RCall)] ++ freePartials (P ++ (B1 ++ Q)) 0 (tokId m :: (B2 ++ tokEndif :: RR)) ++ [(⟨(P ++ (B1 ++ Q)) ++ (B2 ++ RR), 0, true⟩ : RCall)] ++ freePartials P 1 (tokEndif :: Q) ++ [(⟨P ++ Q, 1, false⟩ : RCall)] ++ freePartials (P ++ Q) 1 (tokEndif :: RR) ++ [(⟨(P ++ Q) ++ RR, 1, true⟩ : RCall)]⟩, none) := by
    rw [show B1.length + Q.length + B2.length + RR.length + 6 =
      (B1.length + B2.length + RR.length + 5) + (tokEndif :: Q).length from by
        simp only [List.length_cons]; omega]
    refine dfs_chain_walk ft (tokEndif :: Q)
      (B1.length + B2.length + RR.length + 5) (P.length + B1.length + 2) (fun j => if j = 0 then true else false)
      ⟨P, 1, fun j => if j = 0 then false else if j = 0 then true else false, freePartials [] 0 P ++ [(⟨P, 0, false⟩ : RCall)] ++ freePartials P 0 (tokId m :: (B1 ++ tokEndif :: Q)) ++ [(⟨P ++ (B1 ++ Q), 0, false⟩ : RCall)] ++ freePartials (P ++ (B1 ++ Q)) 0 (tokId m :: (B2 ++ tokEndif :: RR)) ++ [(⟨(P ++ (B1 ++ Q)) ++ (B2 ++ RR), 0, true⟩ : RCall)]⟩
      ⟨P ++ Q, 2, fun j => if j = 0 then false else if j = 0 then true else false, freePartials [] 0 P ++ [(⟨P, 0, false⟩ : RCall)] ++ freePartials P 0 (tokId m :: (B1 ++ tokEndif :: Q)) ++ [(⟨P ++ (B1 ++ Q), 0, false⟩ : RCall)] ++ freePartials (P ++ (B1 ++ Q)) 0 (tokId m :: (B2 ++ tokEndif :: RR)) ++ [(⟨(P ++ (B1 ++ Q)) ++ (B2 ++ RR), 0, true⟩ : RCall)] ++ freePartials P 1 (tokEndif :: Q) ++ [(⟨P ++ Q, 1, false⟩ : RCall)] ++ freePartials (P ++ Q) 1 (tokEndif :: RR) ++ [(⟨(P ++ Q) ++ RR, 1, true⟩ : RCall)]⟩ ?_ htsT3 hkT3 hedT3 ?_
    · rw [hlenSRC]
      simp only [List.length_cons]
      omega
    · rw [show P.length + B1.length + 2 + (tokEndif :: Q).length = P.length + B1.length + Q.length + 3 from by
        simp only [List.length_cons]; omega]
      rw [hfT3]
      exact hI2b
  have hI1 : dfs alwaysTrue ft
      (B1.length + Q.length + B2.length + RR.length + 7) P.length
      (fun _ => false) ⟨P, 0, fun _ => false, freePartials [] 0 P⟩ =
      (⟨P, 2, fun j => if j = 0 then false else if j = 0 then true else false, freePartials [] 0 P ++ [(⟨P, 0, false⟩ : RCall)] ++ freePartials P 0 (tokId m :: (B1 ++ tokEndif :: Q)) ++ [(⟨P ++ (B1 ++ Q), 0, false⟩ : RCall)] ++ freePartials (P ++ (B1 ++ Q)) 0 (tokId m :: (B2 ++ tokEndif :: RR)) ++ [(⟨(P ++ (B1 ++ Q)) ++ (B2 ++ RR), 0, true⟩ : RCall)] ++ freePartials P 1 (tokEndif :: Q) ++ [(⟨P ++ Q, 1, false⟩ : RCall)] ++ freePartials (P ++ Q) 1 (tokEndif :: RR) ++ [(⟨(P ++ Q) ++ RR, 1, true⟩ : RCall)]⟩, none) := by
    exact dfs_branch_unassumed ft
      (B1.length + Q.length + B2.length + RR.length + 6) P.length
      (P.length + B1.length + 2) tokIfdef 0 (fun _ => false)
      ⟨P, 0, fun _ => false, freePartials [] 0 P⟩
      ⟨P, 1, fun j => if j = 0 then true else false, freePartials [] 0 P ++ [(⟨P, 0, false⟩ : RCall)] ++ freePartials P 0 (tokId m :: (B1 ++ tokEndif :: Q)) ++ [(⟨P ++ (B1 ++ Q), 0, false⟩ : RCall)] ++ freePartials (P ++ (B1 ++ Q)) 0 (tokId m :: (B2 ++ tokEndif :: RR)) ++ [(⟨(P ++ (B1 ++ Q)) ++ (B2 ++ RR), 0, true⟩ : RCall)]⟩
      ⟨P, 2, fun j => if j = 0 then false else if j = 0 then true else false, freePartials [] 0 P ++ [(⟨P, 0, false⟩ : RCall)] ++ freePartials P 0 (tokId m :: (B1 ++ tokEndif :: Q)) ++ [(⟨P ++ (B1 ++ Q), 0, false⟩ : RCall)] ++ freePartials (P ++ (B1 ++ Q)) 0 (tokId m :: (B2 ++ tokEndif :: RR)) ++ [(⟨(P ++ (B1 ++ Q)) ++ (B2 ++ RR), 0, true⟩ : RCall)] ++ freePartials P 1 (tokEndif :: Q) ++ [(⟨P ++ Q, 1, false⟩ : RCall)] ++ freePartials (P ++ Q) 1 (tokEndif :: RR) ++ [(⟨(P ++ Q) ++ RR, 1, true⟩ : RCall)]⟩
      hti1 rfl rfl hmid1 (by decide) (by decide) rfl hEi1
      (by rw [hlenSRC]; omega) hC1 hC3
  rw [generateVariants]
  rw [show ft.src.length + 1 =
    (B1.length + Q.length + B2.length + RR.length + 7) + P.length from by
      rw [hlenSRC]; omega]
  refine dfs_chain_walk ft P
    (B1.length + Q.length + B2.length + RR.length + 7) 0 (fun _ => false)
    ⟨[], 0, fun _ => false, []⟩ ⟨P, 2, fun j => if j = 0 then false else if j = 0 then true else false, freePartials [] 0 P ++ [(⟨P, 0, false⟩ : RCall)] ++ freePartials P 0 (tokId m :: (B1 ++ tokEndif :: Q)) ++ [(⟨P ++ (B1 ++ Q), 0, false⟩ : RCall)] ++ freePartials (P ++ (B1 ++ Q)) 0 (tokId m :: (B2 ++ tokEndif :: RR)) ++ [(⟨(P ++ (B1 ++ Q)) ++ (B2 ++ RR), 0, true⟩ : RCall)] ++ freePartials P 1 (tokEndif :: Q) ++ [(⟨P ++ Q, 1, false⟩ : RCall)] ++ freePartials (P ++ Q) 1 (tokEndif :: RR) ++ [(⟨(P ++ Q) ++ RR, 1, true⟩ : RCall)]⟩ ?_ ?_ ?_ ?_ ?_
  · rw [hlenSRC]
    omega
  · intro j hj
    rw [hsrc]
    simp only [Nat.zero_add]
    exact List.get?_append hj
  · exact fun t ht => ord_not_branch t (hP t ht)
  · intro j hj
    simp only [Nat.zero_add]
    exact hEone j (by omega) (by omega) (by omega)
  · simp only [Nat.zero_add, List.nil_append]
    rw [filter_emitted_ordinary P hP]
    exact hI1

/-- C1: macro-assumption consistency on the sibling-`ifdef` schema. -/
theorem c1_sibling_macro_consistency (m : String)
    (P B1 Q B2 RR : List Token)
    (hP : ∀ t ∈ P, t.kind = TokKind.ordinary)
    (hB1 : ∀ t ∈ B1, t.kind = TokKind.ordinary)
    (hQ : ∀ t ∈ Q, t.kind = TokKind.ordinary)
    (hB2 : ∀ t ∈ B2, t.kind = TokKind.ordinary)
    (hRR : ∀ t ∈ RR, t.kind = TokKind.ordinary) :
    enumVariants (siblingInput m P B1 Q B2 RR) alwaysTrue =
      some [(P ++ B1 ++ Q ++ B2 ++ RR, 0), (P ++ Q ++ RR, 1)] := by
  have hPc : ∀ t ∈ P, isConditional t.kind = false :=
    fun t ht => ord_not_cond t (hP t ht)
  have hB1c : ∀ t ∈ B1, isConditional t.kind = false :=
    fun t ht => ord_not_cond t (hB1 t ht)
  have hQc : ∀ t ∈ Q, isConditional t.kind = false :=
    fun t ht => ord_not_cond t (hQ t ht)
  have hB2c : ∀ t ∈ B2, isConditional t.kind = false :=
    fun t ht => ord_not_cond t (hB2 t ht)
  have hRRc : ∀ t ∈ RR, isConditional t.kind = false :=
    fun t ht => ord_not_cond t (hRR t ht)
  have hbuild := sib_build m P B1 Q B2 RR
    (P ++ tokIfdef :: tokId m :: (B1 ++ tokEndif :: (Q ++ tokIfdef ::
      tokId m :: (B2 ++ tokEndif :: RR)))).length rfl hPc hB1c hQc hB2c hRRc
  have hspec := sibGraphEdges_spec m P B1 Q B2 RR
    (P ++ tokIfdef :: tokId m :: (B1 ++ tokEndif :: (Q ++ tokIfdef ::
      tokId m :: (B2 ++ tokEndif :: RR)))).length
    (by simp only [List.length_append, List.length_cons, List.length_nil]
          <;> omega)
    hQc hRRc
  have hrun := c1_dfs_run m P B1 Q B2 RR
    ⟨siblingInput m P B1 Q B2 RR,
     sibGraphEdges m P B1 Q B2 RR
       (P ++ tokIfdef :: tokId m :: (B1 ++ tokEndif :: (Q ++ tokIfdef ::
         tokId m :: (B2 ++ tokEndif :: RR)))).length,
     [(m, 0)]⟩
    hP hB1 hQ hB2 hRR
    (by simp [siblingInput])
    rfl
    hspec
  rw [enumVariants, enumCalls, enumerate, hbuild]
  simp only []
  rw [hrun]
  simp only []
  simp only [variantsOf_append, freePartials_no_variants]
  simp [variantsOf, List.append_assoc]

/-- Closed form of the graph construction on `elsifElseInput`. -/
theorem elsif_build (m nm : String) (hmn : m ≠ nm)
    (B1 B2 B3 : List Token) (n : Nat)
    (hn : n = (tokIfdef :: tokId m :: (B1 ++ tokElsif :: tokId nm ::
      (B2 ++ tokElse :: (B3 ++ [tokEndif])))).length)
    (hB1 : ∀ t ∈ B1, isConditional t.kind = false)
    (hB2 : ∀ t ∈ B2, isConditional t.kind = false)
    (hB3 : ∀ t ∈ B3, isConditional t.kind = false) :
    generateControlFlowTree (elsifElseInput m nm B1 B2 B3) =
      .ok ⟨[], elsifGraphEdges m nm B1 B2 B3 n, [(m, 0), (nm, 1)], 1⟩ := by
  have hform : elsifElseInput m nm B1 B2 B3 =
      tokIfdef :: tokId m :: (B1 ++ tokElsif :: tokId nm ::
        (B2 ++ tokElse :: (B3 ++ [tokEndif]))) := by
    simp [elsifElseInput]
  have hmac1 : addMacroOfConditionalToMap tokIfdef (some (tokId m)) []
      initialMacroCounter = .ok ([(m, 0)], 0) := by
    rw [addMacro_ifdef_new m [] initialMacroCounter rfl]
    simp [initialMacroCounter]
  have hbeq : (nm == m) = false := by
    simp only [beq_eq_false_iff_ne]
    exact fun h => hmn h.symm
  have hlook : List.lookup nm [(m, (0 : Int))] = none := by
    simp [List.lookup, hbeq]
  have hmac2 : addMacroOfConditionalToMap tokElsif (some (tokId nm))
      [(m, 0)] 0 = .ok ([(m, 0), (nm, 1)], 1) := by
    rw [addMacro_elsif_new nm [(m, 0)] 0 hlook]
    simp
  rw [generateControlFlowTree, hform, ← hn]
  rw [buildAux_step_ifdef n 0 m _ [] _ [] _ initialMacroCounter _ hmac1]
  rw [show tokId m :: (B1 ++ tokElsif :: tokId nm ::
      (B2 ++ tokElse :: (B3 ++ [tokEndif]))) =
    (tokId m :: B1) ++ (tokElsif :: tokId nm ::
      (B2 ++ tokElse :: (B3 ++ [tokEndif]))) from by simp]
  rw [buildAux_seg (tokId m :: B1) (by
    intro t ht
    rcases List.mem_cons.mp ht with h | h
    · rw [h]; rfl
    · exact hB1 t h)]
  simp only [List.head?_cons, Nat.zero_add, List.length_cons,
    show openTok (some tokElsif) = false from rfl]
  rw [show 1 + (B1.length + 1) = B1.length + 2 from by omega]
  rw [buildAux_step_elsif n (B1.length + 2) nm _ _ _ _ _ _ _ _ hmac2]
  rw [show tokId nm :: (B2 ++ tokElse :: (B3 ++ [tokEndif])) =
    (tokId nm :: B2) ++ (tokElse :: (B3 ++ [tokEndif])) from by simp]
  rw [buildAux_seg (tokId nm :: B2) (by
    intro t ht
    rcases List.mem_cons.mp ht with h | h
    · rw [h]; rfl
    · exact hB2 t h)]
  simp only [List.head?_cons, List.length_cons,
    show openTok (some tokElse) = false from rfl]
  rw [show B1.length + 2 + 1 + (B2.length + 1) =
    B1.length + B2.length + 4 from by omega]
  rw [buildAux_step_else n (B1.length + B2.length + 4)]
  rw [show B1.length + B2.length + 4 + 1 =
    B1.length + B2.length + 5 from by omega]
  rw [buildAux_seg B3 hB3]
  simp only [List.head?_cons,
    show openTok (some tokEndif) = false from rfl]
  rw [show B1.length + B2.length + 5 + B3.length =
    B1.length + B2.length + B3.length + 5 from by omega]
  rw [buildAux_step_endif n (B1.length + B2.length + B3.length + 5)]
  rw [buildAux]
  rfl

/-- Pointwise value of the layered `elsifElseInput` edge map. -/
theorem elsifGraphEdges_spec (m nm : String) (B1 B2 B3 : List Token)
    (n : Nat) (hn : n = B1.length + B2.length + B3.length + 6)
    (hb3 : 1 ≤ B3.length) :
    ∀ j, elsifGraphEdges m nm B1 B2 B3 n j =
      elsifEdgeSpec B1.length B2.length B3.length j := by
  intro j
  simp only [elsifGraphEdges]
  rw [addBlockEdges_oneElsifElse n (B1.length + 2)
    (B1.length + B2.length + 4) (B1.length + B2.length + B3.length + 5) _
    (by omega) (by omega)]
  by_cases h0 : j = 0
  · rw [addEdge_ne _ (B1.length + 2 - 1) (B1.length + B2.length + B3.length + 5) j (by omega)]
    rw [addEdge_ne _ (B1.length + B2.length + B3.length + 5 - 1) (B1.length + B2.length + B3.length + 5) j (by omega)]
    rw [addEdge_ne _ (B1.length + B2.length + 4) (B1.length + B2.length + 4 + 1) j (by omega)]
    rw [addEdge_ne _ (B1.length + 2) (B1.length + B2.length + 4) j (by omega)]
    rw [addEdge_ne _ (B1.length + 2) (B1.length + 2 + 1) j (by omega)]
    rw [addEdge_eval _ (0) (B1.length + 2) j, if_pos (show j = 0 from by omega)]
    rw [addEdge_eval _ (0) (1) j, if_pos (show j = 0 from by omega)]
    rw [segEdges_out B3 (B1.length + B2.length + 5) false _ j (by omega)]
    rw [segEdges_out (tokId nm :: B2) (B1.length + 3) false _ j (by simp only [List.length_cons]; omega)]
    rw [segEdges_out (tokId m :: B1) (1) false _ j (by simp only [List.length_cons]; omega)]
    simp only [elsifEdgeSpec]
    rw [if_pos (by omega)]
    all_goals (simp <;> omega)
  by_cases h1 : 1 ≤ j ∧ j + 1 < B1.length + 2
  · rw [addEdge_ne _ (B1.length + 2 - 1) (B1.length + B2.length + B3.length + 5) j (by omega)]
    rw [addEdge_ne _ (B1.length + B2.length + B3.length + 5 - 1) (B1.length + B2.length + B3.length + 5) j (by omega)]
    rw [addEdge_ne _ (B1.length + B2.length + 4) (B1.length + B2.length + 4 + 1) j (by omega)]
    rw [addEdge_ne _ (B1.length + 2) (B1.length + B2.length + 4) j (by omega)]
    rw [addEdge_ne _ (B1.length + 2) (B1.length + 2 + 1) j (by omega)]
    rw [addEdge_ne _ (0) (B1.length + 2) j (by omega)]
    rw [addEdge_ne _ (0) (1) j (by omega)]
    rw [segEdges_out B3 (B1.length + B2.length + 5) false _ j (by omega)]
    rw [segEdges_out (tokId nm :: B2) (B1.length + 3) false _ j (by simp only [List.length_cons]; omega)]
    rw [segEdges_in (tokId m :: B1) (1) false _ j (by omega) (by simp only [List.length_cons]; omega)]
    simp only [elsifEdgeSpec]
    rw [if_neg (by omega)]
    rw [if_neg (by omega)]
    rw [if_neg (by omega)]
    rw [if_neg (by omega)]
    rw [if_pos (by omega)]
    all_goals (simp <;> omega)
  by_cases h2 : j = B1.length + 1
  · rw [addEdge_eval _ (B1.length + 2 - 1) (B1.length + B2.length + B3.length + 5) j, if_pos (show j = B1.length + 2 - 1 from by omega)]
    rw [addEdge_ne _ (B1.length + B2.length + B3.length + 5 - 1) (B1.length + B2.length + B3.length + 5) j (by omega)]
    rw [addEdge_ne _ (B1.length + B2.length + 4) (B1.length + B2.length + 4 + 1) j (by omega)]
    rw [addEdge_ne _ (B1.length + 2) (B1.length + B2.length + 4) j (by omega)]
    rw [addEdge_ne _ (B1.length + 2) (B1.length + 2 + 1) j (by omega)]
    rw [addEdge_ne _ (0) (B1.length + 2) j (by omega)]
    rw [addEdge_ne _ (0) (1) j (by omega)]
    rw [segEdges_out B3 (B1.length + B2.length + 5) false _ j (by omega)]
    rw [segEdges_out (tokId nm :: B2) (B1.length + 3) false _ j (by simp only [List.length_cons]; omega)]
    rw [segEdges_last_closed (tokId m :: B1) (1) _ j (by simp only [List.length_cons]; omega)]
    simp only [elsifEdgeSpec]
    rw [if_neg (by omega)]
    rw [if_pos (by omega)]
    all_goals (simp <;> omega)
  by_cases h3 : j = B1.length + 2
  · rw [addEdge_ne _ (B1.length + 2 - 1) (B1.length + B2.length + B3.length + 5) j (by omega)]
    rw [addEdge_ne _ (B1.length + B2.length + B3.length + 5 - 1) (B1.length + B2.length + B3.length + 5) j (by omega)]
    rw [addEdge_ne _ (B1.length + B2.length + 4) (B1.length + B2.length + 4 + 1) j (by omega)]
    rw [addEdge_eval _ (B1.length + 2) (B1.length + B2.length + 4) j, if_pos (show j = B1.length + 2 from by omega)]
    rw [addEdge_eval _ (B1.length + 2) (B1.length + 2 + 1) j, if_pos (show j = B1.length + 2 from by omega)]
    rw [addEdge_ne _ (0) (B1.length + 2) j (by omega)]
    rw [addEdge_ne _ (0) (1) j (by omega)]
    rw [segEdges_out B3 (B1.length + B2.length + 5) false _ j (by omega)]
    rw [segEdges_out (tokId nm :: B2) (B1.length + 3) false _ j (by simp only [List.length_cons]; omega)]
    rw [segEdges_out (tokId m :: B1) (1) false _ j (by simp only [List.length_cons]; omega)]
    simp only [elsifEdgeSpec]
    rw [if_neg (by omega)]
    rw [if_neg (by omega)]
    rw [if_pos (by omega)]
    all_goals (simp <;> omega)
  by_cases h4 : B1.length + 3 ≤ j ∧ j + 1 < B1.length + B2.length + 4
  · rw [addEdge_ne _ (B1.length + 2 - 1) (B1.length + B2.length + B3.length + 5) j (by omega)]
    rw [addEdge_ne _ (B1.length + B2.length + B3.length + 5 - 1) (B1.length + B2.length + B3.length + 5) j (by omega)]
    rw [addEdge_ne _ (B1.length + B2.length + 4) (B1.length + B2.length + 4 + 1) j (by omega)]
    rw [addEdge_ne _ (B1.length + 2) (B1.length + B2.length + 4) j (by omega)]
    rw [addEdge_ne _ (B1.length + 2) (B1.length + 2 + 1) j (by omega)]
    rw [addEdge_ne _ (0) (B1.length + 2) j (by omega)]
    rw [addEdge_ne _ (0) (1) j (by omega)]
    rw [segEdges_out B3 (B1.length + B2.length + 5) false _ j (by omega)]
    rw [segEdges_in (tokId nm :: B2) (B1.length + 3) false _ j (by omega) (by simp only [List.length_cons]; omega)]
    rw [segEdges_out (tokId m :: B1) (1) false _ j (by simp only [List.length_cons]; omega)]
    simp only [elsifEdgeSpec]
    rw [if_neg (by omega)]
    rw [if_neg (by omega)]
    rw [if_neg (by omega)]
    rw [if_neg (by omega)]
    rw [if_pos (by omega)]
    all_goals (simp <;> omega)
  by_cases h5 : j = B1.length + B2.length + 3
  · rw [addEdge_ne _ (B1.length + 2 - 1) (B1.length + B2.length + B3.length + 5) j (by omega)]
    rw [addEdge_ne _ (B1.length + B2.length + B3.length + 5 - 1) (B1.length + B2.length + B3.length + 5) j (by omega)]
    rw [addEdge_ne _ (B1.length + B2.length + 4) (B1.length + B2.length + 4 + 1) j (by omega)]
    rw [addEdge_ne _ (B1.length + 2) (B1.length + B2.length + 4) j (by omega)]
    rw [addEdge_ne _ (B1.length + 2) (B1.length + 2 + 1) j (by omega)]
    rw [addEdge_ne _ (0) (B1.length + 2) j (by omega)]
    rw [addEdge_ne _ (0) (1) j (by omega)]
    rw [segEdges_out B3 (B1.length + B2.length + 5) false _ j (by omega)]
    rw [segEdges_last_closed (tokId nm :: B2) (B1.length + 3) _ j (by simp only [List.length_cons]; omega)]
    rw [segEdges_out (tokId m :: B1) (1) false _ j (by simp only [List.length_cons]; omega)]
    simp only [elsifEdgeSpec]
    rw [if_neg (by omega)]
    rw [if_neg (by omega)]
    rw [if_neg (by omega)]
    rw [if_pos (by omega)]
    all_goals (simp <;> omega)
  by_cases h6 : j = B1.length + B2.length + 4
  · rw [addEdge_ne _ (B1.length + 2 - 1) (B1.length + B2.length + B3.length + 5) j (by omega)]
    rw [addEdge_ne _ (B1.length + B2.length + B3.length + 5 - 1) (B1.length + B2.length + B3.length + 5) j (by omega)]
    rw [addEdge_eval _ (B1.length + B2.length + 4) (B1.length + B2.length + 4 + 1) j, if_pos (show j = B1.length + B2.length + 4 from by omega)]
    rw [addEdge_ne _ (B1.length + 2) (B1.length + B2.length + 4) j (by omega)]
    rw [addEdge_ne _ (B1.length + 2) (B1.length + 2 + 1) j (by omega)]
    rw [addEdge_ne _ (0) (B1.length + 2) j (by omega)]
    rw [addEdge_ne _ (0) (1) j (by omega)]
    rw [segEdges_out B3 (B1.length + B2.length + 5) false _ j (by omega)]
    rw [segEdges_out (tokId nm :: B2) (B1.length + 3) false _ j (by simp only [List.length_cons]; omega)]
    rw [segEdges_out (tokId m :: B1) (1) false _ j (by simp only [List.length_cons]; omega)]
    simp only [elsifEdgeSpec]
    rw [if_neg (by omega)]
    rw [if_neg (by omega)]
    rw [if_neg (by omega)]
    rw [if_neg (by omega)]
    rw [if_pos (by omega)]
    all_goals (simp <;> omega)
  by_cases h7 : B1.length + B2.length + 5 ≤ j ∧ j + 1 < B1.length + B2.length + B3.length + 5
  · rw [addEdge_ne _ (B1.length + 2 - 1) (B1.length + B2.length + B3.length + 5) j (by omega)]
    rw [addEdge_ne _ (B1.length + B2.length + B3.length + 5 - 1) (B1.length + B2.length + B3.length + 5) j (by omega)]
    rw [addEdge_ne _ (B1.length + B2.length + 4) (B1.length + B2.length + 4 + 1) j (by omega)]
    rw [addEdge_ne _ (B1.length + 2) (B1.length + B2.length + 4) j (by omega)]
    rw [addEdge_ne _ (B1.length + 2) (B1.length + 2 + 1) j (by omega)]
    rw [addEdge_ne _ (0) (B1.length + 2) j (by omega)]
    rw [addEdge_ne _ (0) (1) j (by omega)]
    rw [segEdges_in B3 (B1.length + B2.length + 5) false _ j (by omega) (by omega)]
    rw [segEdges_out (tokId nm :: B2) (B1.length + 3) false _ j (by simp only [List.length_cons]; omega)]
    rw [segEdges_out (tokId m :: B1) (1) false _ j (by simp only [List.length_cons]; omega)]
    simp only [elsifEdgeSpec]
    rw [if_neg (by omega)]
    rw [if_neg (by omega)]
    rw [if_neg (by omega)]
    rw [if_neg (by omega)]
    rw [if_pos (by omega)]
    all_goals (simp <;> omega)
  by_cases h8 : j = B1.length + B2.length + B3.length + 4
  · rw [addEdge_ne _ (B1.length + 2 - 1) (B1.length + B2.length + B3.length + 5) j (by omega)]
    rw [addEdge_eval _ (B1.length + B2.length + B3.length + 5 - 1) (B1.length + B2.length + B3.length + 5) j, if_pos (show j = B1.length + B2.length + B3.length + 5 - 1 from by omega)]
    rw [addEdge_ne _ (B1.length + B2.length + 4) (B1.length + B2.length + 4 + 1) j (by omega)]
    rw [addEdge_ne _ (B1.length + 2) (B1.length + B2.length + 4) j (by omega)]
    rw [addEdge_ne _ (B1.length + 2) (B1.length + 2 + 1) j (by omega)]
    rw [addEdge_ne _ (0) (B1.length + 2) j (by omega)]
    rw [addEdge_ne _ (0) (1) j (by omega)]
    rw [segEdges_last_closed B3 (B1.length + B2.length + 5) _ j (by omega)]
    rw [segEdges_out (tokId nm :: B2) (B1.length + 3) false _ j (by simp only [List.length_cons]; omega)]
    rw [segEdges_out (tokId m :: B1) (1) false _ j (by simp only [List.length_cons]; omega)]
    simp only [elsifEdgeSpec]
    rw [if_neg (by omega)]
    rw [if_neg (by omega)]
    rw [if_neg (by omega)]
    rw [if_neg (by omega)]
    rw [if_pos (by omega)]
    all_goals (simp <;> omega)
  rw [addEdge_ne _ (B1.length + 2 - 1) (B1.length + B2.length + B3.length + 5) j (by omega)]
  rw [addEdge_ne _ (B1.length + B2.length + B3.length + 5 - 1) (B1.length + B2.length + B3.length + 5) j (by omega)]
  rw [addEdge_ne _ (B1.length + B2.length + 4) (B1.length + B2.length + 4 + 1) j (by omega)]
  rw [addEdge_ne _ (B1.length + 2) (B1.length + B2.length + 4) j (by omega)]
  rw [addEdge_ne _ (B1.length + 2) (B1.length + 2 + 1) j (by omega)]
  rw [addEdge_ne _ 0 (B1.length + 2) j (by omega)]
  rw [addEdge_ne _ 0 1 j (by omega)]
  rw [segEdges_out B3 (B1.length + B2.length + 5) false _ j (by omega)]
  rw [segEdges_out (tokId nm :: B2) (B1.length + 3) false _ j (by simp only [List.length_cons]; omega)]
  rw [segEdges_out (tokId m :: B1) 1 false _ j (by simp only [List.length_cons]; omega)]
  simp only [elsifEdgeSpec]
  rw [if_neg (by omega)]
  rw [if_neg (by omega)]
  rw [if_neg (by omega)]
  rw [if_neg (by omega)]
  rw [if_neg (by omega)]

/-- The complete `GenerateVariants` run on the graph of `elsifElseInput`:
the true branch of `M` delivers body 1 as variant 0, the `(M false, N
true)` path dead-ends after body 2 with only partial calls, and the
`(M false, N false)` path delivers body 3 as variant 1. -/
theorem c2_dfs_run (m nm : String) (hmn : m ≠ nm) (B1 B2 B3 : List Token)
    (ft : FlowTree)
    (hB1 : ∀ t ∈ B1, t.kind = TokKind.ordinary)
    (hB2 : ∀ t ∈ B2, t.kind = TokKind.ordinary)
    (hB3 : ∀ t ∈ B3, t.kind = TokKind.ordinary)
    (hsrc : ft.src = tokIfdef :: tokId m :: (B1 ++ tokElsif :: tokId nm :: (B2 ++ tokElse :: (B3 ++ [tokEndif]))))
    (hmap : ft.macroMap = [(m, 0), (nm, 1)])
    (hE : ∀ j, ft.edges j =
      elsifEdgeSpec B1.length B2.length B3.length j) :
    generateVariants alwaysTrue ft [] 0 (fun _ => false) =
      (⟨[], 2, fun j => if j = 1 then false else if j = 1 then true else if j = 0 then false else if j = 0 then true else false,
        [(⟨[], 0, false⟩ : RCall)] ++ freePartials [] 0 (tokId m :: B1) ++ freePartials B1 0 [tokEndif] ++ [(⟨B1, 0, true⟩ : RCall)] ++ [(⟨[], 1, false⟩ : RCall)] ++ freePartials [] 1 (tokId nm :: B2) ++ freePartials [] 1 (tokElse :: (B3 ++ [tokEndif])) ++ [(⟨B3, 1, true⟩ : RCall)]⟩, none) := by
  have hbeq : (nm == m) = false := by
    simp only [beq_eq_false_iff_ne]
    exact fun h => hmn h.symm
  have hlenSRC : ft.src.length = B1.length + B2.length + B3.length + 6 := by
    rw [hsrc]
    simp only [List.length_cons, List.length_append, List.length_nil] <;> omega
  have hEone2 : ∀ j, j ≠ 0 → j ≠ B1.length + 1 → j ≠ B1.length + 2 →
      j ≠ B1.length + B2.length + 3 → j + 1 < B1.length + B2.length + B3.length + 6 →
      ft.edges j = [j + 1] := by
    intro j hj1 hj2 hj3 hj4 hj5
    rw [hE j]
    simp only [elsifEdgeSpec]
    rw [if_neg hj1, if_neg hj2, if_neg hj3, if_neg hj4, if_pos (by omega)]
  have hE0 : ft.edges 0 = [1, B1.length + 2] := by
    rw [hE]
    simp only [elsifEdgeSpec]
    rw [if_pos trivial]
  have hEjump : ft.edges (B1.length + 1) = [B1.length + B2.length + B3.length + 5] := by
    rw [hE]
    simp only [elsifEdgeSpec]
    rw [if_neg (by omega), if_pos trivial]
  have hEs : ft.edges (B1.length + 2) =
      [B1.length + 3, B1.length + B2.length + 4] := by
    rw [hE]
    simp only [elsifEdgeSpec]
    rw [if_neg (by omega), if_neg (by omega), if_pos trivial]
  have hEdead : ft.edges (B1.length + B2.length + 3) = [] := by
    rw [hE]
    simp only [elsifEdgeSpec]
    rw [if_neg (by omega), if_neg (by omega), if_neg (by omega),
      if_pos trivial]
  have hElast2 : ft.edges (ft.src.length - 1) = [] := by
    rw [hE]
    simp only [elsifEdgeSpec]
    rw [if_neg (by omega), if_neg (by omega), if_neg (by omega),
      if_neg (by omega), if_neg (by omega)]
  have ht0 : ft.src.get? 0 = some tokIfdef := by rw [hsrc]; rfl
  have ht1 : ft.src.get? 1 = some (tokId m) := by rw [hsrc]; rfl
  have hdec1 : tokIfdef :: tokId m :: (B1 ++ tokElsif :: tokId nm :: (B2 ++ tokElse :: (B3 ++ [tokEndif]))) =
      (tokIfdef :: tokId m :: B1) ++ (tokElsif :: tokId nm ::
        (B2 ++ tokElse :: (B3 ++ [tokEndif]))) := by simp
  have htsElsif : ft.src.get? (B1.length + 2) = some tokElsif := by
    rw [hsrc, show B1.length + 2 =
      (tokIfdef :: tokId m :: B1).length + 0 from by
        simp only [List.length_cons] <;> omega]
    rw [hdec1, get?_shift]
    rfl
  have htsNm : ft.src.get? (B1.length + 3) = some (tokId nm) := by
    rw [hsrc, show B1.length + 3 =
      (tokIfdef :: tokId m :: B1).length + 1 from by
        simp only [List.length_cons] <;> omega]
    rw [hdec1, get?_shift]
    rfl
  have hmid0 : getMacroIDOfConditional ft.src ft.macroMap 0 = .ok 0 := by
    rw [hmap]
    simp only [getMacroIDOfConditional, ht0, ht1]
    simp [tokIfdef, tokId, List.lookup]
  have hmid1 : getMacroIDOfConditional ft.src ft.macroMap
      (B1.length + 2) = .ok 1 := by
    rw [hmap]
    simp only [getMacroIDOfConditional, htsElsif, htsNm]
    simp [tokElsif, tokId, List.lookup, hbeq]
  have hkW1 : ∀ t ∈ tokId m :: B1,
      (t.kind == TokKind.ppIfdef || t.kind == TokKind.ppIfndef ||
        t.kind == TokKind.ppElsif) = false := by
    intro t ht
    rcases List.mem_cons.mp ht with h | h
    · subst h; rfl
    · exact ord_not_branch t (hB1 t h)
  have hkW2 : ∀ t ∈ ([tokEndif] : List Token),
      (t.kind == TokKind.ppIfdef || t.kind == TokKind.ppIfndef ||
        t.kind == TokKind.ppElsif) = false := by
    intro t ht
    rw [List.mem_singleton.mp ht]
    rfl
  have hkW3 : ∀ t ∈ tokId nm :: B2,
      (t.kind == TokKind.ppIfdef || t.kind == TokKind.ppIfndef ||
        t.kind == TokKind.ppElsif) = false := by
    intro t ht
    rcases List.mem_cons.mp ht with h | h
    · subst h; rfl
    · exact ord_not_branch t (hB2 t h)
  have hkW4 : ∀ t ∈ tokElse :: (B3 ++ [tokEndif]),
      (t.kind == TokKind.ppIfdef || t.kind == TokKind.ppIfndef ||
        t.kind == TokKind.ppElsif) = false := by
    intro t ht
    rcases List.mem_cons.mp ht with h | h
    · subst h; rfl
    rcases List.mem_append.mp h with h2 | h2
    · exact ord_not_branch t (hB3 t h2)
    · rw [List.mem_singleton.mp h2]; rfl
  have hfW1 : (tokId m :: B1).filter (fun t => emitted t.kind) = B1 := by
    simp only [List.filter_cons]
    rw [filter_emitted_ordinary B1 hB1]
    simp [emitted, tokId]
  have hfEndif : List.filter (fun t => emitted t.kind) [tokEndif] =
      ([] : List Token) := rfl
  have hfW4 : (tokElse :: (B3 ++ [tokEndif])).filter
      (fun t => emitted t.kind) = B3 := by
    simp only [List.filter_cons, List.filter_append]
    rw [filter_emitted_ordinary B3 hB3]
    simp [emitted, tokElse, tokEndif]
  have htsW1 : ∀ j, j < (tokId m :: B1).length →
      ft.src.get? (1 + j) = (tokId m :: B1).get? j := by
    intro j hj
    rw [hsrc, show 1 + j = ([tokIfdef] : List Token).length + j from by
      simp only [List.length_cons, List.length_nil] <;> omega]
    rw [show tokIfdef :: tokId m :: (B1 ++ tokElsif :: tokId nm :: (B2 ++ tokElse :: (B3 ++ [tokEndif]))) =
      ([tokIfdef] : List Token) ++ ((tokId m :: B1) ++ (tokElsif ::
        tokId nm :: (B2 ++ tokElse :: (B3 ++ [tokEndif])))) from by simp]
    rw [get?_shift]
    exact List.get?_append hj
  have htsW2 : ∀ j, ft.src.get? (B1.length + B2.length + B3.length + 5 + j) =
      ([tokEndif] : List Token).get? j := by
    intro j
    rw [hsrc, show B1.length + B2.length + B3.length + 5 + j =
      (tokIfdef :: tokId m :: (B1 ++ tokElsif :: tokId nm ::
        (B2 ++ tokElse :: B3))).length + j from by
        simp only [List.length_cons, List.length_append, List.length_nil]
          <;> omega]
    rw [show tokIfdef :: tokId m :: (B1 ++ tokElsif :: tokId nm :: (B2 ++ tokElse :: (B3 ++ [tokEndif]))) =
      (tokIfdef :: tokId m :: (B1 ++ tokElsif :: tokId nm ::
        (B2 ++ tokElse :: B3))) ++ [tokEndif] from by simp]
    rw [get?_shift]
  have htsW3 : ∀ j, j < (tokId nm :: B2).length →
      ft.src.get? (B1.length + 3 + j) = (tokId nm :: B2).get? j := by
    intro j hj
    rw [hsrc, show B1.length + 3 + j =
      (tokIfdef :: tokId m :: (B1 ++ [tokElsif])).length + j from by
        simp only [List.length_cons, List.length_append, List.length_nil]
          <;> omega]
    rw [show tokIfdef :: tokId m :: (B1 ++ tokElsif :: tokId nm :: (B2 ++ tokElse :: (B3 ++ [tokEndif]))) =
      (tokIfdef :: tokId m :: (B1 ++ [tokElsif])) ++ ((tokId nm :: B2) ++
        (tokElse :: (B3 ++ [tokEndif]))) from by simp]
    rw [get?_shift]
    exact List.get?_append hj
  have htsW4 : ∀ j, ft.src.get? (B1.length + B2.length + 4 + j) =
      (tokElse :: (B3 ++ [tokEndif])).get? j := by
    intro j
    rw [hsrc, show B1.length + B2.length + 4 + j =
      (tokIfdef :: tokId m :: (B1 ++ tokElsif :: tokId nm ::
        B2)).length + j from by
        simp only [List.length_cons, List.length_append, List.length_nil]
          <;> omega]
    rw [show tokIfdef :: tokId m :: (B1 ++ tokElsif :: tokId nm :: (B2 ++ tokElse :: (B3 ++ [tokEndif]))) =
      (tokIfdef :: tokId m :: (B1 ++ tokElsif :: tokId nm :: B2)) ++
        (tokElse :: (B3 ++ [tokEndif])) from by simp]
    rw [get?_shift]
  have hedW1 : ∀ j, j + 1 < (tokId m :: B1).length →
      ft.edges (1 + j) = [1 + j + 1] := by
    intro j hj
    simp only [List.length_cons] at hj
    exact hEone2 (1 + j) (by omega) (by omega) (by omega) (by omega)
      (by omega)
  have hedW3 : ∀ j, j + 1 < (tokId nm :: B2).length →
      ft.edges (B1.length + 3 + j) = [B1.length + 3 + j + 1] := by
    intro j hj
    simp only [List.length_cons] at hj
    exact hEone2 (B1.length + 3 + j) (by omega) (by omega) (by omega)
      (by omega) (by omega)
  have hedW4 : ∀ j, j + 1 < (tokElse :: (B3 ++ [tokEndif])).length →
      ft.edges (B1.length + B2.length + 4 + j) =
        [B1.length + B2.length + 4 + j + 1] := by
    intro j hj
    simp only [List.length_cons, List.length_append, List.length_nil] at hj
    exact hEone2 (B1.length + B2.length + 4 + j) (by omega) (by omega)
      (by omega) (by omega) (by omega)
  have hF1 : dfs alwaysTrue ft (B2.length + B3.length + 5) (B1.length + B2.length + B3.length + 5)
      (fun j => if j = 0 then true else false) ⟨B1, 0, fun j => if j = 0 then true else false, [(⟨[], 0, false⟩ : RCall)] ++ freePartials [] 0 (tokId m :: B1)⟩ =
      (⟨B1, 1, fun j => if j = 0 then true else false, [(⟨[], 0, false⟩ : RCall)] ++ freePartials [] 0 (tokId m :: B1) ++ freePartials B1 0 [tokEndif] ++ [(⟨B1, 0, true⟩ : RCall)]⟩, none) := by
    rw [show B2.length + B3.length + 5 = (B2.length + B3.length + 4) +
      ([tokEndif] : List Token).length from by
        simp only [List.length_cons, List.length_nil] <;> omega]
    have h := dfs_free_walk ft [tokEndif] (B2.length + B3.length + 4)
      (B1.length + B2.length + B3.length + 5) (fun j => if j = 0 then true else false) ⟨B1, 0, fun j => if j = 0 then true else false, [(⟨[], 0, false⟩ : RCall)] ++ freePartials [] 0 (tokId m :: B1)⟩
      (by simp)
      (by rw [hlenSRC]
          simp only [List.length_cons, List.length_nil] <;> omega)
      htsW2 hkW2
      (by intro j hj
          simp only [List.length_cons, List.length_nil] at hj
          omega)
      hElast2
    rw [hfEndif, List.append_nil] at h
    exact h
  have hW1 : dfs alwaysTrue ft (B1.length + B2.length + B3.length + 6) 1
      (fun j => if j = 0 then true else false) ⟨[], 0, fun j => if j = 0 then true else false, [(⟨[], 0, false⟩ : RCall)]⟩ =
      (⟨[], 1, fun j => if j = 0 then true else false, [(⟨[], 0, false⟩ : RCall)] ++ freePartials [] 0 (tokId m :: B1) ++ freePartials B1 0 [tokEndif] ++ [(⟨B1, 0, true⟩ : RCall)]⟩, none) := by
    rw [show B1.length + B2.length + B3.length + 6 = (B2.length + B3.length + 5) +
      (tokId m :: B1).length from by
        simp only [List.length_cons] <;> omega]
    refine dfs_chain_jump ft (tokId m :: B1) (B2.length + B3.length + 5)
      1 (B1.length + B2.length + B3.length + 5) (fun j => if j = 0 then true else false) ⟨[], 0, fun j => if j = 0 then true else false, [(⟨[], 0, false⟩ : RCall)]⟩
      ⟨B1, 1, fun j => if j = 0 then true else false, [(⟨[], 0, false⟩ : RCall)] ++ freePartials [] 0 (tokId m :: B1) ++ freePartials B1 0 [tokEndif] ++ [(⟨B1, 0, true⟩ : RCall)]⟩
      (by simp) ?_ htsW1 hkW1 hedW1 ?_ ?_
    · rw [hlenSRC]
      simp only [List.length_cons] <;> omega
    · rw [show 1 + (tokId m :: B1).length - 1 = B1.length + 1 from by
        simp only [List.length_cons]; omega]
      exact hEjump
    · rw [hfW1]
      exact hF1
  have hW3 : dfs alwaysTrue ft (B1.length + B2.length + B3.length + 5) (B1.length + 3)
      (fun j => if j = 1 then !(if j = 0 then true else false) else if j = 0 then true else false) ⟨[], 1, fun j => if j = 1 then true else if j = 0 then false else if j = 0 then true else false, [(⟨[], 0, false⟩ : RCall)] ++ freePartials [] 0 (tokId m :: B1) ++ freePartials B1 0 [tokEndif] ++ [(⟨B1, 0, true⟩ : RCall)] ++ [(⟨[], 1, false⟩ : RCall)]⟩ =
      (⟨[], 1, fun j => if j = 1 then true else if j = 0 then false else if j = 0 then true else false, [(⟨[], 0, false⟩ : RCall)] ++ freePartials [] 0 (tokId m :: B1) ++ freePartials B1 0 [tokEndif] ++ [(⟨B1, 0, true⟩ : RCall)] ++ [(⟨[], 1, false⟩ : RCall)] ++ freePartials [] 1 (tokId nm :: B2)⟩, none) := by
    rw [show B1.length + B2.length + B3.length + 5 = (B1.length + B3.length + 4) +
      (tokId nm :: B2).length from by
        simp only [List.length_cons] <;> omega]
    exact dfs_dead_walk ft (tokId nm :: B2) (B1.length + B3.length + 4)
      (B1.length + 3) (fun j => if j = 1 then !(if j = 0 then true else false) else if j = 0 then true else false) ⟨[], 1, fun j => if j = 1 then true else if j = 0 then false else if j = 0 then true else false, [(⟨[], 0, false⟩ : RCall)] ++ freePartials [] 0 (tokId m :: B1) ++ freePartials B1 0 [tokEndif] ++ [(⟨B1, 0, true⟩ : RCall)] ++ [(⟨[], 1, false⟩ : RCall)]⟩
      (by simp)
      (by rw [hlenSRC]
          simp only [List.length_cons] <;> omega)
      htsW3 hkW3 hedW3
      (by rw [show B1.length + 3 + (tokId nm :: B2).length - 1 =
            B1.length + B2.length + 3 from by
            simp only [List.length_cons]; omega]
          exact hEdead)
  have hW4 : dfs alwaysTrue ft (B1.length + B2.length + B3.length + 5) (B1.length + B2.length + 4)
      (fun j => if j = 1 then !(if j = 0 then true else false) else if j = 0 then true else false) ⟨[], 1, fun j => if j = 1 then false else if j = 1 then true else if j = 0 then false else if j = 0 then true else false, [(⟨[], 0, false⟩ : RCall)] ++ freePartials [] 0 (tokId m :: B1) ++ freePartials B1 0 [tokEndif] ++ [(⟨B1, 0, true⟩ : RCall)] ++ [(⟨[], 1, false⟩ : RCall)] ++ freePartials [] 1 (tokId nm :: B2)⟩ =
      (⟨[], 2, fun j => if j = 1 then false else if j = 1 then true else if j = 0 then false else if j = 0 then true else false, [(⟨[], 0, false⟩ : RCall)] ++ freePartials [] 0 (tokId m :: B1) ++ freePartials B1 0 [tokEndif] ++ [(⟨B1, 0, true⟩ : RCall)] ++ [(⟨[], 1, false⟩ : RCall)] ++ freePartials [] 1 (tokId nm :: B2) ++ freePartials [] 1 (tokElse :: (B3 ++ [tokEndif])) ++ [(⟨B3, 1, true⟩ : RCall)]⟩, none) := by
    rw [show B1.length + B2.length + B3.length + 5 = (B1.length + B2.length + 3) +
      (tokElse :: (B3 ++ [tokEndif])).length from by
        simp only [List.length_cons, List.length_append, List.length_nil]
          <;> omega]
    have h := dfs_free_walk ft (tokElse :: (B3 ++ [tokEndif]))
      (B1.length + B2.length + 3) (B1.length + B2.length + 4)
      (fun j => if j = 1 then !(if j = 0 then true else false) else if j = 0 then true else false) ⟨[], 1, fun j => if j = 1 then false else if j = 1 then true else if j = 0 then false else if j = 0 then true else false, [(⟨[], 0, false⟩ : RCall)] ++ freePartials [] 0 (tokId m :: B1) ++ freePartials B1 0 [tokEndif] ++ [(⟨B1, 0, true⟩ : RCall)] ++ [(⟨[], 1, false⟩ : RCall)] ++ freePartials [] 1 (tokId nm :: B2)⟩
      (by simp)
      (by rw [hlenSRC]
          simp only [List.length_cons, List.length_append, List.length_nil] <;> omega)
      htsW4 hkW4 hedW4 hElast2
    rw [hfW4] at h
    exact h
  have hBr2 : dfs alwaysTrue ft (B1.length + B2.length + B3.length + 6) (B1.length + 2)
      (fun j => if j = 0 then true else false) ⟨[], 1, fun j => if j = 0 then false else if j = 0 then true else false, [(⟨[], 0, false⟩ : RCall)] ++ freePartials [] 0 (tokId m :: B1) ++ freePartials B1 0 [tokEndif] ++ [(⟨B1, 0, true⟩ : RCall)]⟩ =
      (⟨[], 2, fun j => if j = 1 then false else if j = 1 then true else if j = 0 then false else if j = 0 then true else false, [(⟨[], 0, false⟩ : RCall)] ++ freePartials [] 0 (tokId m :: B1) ++ freePartials B1 0 [tokEndif] ++ [(⟨B1, 0, true⟩ : RCall)] ++ [(⟨[], 1, false⟩ : RCall)] ++ freePartials [] 1 (tokId nm :: B2) ++ freePartials [] 1 (tokElse :: (B3 ++ [tokEndif])) ++ [(⟨B3, 1, true⟩ : RCall)]⟩, none) := by
    exact dfs_branch_unassumed ft (B1.length + B2.length + B3.length + 5) (B1.length + 2)
      (B1.length + B2.length + 4) tokElsif 1 (fun j => if j = 0 then true else false)
      ⟨[], 1, fun j => if j = 0 then false else if j = 0 then true else false, [(⟨[], 0, false⟩ : RCall)] ++ freePartials [] 0 (tokId m :: B1) ++ freePartials B1 0 [tokEndif] ++ [(⟨B1, 0, true⟩ : RCall)]⟩
      ⟨[], 1, fun j => if j = 1 then true else if j = 0 then false else if j = 0 then true else false, [(⟨[], 0, false⟩ : RCall)] ++ freePartials [] 0 (tokId m :: B1) ++ freePartials B1 0 [tokEndif] ++ [(⟨B1, 0, true⟩ : RCall)] ++ [(⟨[], 1, false⟩ : RCall)] ++ freePartials [] 1 (tokId nm :: B2)⟩
      ⟨[], 2, fun j => if j = 1 then false else if j = 1 then true else if j = 0 then false else if j = 0 then true else false, [(⟨[], 0, false⟩ : RCall)] ++ freePartials [] 0 (tokId m :: B1) ++ freePartials B1 0 [tokEndif] ++ [(⟨B1, 0, true⟩ : RCall)] ++ [(⟨[], 1, false⟩ : RCall)] ++ freePartials [] 1 (tokId nm :: B2) ++ freePartials [] 1 (tokElse :: (B3 ++ [tokEndif])) ++ [(⟨B3, 1, true⟩ : RCall)]⟩
      htsElsif rfl rfl hmid1 (by decide) (by decide) rfl hEs
      (by rw [hlenSRC]; omega) hW3 hW4
  have hRoot : dfs alwaysTrue ft (B1.length + B2.length + B3.length + 6 + 1) 0
      (fun _ => false) ⟨[], 0, fun _ => false, []⟩ =
      (⟨[], 2, fun j => if j = 1 then false else if j = 1 then true else if j = 0 then false else if j = 0 then true else false, [(⟨[], 0, false⟩ : RCall)] ++ freePartials [] 0 (tokId m :: B1) ++ freePartials B1 0 [tokEndif] ++ [(⟨B1, 0, true⟩ : RCall)] ++ [(⟨[], 1, false⟩ : RCall)] ++ freePartials [] 1 (tokId nm :: B2) ++ freePartials [] 1 (tokElse :: (B3 ++ [tokEndif])) ++ [(⟨B3, 1, true⟩ : RCall)]⟩, none) := by
    exact dfs_branch_unassumed ft (B1.length + B2.length + B3.length + 6) 0 (B1.length + 2)
      tokIfdef 0 (fun _ => false) ⟨[], 0, fun _ => false, []⟩
      ⟨[], 1, fun j => if j = 0 then true else false, [(⟨[], 0, false⟩ : RCall)] ++ freePartials [] 0 (tokId m :: B1) ++ freePartials B1 0 [tokEndif] ++ [(⟨B1, 0, true⟩ : RCall)]⟩
      ⟨[], 2, fun j => if j = 1 then false else if j = 1 then true else if j = 0 then false else if j = 0 then true else false, [(⟨[], 0, false⟩ : RCall)] ++ freePartials [] 0 (tokId m :: B1) ++ freePartials B1 0 [tokEndif] ++ [(⟨B1, 0, true⟩ : RCall)] ++ [(⟨[], 1, false⟩ : RCall)] ++ freePartials [] 1 (tokId nm :: B2) ++ freePartials [] 1 (tokElse :: (B3 ++ [tokEndif])) ++ [(⟨B3, 1, true⟩ : RCall)]⟩
      ht0 rfl rfl hmid0 (by decide) (by decide) rfl hE0
      (by rw [hlenSRC]; omega) hW1 hBr2
  rw [generateVariants]
  rw [show ft.src.length + 1 = B1.length + B2.length + B3.length + 6 + 1 from by rw [hlenSRC]]
  exact hRoot

/-- C2 (amended): on the schema `ifdef M body1 elsif N body2 else body3
endif` with ordinary non-empty bodies and distinct macros, enumeration
yields exactly TWO complete variants, not four: body 1 at index 0 (M
assumed true) and body 3 at index 1 (M and N assumed false).  The
`(M false, N true)` path dead-ends at the last token of body 2, whose
position receives no merge edge, so it emits no variant. -/
theorem c2_amended_elsif_dead_end (m nm : String) (hmn : m ≠ nm)
    (B1 B2 B3 : List Token)
    (h1 : B1 ≠ []) (h2 : B2 ≠ []) (h3 : B3 ≠ [])
    (hB1 : ∀ t ∈ B1, t.kind = TokKind.ordinary)
    (hB2 : ∀ t ∈ B2, t.kind = TokKind.ordinary)
    (hB3 : ∀ t ∈ B3, t.kind = TokKind.ordinary) :
    enumVariants (elsifElseInput m nm B1 B2 B3) alwaysTrue =
      some [(B1, 0), (B3, 1)] := by
  have hB1c : ∀ t ∈ B1, isConditional t.kind = false :=
    fun t ht => ord_not_cond t (hB1 t ht)
  have hB2c : ∀ t ∈ B2, isConditional t.kind = false :=
    fun t ht => ord_not_cond t (hB2 t ht)
  have hB3c : ∀ t ∈ B3, isConditional t.kind = false :=
    fun t ht => ord_not_cond t (hB3 t ht)
  have hbuild := elsif_build m nm hmn B1 B2 B3
    (tokIfdef :: tokId m :: (B1 ++ tokElsif :: tokId nm :: (B2 ++ tokElse :: (B3 ++ [tokEndif])))).length rfl hB1c hB2c hB3c
  have hspec := elsifGraphEdges_spec m nm B1 B2 B3
    (tokIfdef :: tokId m :: (B1 ++ tokElsif :: tokId nm :: (B2 ++ tokElse :: (B3 ++ [tokEndif])))).length
    (by simp only [List.length_cons, List.length_append, List.length_nil]
          <;> omega)
    (List.length_pos.mpr h3)
  have hrun := c2_dfs_run m nm hmn B1 B2 B3
    ⟨elsifElseInput m nm B1 B2 B3,
     elsifGraphEdges m nm B1 B2 B3 (tokIfdef :: tokId m :: (B1 ++ tokElsif :: tokId nm :: (B2 ++ tokElse :: (B3 ++ [tokEndif])))).length,
     [(m, 0), (nm, 1)]⟩
    hB1 hB2 hB3
    (by simp [elsifElseInput])
    rfl
    hspec
  rw [enumVariants, enumCalls, enumerate, hbuild]
  simp only []
  rw [hrun]
  simp only []
  simp only [variantsOf_append, freePartials_no_variants]
  simp [variantsOf, List.append_assoc]

/-- C3 (amended): the out-degree profile of the graph built on the
`ifdef/elsif/else` schema: the two branching positions have exactly two
successor entries with the condition-true successor at index 0, the
position immediately before the `else` has zero entries (it gets no merge
edge) although it is not terminal, the last position has zero, and every
other position has exactly one. -/
theorem c3_amended_out_degree (m nm : String) (hmn : m ≠ nm)
    (B1 B2 B3 : List Token) (h3 : B3 ≠ [])
    (hB1 : ∀ t ∈ B1, isConditional t.kind = false)
    (hB2 : ∀ t ∈ B2, isConditional t.kind = false)
    (hB3 : ∀ t ∈ B3, isConditional t.kind = false) :
    (ftOf (elsifElseInput m nm B1 B2 B3)).edges 0 =
        [1, B1.length + 2] ∧
    (ftOf (elsifElseInput m nm B1 B2 B3)).edges (B1.length + 2) =
        [B1.length + 3, B1.length + B2.length + 4] ∧
    ∀ j, j < (elsifElseInput m nm B1 B2 B3).length →
      ((ftOf (elsifElseInput m nm B1 B2 B3)).edges j).length =
        (if j = 0 ∨ j = B1.length + 2 then 2
         else if j = B1.length + B2.length + 3 ∨
             j = B1.length + B2.length + B3.length + 5 then 0
         else 1) := by
  have hbuild := elsif_build m nm hmn B1 B2 B3
    (tokIfdef :: tokId m :: (B1 ++ tokElsif :: tokId nm :: (B2 ++ tokElse :: (B3 ++ [tokEndif])))).length rfl hB1 hB2 hB3
  have hspec := elsifGraphEdges_spec m nm B1 B2 B3
    (tokIfdef :: tokId m :: (B1 ++ tokElsif :: tokId nm :: (B2 ++ tokElse :: (B3 ++ [tokEndif])))).length
    (by simp only [List.length_cons, List.length_append, List.length_nil]
          <;> omega)
    (List.length_pos.mpr h3)
  have hft : ftOf (elsifElseInput m nm B1 B2 B3) =
      ⟨elsifElseInput m nm B1 B2 B3,
       elsifGraphEdges m nm B1 B2 B3 (tokIfdef :: tokId m :: (B1 ++ tokElsif :: tokId nm :: (B2 ++ tokElse :: (B3 ++ [tokEndif])))).length,
       [(m, 0), (nm, 1)]⟩ := by
    rw [ftOf, hbuild]
  have hlen : (elsifElseInput m nm B1 B2 B3).length =
      B1.length + B2.length + B3.length + 6 := by
    simp only [elsifElseInput, List.length_append, List.length_cons,
      List.length_nil]
    omega
  refine ⟨?_, ?_, ?_⟩
  · rw [hft]
    simp only []
    rw [hspec 0]
    simp only [elsifEdgeSpec]
    rw [if_pos trivial]
  · rw [hft]
    simp only []
    rw [hspec (B1.length + 2)]
    simp only [elsifEdgeSpec]
    rw [if_neg (by omega), if_neg (by omega), if_pos trivial]
  · intro j hj
    rw [hlen] at hj
    rw [hft]
    simp only []
    rw [hspec j]
    simp only [elsifEdgeSpec]
    split_ifs <;> first | rfl | omega

theorem c1_sibling_witness :
    enumVariants (siblingInput "M" [tokOrd "A"] [tokOrd "B"] [tokOrd "C"]
        [tokOrd "D"] [tokOrd "E"]) alwaysTrue =
      some [([tokOrd "A", tokOrd "B", tokOrd "C", tokOrd "D",
              tokOrd "E"], 0),
            ([tokOrd "A", tokOrd "C", tokOrd "E"], 1)] :=
  c1_sibling_macro_consistency "M" [tokOrd "A"] [tokOrd "B"] [tokOrd "C"]
    [tokOrd "D"] [tokOrd "E"] (by decide) (by decide) (by decide)
    (by decide) (by decide)

theorem c2_amended_witness :
    enumVariants (elsifElseInput "M" "N" [tokOrd "a"] [tokOrd "b"]
        [tokOrd "c"]) alwaysTrue =
      some [([tokOrd "a"], 0), ([tokOrd "c"], 1)] :=
  c2_amended_elsif_dead_end "M" "N" (by decide) [tokOrd "a"] [tokOrd "b"]
    [tokOrd "c"] (by decide) (by decide) (by decide) (by decide)
    (by decide) (by decide)

theorem c3_amended_witness :
    ((ftOf (elsifElseInput "M" "N" [tokOrd "a"] [tokOrd "b"]
        [tokOrd "c"])).edges 5).length = 0 ∧
    ((ftOf (elsifElseInput "M" "N" [tokOrd "a"] [tokOrd "b"]
        [tokOrd "c"])).edges 3).length = 2 := by
  constructor
  · have h := (c3_amended_out_degree "M" "N" (by decide) [tokOrd "a"]
      [tokOrd "b"] [tokOrd "c"] (by decide) (by decide) (by decide)
      (by decide)).2.2 5 (by decide)
    simpa using h
  · have h := (c3_amended_out_degree "M" "N" (by decide) [tokOrd "a"]
      [tokOrd "b"] [tokOrd "c"] (by decide) (by decide) (by decide)
      (by decide)).2.2 3 (by decide)
    simpa using h

end FlowTreeSpec
